import Mathlib

/-! A shallow embedding of the simulation core of tetriscpp (`src/tetris.cpp`).

Conventions of the embedding.

* `s32` values are `Int` (no wrap-around: signed overflow is undefined in the source and is
  never reached by the bounded quantities the theorems are about); `u8` values are `Nat`.
* C arrays are `List Nat`; every array access goes through `array_read` / `array_write`, which
  fail with `Fault.out_of_bounds` when the index lies outside the array. Code that can fail
  lives in `Exec := Except Fault`.
* `for (i = 0; i < n; ++i)` loops run over `List.range n.toNat`; loops whose termination is
  not evident from the loop header take a fuel argument and fail with `Fault.out_of_fuel`
  when the fuel is used up.
* `f32` is an abstract carrier `F` with the operations the program uses (`Float_ops`), so that
  nothing proved here depends on how floating point rounds.
* `rand()` is an explicit stream `Env.rand`; the world records how many calls were made.
-/

namespace Tetris

/-! ## Execution results -/

/-- The two ways a run of the embedded code can fail to produce a value. -/
inductive Fault where
  | out_of_bounds
  | out_of_fuel
  deriving DecidableEq, Repr

deriving instance DecidableEq for Except

/-- Results of embedded code: a value, or a fault. -/
abbrev Exec (α : Type) := Except Fault α

/-- The read `xs[index]` of a C array of `xs.length` elements. -/
def array_read (xs : List Nat) (index : Int) : Exec Nat :=
  if index < 0 then .error .out_of_bounds
  else match xs[index.toNat]? with
    | some v => .ok v
    | none => .error .out_of_bounds

/-- The write `xs[index] = value` into a C array of `xs.length` elements. -/
def array_write (xs : List Nat) (index : Int) (value : Nat) : Exec (List Nat) :=
  if index < 0 then .error .out_of_bounds
  else if index.toNat < xs.length then .ok (xs.set index.toNat value)
  else .error .out_of_bounds

/-- The loop `for (...) { if (!body(i)) return false; } return true;` over the indices `is`:
the body answers whether to go on, the loop stops at the first `false` or fault. -/
def loop_all (body : Nat → Exec Bool) : List Nat → Exec Bool
  | [] => .ok true
  | i :: rest =>
    match body i with
    | .ok true => loop_all body rest
    | .ok false => .ok false
    | .error e => .error e

/-- The loop `for (...) { state = body(state, i); }` over the indices `is`. -/
def loop_fold {σ : Type} (body : σ → Nat → Exec σ) : σ → List Nat → Exec σ
  | s, [] => .ok s
  | s, i :: rest =>
    match body s i with
    | .ok s1 => loop_fold body s1 rest
    | .error e => .error e

/-! ## Constants and the shape catalog -/

/-- `#define WIDTH 10` -/
def WIDTH : Int := 10

/-- `#define HEIGHT 22` -/
def HEIGHT : Int := 22

/-- `const f32 FRAMES_PER_DROP[]`: the integer literals of the table, in order. -/
def FRAMES_PER_DROP : List Nat :=
  [48, 43, 38, 33, 28, 23, 18, 14, 8, 6, 5, 5, 5, 4, 4, 4, 3, 3, 3,
   2, 2, 2, 2, 2, 2, 2, 2, 2, 1]

/-- `struct Tetrino`: a mask of `side * side` bytes. -/
structure Tetrino where
  data : List Nat
  side : Int
  deriving DecidableEq, Repr

def TETRINO_1 : List Nat :=
  [0,0,0,0,
   1,1,1,1,
   0,0,0,0,
   0,0,0,0]

def TETRINO_2 : List Nat :=
  [2,2,
   2,2]

def TETRINO_3 : List Nat :=
  [0,0,0,
   3,3,3,
   0,3,0]

def TETRINO_4 : List Nat :=
  [0,4,4,
   4,4,0,
   0,0,0]

def TETRINO_5 : List Nat :=
  [5,5,0,
   0,5,0,
   0,0,0]

def TETRINO_6 : List Nat :=
  [6,0,0,
   6,6,6,
   0,0,0]

def TETRINO_7 : List Nat :=
  [0,0,7,
   7,7,7,
   0,0,0]

def TETRINOS : List Tetrino :=
  [⟨TETRINO_1, 4⟩, ⟨TETRINO_2, 2⟩, ⟨TETRINO_3, 3⟩, ⟨TETRINO_4, 3⟩,
   ⟨TETRINO_5, 3⟩, ⟨TETRINO_6, 3⟩, ⟨TETRINO_7, 3⟩]

/-- The pointer `TETRINOS + index`, dereferenced: a fault outside the catalog. -/
def tetrino_at (index : Nat) : Exec Tetrino :=
  match TETRINOS[index]? with
  | some t => .ok t
  | none => .error .out_of_bounds

/-! ## Data model -/

inductive Game_Phase where
  | GAME_PHASE_PLAY
  | GAME_PHASE_LINE
  deriving DecidableEq, Repr

structure Piece_State where
  tetrino_index : Nat
  offset_row : Int
  offset_col : Int
  rotation : Int
  deriving DecidableEq, Repr

structure Game_state (F : Type) where
  board : List Nat
  lines : List Nat
  pending_line_count : Int
  piece : Piece_State
  phase : Game_Phase
  start_level : Int
  level : Int
  line_count : Int
  points : Int
  next_drop_time : F
  time : F
  highlight_end_time : F
  deriving DecidableEq

structure Input_State where
  left : Nat
  right : Nat
  up : Nat
  down : Nat
  space : Nat
  dleft : Int
  dright : Int
  dup : Int
  ddown : Int
  dspace : Int
  deriving DecidableEq, Repr

/-- The `f32` operations the program uses, over an abstract carrier. -/
structure Float_ops (F : Type) where
  add : F → F → F
  mul : F → F → F
  div : F → F → F
  ge : F → F → Bool
  of_nat : Nat → F
  half : F

/-- What the program takes from outside: the float arithmetic and the results of the
successive calls of `rand()`. -/
structure Env (F : Type) where
  ops : Float_ops F
  rand : Nat → Nat

/-- The game state together with the number of `rand()` calls made so far. -/
structure World (F : Type) where
  game : Game_state F
  rand_calls : Nat
  deriving DecidableEq

/-! ## Board and piece geometry -/

def matrix_get (values : List Nat) (width row col : Int) : Exec Nat :=
  let index := row * width + col
  array_read values index

def matrix_set (values : List Nat) (width row col : Int) (value : Nat) : Exec (List Nat) :=
  let index := row * width + col
  array_write values index value

def tetrino_get (tetrino : Tetrino) (row col rotation : Int) : Exec Nat :=
  let side := tetrino.side
  if rotation = 0 then array_read tetrino.data (row * side + col)
  else if rotation = 1 then array_read tetrino.data ((side - col - 1) * side + row)
  else if rotation = 2 then array_read tetrino.data ((side - row - 1) * side + (side - col - 1))
  else if rotation = 3 then array_read tetrino.data (col * side + (side - row - 1))
  else .ok 0

/-- The body of the loop of `check_row_filled`: `false` stands for `return 0`. -/
def check_row_filled_cell (values : List Nat) (width row : Int) (col : Nat) : Exec Bool :=
  match matrix_get values width row col with
  | .ok v => .ok (v != 0)
  | .error e => .error e

def check_row_filled (values : List Nat) (width row : Int) : Exec Nat :=
  match loop_all (check_row_filled_cell values width row) (List.range width.toNat) with
  | .ok true => .ok 1
  | .ok false => .ok 0
  | .error e => .error e

/-- The body of the inner loop of `check_piece_valid`: `false` stands for `return false`. -/
def check_piece_valid_cell (tetrino : Tetrino) (piece : Piece_State) (board : List Nat)
    (width height : Int) (row col : Nat) : Exec Bool :=
  match tetrino_get tetrino row col piece.rotation with
  | .error e => .error e
  | .ok value =>
    if value > 0 then
      let board_row := piece.offset_row + row
      let board_col := piece.offset_col + col
      if board_row < 0 then .ok false
      else if board_row ≥ height then .ok false
      else if board_col < 0 then .ok false
      else if board_col ≥ width then .ok false
      else match matrix_get board width board_row board_col with
        | .error e => .error e
        | .ok v => if v != 0 then .ok false else .ok true
    else .ok true

def check_piece_valid (piece : Piece_State) (board : List Nat) (width height : Int) :
    Exec Bool :=
  match tetrino_at piece.tetrino_index with
  | .error e => .error e
  | .ok tetrino =>
    loop_all (fun row =>
      loop_all (fun col => check_piece_valid_cell tetrino piece board width height row col)
        (List.range tetrino.side.toNat))
      (List.range tetrino.side.toNat)

def find_lines (values : List Nat) (width height : Int) (lines_out : List Nat) :
    Exec (Int × List Nat) :=
  loop_fold (fun (st : Int × List Nat) row =>
      match check_row_filled values width row with
      | .error e => .error e
      | .ok filled =>
        match array_write st.2 row filled with
        | .error e => .error e
        | .ok lines1 => .ok (st.1 + filled, lines1))
    (0, lines_out) (List.range height.toNat)

/-- The call `memset(values + offset, 0, count)`. -/
def memset_zero (values : List Nat) (offset count : Int) : Exec (List Nat) :=
  loop_fold (fun vs i => array_write vs (offset + i) 0) values (List.range count.toNat)

/-- The call `memcpy(values + dst, values + src, count)` as a forward byte copy, which is what
`memcpy` does when the two regions do not overlap (in `clear_lines` they are two different
rows). -/
def memcpy (values : List Nat) (dst src count : Int) : Exec (List Nat) :=
  loop_fold (fun vs i =>
      match array_read vs (src + i) with
      | .error e => .error e
      | .ok v => array_write vs (dst + i) v) values (List.range count.toNat)

/-- The loop `while (src_row >= 0 && lines[src_row]) --src_row;` of `clear_lines`, for
`src_row = n - 1`: the recursion is on `src_row + 1`, which the loop counts down to 0. -/
def clear_lines_skip (lines : List Nat) : Nat → Exec Int
  | 0 => .ok (-1)
  | n + 1 =>
    match array_read lines n with
    | .error e => .error e
    | .ok flag => if flag != 0 then clear_lines_skip lines n else .ok n

/-- The body of the `for` loop of `clear_lines`; the state is `(values, src_row)`. -/
def clear_lines_step (width : Int) (lines : List Nat) (st : List Nat × Int) (dst_row : Nat) :
    Exec (List Nat × Int) :=
  match (if st.2 < 0 then .ok st.2 else clear_lines_skip lines (st.2 + 1).toNat :
      Exec Int) with
  | .error e => .error e
  | .ok src_row =>
    if src_row < 0 then
      match memset_zero st.1 (dst_row * width) width with
      | .error e => .error e
      | .ok vs => .ok (vs, src_row)
    else if src_row ≠ dst_row then
      match memcpy st.1 (dst_row * width) (src_row * width) width with
      | .error e => .error e
      | .ok vs => .ok (vs, src_row - 1)
    else .ok (st.1, src_row - 1)

def clear_lines (values : List Nat) (width height : Int) (lines : List Nat) :
    Exec (List Nat) :=
  match loop_fold (clear_lines_step width lines) (values, height - 1)
      (List.range height.toNat).reverse with
  | .error e => .error e
  | .ok st => .ok st.1

/-- The body of the inner loop of `merge_piece`, on the board. -/
def merge_piece_cell (tetrino : Tetrino) (piece : Piece_State) (row : Nat) (board : List Nat)
    (col : Nat) : Exec (List Nat) :=
  match tetrino_get tetrino row col piece.rotation with
  | .error e => .error e
  | .ok value =>
    if value != 0 then
      let board_row := piece.offset_row + row
      let board_col := piece.offset_col + col
      matrix_set board WIDTH board_row board_col value
    else .ok board

def merge_piece {F : Type} (game : Game_state F) : Exec (Game_state F) :=
  match tetrino_at game.piece.tetrino_index with
  | .error e => .error e
  | .ok tetrino =>
    match loop_fold (fun board row =>
        loop_fold (merge_piece_cell tetrino game.piece row) board
          (List.range tetrino.side.toNat))
      game.board (List.range tetrino.side.toNat) with
    | .error e => .error e
    | .ok board => .ok { game with board := board }

/-- The function `random_int(min, max)` for `u8` arguments, `r` being what its call of
`rand()` returns. (The only call has `max - min = 7`, so the division is by 7.) -/
def random_int (min max : Nat) (r : Nat) : Nat :=
  let range := (max + 256 - min) % 256
  (min + r % range) % 256

def spawn_piece {F : Type} (env : Env F) (w : World F) : World F :=
  { game := { w.game with
      piece := { tetrino_index := random_int 0 TETRINOS.length (env.rand w.rand_calls),
                 offset_row := 0
                 offset_col := WIDTH / 2
                 rotation := 0 } },
    rand_calls := w.rand_calls + 1 }

/-- `const f32 TARGET_SECONDS_PER_FRAME = 1.f / 60.f;` -/
def TARGET_SECONDS_PER_FRAME {F : Type} (ops : Float_ops F) : F :=
  ops.div (ops.of_nat 1) (ops.of_nat 60)

/-- `#define HIGHLIGHT_TIME 0.5f` -/
def HIGHLIGHT_TIME {F : Type} (ops : Float_ops F) : F := ops.half

/-- The statement `if(level > 29) level = 29;` of `get_time_to_next_drop`: the index at
which the function then reads `FRAMES_PER_DROP`. -/
def drop_table_index (level : Int) : Int := if level > 29 then 29 else level

def get_time_to_next_drop {F : Type} (ops : Float_ops F) (level : Int) : Exec F :=
  let level := drop_table_index level
  match array_read FRAMES_PER_DROP level with
  | .error e => .error e
  | .ok frames => .ok (ops.mul (ops.of_nat frames) (TARGET_SECONDS_PER_FRAME ops))

def soft_drop {F : Type} (env : Env F) (w : World F) : Exec (Bool × World F) :=
  let moved : Piece_State := { w.game.piece with offset_row := w.game.piece.offset_row + 1 }
  match check_piece_valid moved w.game.board WIDTH HEIGHT with
  | .error e => .error e
  | .ok false =>
    let back : Piece_State := { moved with offset_row := moved.offset_row - 1 }
    match merge_piece { w.game with piece := back } with
    | .error e => .error e
    | .ok game => .ok (false, spawn_piece env { w with game := game })
  | .ok true =>
    match get_time_to_next_drop env.ops w.game.level with
    | .error e => .error e
    | .ok dt =>
      .ok (true, { w with game := { w.game with
        piece := moved, next_drop_time := env.ops.add w.game.time dt } })

def compute_points (level line_count : Int) : Int :=
  if line_count = 1 then 40 * (level + 1)
  else if line_count = 2 then 100 * (level + 1)
  else if line_count = 3 then 300 * (level + 1)
  else if line_count = 4 then 1200 * (level + 1)
  else 0

/-- The function `min` of the source. -/
def min_s32 (x y : Int) : Int := if x < y then x else y

/-- The function `max` of the source. -/
def max_s32 (x y : Int) : Int := if x > y then x else y

def get_lines_for_next_level (start_level level : Int) : Int :=
  let first_level_up_limit :=
    min_s32 (start_level * 10 + 10) (max_s32 100 (start_level * 10 - 50))
  if level = start_level then first_level_up_limit
  else
    let diff := level - start_level
    first_level_up_limit + diff * 10

/-! ## The engine -/

def update_game_line {F : Type} (ops : Float_ops F) (game : Game_state F) :
    Exec (Game_state F) :=
  if ops.ge game.time game.highlight_end_time then
    match clear_lines game.board WIDTH HEIGHT game.lines with
    | .error e => .error e
    | .ok board =>
      let line_count := game.line_count + game.pending_line_count
      let points := game.points + compute_points game.level game.pending_line_count
      let lines_for_next_level := get_lines_for_next_level game.start_level game.level
      let level := if line_count ≥ lines_for_next_level then game.level + 1 else game.level
      .ok { game with
        board := board, line_count := line_count, points := points, level := level,
        phase := .GAME_PHASE_PLAY }
  else .ok game

/-- The candidate piece built at the start of `update_game_play`. -/
def update_game_play_candidate (piece : Piece_State) (input : Input_State) : Piece_State :=
  let piece := if input.dleft > 0 then { piece with offset_col := piece.offset_col - 1 }
    else piece
  let piece := if input.dright > 0 then { piece with offset_col := piece.offset_col + 1 }
    else piece
  if input.dup > 0 then { piece with rotation := (piece.rotation + 1).tmod 4 } else piece

/-- The move and rotate step of `update_game_play`: the candidate is committed when valid. -/
def update_game_play_move {F : Type} (game : Game_state F) (input : Input_State) :
    Exec (Game_state F) :=
  let piece := update_game_play_candidate game.piece input
  match check_piece_valid piece game.board WIDTH HEIGHT with
  | .error e => .error e
  | .ok true => .ok { game with piece := piece }
  | .ok false => .ok game

/-- The loop `while (soft_drop(game));` of `update_game_play`. -/
def hard_drop_loop {F : Type} (env : Env F) : Nat → World F → Exec (World F)
  | 0, _ => .error .out_of_fuel
  | fuel + 1, w =>
    match soft_drop env w with
    | .error e => .error e
    | .ok (true, w1) => hard_drop_loop env fuel w1
    | .ok (false, w1) => .ok w1

/-- The loop `while (game->time >= game->next_drop_time) soft_drop(game);`. -/
def gravity_loop {F : Type} (env : Env F) : Nat → World F → Exec (World F)
  | 0, w =>
    if env.ops.ge w.game.time w.game.next_drop_time then .error .out_of_fuel else .ok w
  | fuel + 1, w =>
    if env.ops.ge w.game.time w.game.next_drop_time then
      match soft_drop env w with
      | .error e => .error e
      | .ok (_, w1) => gravity_loop env fuel w1
    else .ok w

/-- The end of `update_game_play`: the scan for filled rows and the phase change. -/
def update_game_play_lines {F : Type} (ops : Float_ops F) (game : Game_state F) :
    Exec (Game_state F) :=
  match find_lines game.board WIDTH HEIGHT game.lines with
  | .error e => .error e
  | .ok (count, lines) =>
    let game := { game with pending_line_count := count, lines := lines }
    if game.pending_line_count > 0 then
      .ok { game with
        phase := .GAME_PHASE_LINE,
        highlight_end_time := ops.add game.time (HIGHLIGHT_TIME ops) }
    else .ok game

/-- The soft-drop step of `update_game_play`: `if (input->ddown > 0) soft_drop(game);`. -/
def update_game_play_soft {F : Type} (env : Env F) (input : Input_State) (w : World F) :
    Exec (World F) :=
  if input.ddown > 0 then
    match soft_drop env w with
    | .error e => .error e
    | .ok (_, w1) => .ok w1
  else .ok w

/-- The hard-drop step of `update_game_play`:
`if (input->dspace > 0) while (soft_drop(game));`. -/
def update_game_play_hard {F : Type} (env : Env F) (fuel : Nat) (input : Input_State)
    (w : World F) : Exec (World F) :=
  if input.dspace > 0 then hard_drop_loop env fuel w else .ok w

/-- The function `update_game_play`; `fuel` bounds the iterations of each of its two `while`
loops. -/
def update_game_play {F : Type} (env : Env F) (fuel : Nat) (w : World F)
    (input : Input_State) : Exec (World F) :=
  match update_game_play_move w.game input with
  | .error e => .error e
  | .ok game =>
    match update_game_play_soft env input { w with game := game } with
    | .error e => .error e
    | .ok w2 =>
      match update_game_play_hard env fuel input w2 with
      | .error e => .error e
      | .ok w3 =>
        match gravity_loop env fuel w3 with
        | .error e => .error e
        | .ok w4 =>
          match update_game_play_lines env.ops w4.game with
          | .error e => .error e
          | .ok game1 => .ok { w4 with game := game1 }

def update_game {F : Type} (env : Env F) (fuel : Nat) (w : World F) (input : Input_State) :
    Exec (World F) :=
  match w.game.phase with
  | .GAME_PHASE_PLAY => update_game_play env fuel w input
  | .GAME_PHASE_LINE =>
    match update_game_line env.ops w.game with
    | .error e => .error e
    | .ok game => .ok { w with game := game }

/-! ## The host loop (`main`) -/

/-- The initialisation in `main`: a zeroed `Game_state` at level 0 in the PLAY phase, the
first drop time, and the first spawned piece. -/
def main_init {F : Type} (env : Env F) : Exec (World F) :=
  match get_time_to_next_drop env.ops 0 with
  | .error e => .error e
  | .ok dt =>
    .ok (spawn_piece env
      { game :=
          { board := List.replicate (WIDTH * HEIGHT).toNat 0,
            lines := List.replicate HEIGHT.toNat 0,
            pending_line_count := 0,
            piece := ⟨0, 0, 0, 0⟩,
            phase := .GAME_PHASE_PLAY,
            start_level := 0, level := 0, line_count := 0, points := 0,
            next_drop_time := dt,
            time := env.ops.of_nat 0,
            highlight_end_time := env.ops.of_nat 0 },
        rand_calls := 0 })

/-- One frame of the loop in `main`: `game.time` is set to the clock value `now`, then
`update_game` runs on the input of the frame. -/
def main_frame {F : Type} (env : Env F) (fuel : Nat) (w : World F) (now : F)
    (input : Input_State) : Exec (World F) :=
  update_game env fuel { w with game := { w.game with time := now } } input

/-- Several frames in a row, each with its clock value and input. -/
def main_frames {F : Type} (env : Env F) (fuel : Nat) :
    World F → List (F × Input_State) → Exec (World F)
  | w, [] => .ok w
  | w, (now, input) :: rest =>
    match main_frame env fuel w now input with
    | .error e => .error e
    | .ok w1 => main_frames env fuel w1 rest

/-- The states the program can be in between two frames: the state after `main_init`, and
every state a frame that completes leads to from such a state, for any clock value and any
input. -/
inductive Reachable {F : Type} (env : Env F) : World F → Prop where
  | init (w : World F) (h : main_init env = .ok w) : Reachable env w
  | frame (w w1 : World F) (fuel : Nat) (now : F) (input : Input_State)
      (hw : Reachable env w) (h : main_frame env fuel w now input = .ok w1) : Reachable env w1

/-! ## A concrete instance of the float operations

Exact fractions `num / den` (not normalised), on which the operations are exact; they give
executable instances of the theorems, which hold for every `Float_ops`. -/

structure Frac where
  num : Int
  den : Nat
  deriving DecidableEq, Repr

/-- Exact arithmetic on fractions. -/
def exact_ops : Float_ops Frac where
  add a b := ⟨a.num * b.den + b.num * a.den, a.den * b.den⟩
  mul a b := ⟨a.num * b.num, a.den * b.den⟩
  div a b := ⟨a.num * b.den * b.num.sign, a.den * b.num.natAbs⟩
  ge a b := decide (a.num * b.den ≥ b.num * a.den)
  of_nat n := ⟨n, 1⟩
  half := ⟨1, 2⟩

/-! ## Concrete inputs -/

/-- Exact float arithmetic and a `rand()` that always returns 0. -/
def env_zero : Env Frac := ⟨exact_ops, fun _ => 0⟩

/-- The empty board. -/
def board_empty : List Nat := List.replicate 220 0

/-- A game in the PLAY phase at level 0 and time 0 with the given board and piece; the next
drop is due at time 4/5. -/
def game_with (board : List Nat) (piece : Piece_State) : Game_state Frac :=
  { board := board, lines := List.replicate 22 0, pending_line_count := 0, piece := piece,
    phase := .GAME_PHASE_PLAY, start_level := 0, level := 0, line_count := 0, points := 0,
    next_drop_time := ⟨4, 5⟩, time := ⟨0, 1⟩, highlight_end_time := ⟨0, 1⟩ }

/-- The I-piece as spawned (row 0, column 5, rotation 0) over the empty board. -/
def world_spawn_I : World Frac := ⟨game_with board_empty ⟨0, 0, 5, 0⟩, 0⟩

/-- The I-piece resting on the floor of the empty board (its bar in row 21). -/
def world_floor_I : World Frac := ⟨game_with board_empty ⟨0, 20, 5, 0⟩, 0⟩

/-- The I-piece as spawned over the empty board at level 28, the last level whose drop
interval is in the table (280 lines cleared). -/
def world_level_28 : World Frac :=
  ⟨{ game_with board_empty ⟨0, 0, 5, 0⟩ with level := 28, line_count := 280 }, 0⟩

/-- The I-piece as spawned over the empty board at level 29 (290 lines cleared). -/
def world_level_29 : World Frac :=
  ⟨{ game_with board_empty ⟨0, 0, 5, 0⟩ with level := 29, line_count := 290 }, 0⟩

/-- A board whose bottom row (row 21) is full of cells of piece id 2, all other rows empty. -/
def board_bottom_full : List Nat := List.replicate 210 0 ++ List.replicate 10 2

/-- A game in the LINE_CLEAR phase at level 0, time 1, with the highlight ending at time
1/2: the bottom row is full and recorded, one line is pending, 9 lines were cleared before. -/
def world_line_clear : World Frac :=
  ⟨{ game_with board_bottom_full ⟨0, 0, 5, 0⟩ with
      lines := List.replicate 21 0 ++ [1], pending_line_count := 1,
      phase := .GAME_PHASE_LINE, line_count := 9, points := 360,
      time := ⟨1, 1⟩, highlight_end_time := ⟨1, 2⟩ }, 3⟩

/-- The bottom row is full except for its last four cells (columns 6..9). -/
def board_bottom_gap : List Nat := List.replicate 210 0 ++ [2, 2, 2, 2, 2, 2, 0, 0, 0, 0]

/-- The I-piece as spawned at column 6, over the board whose bottom row lacks columns 6..9. -/
def world_gap_I : World Frac := ⟨game_with board_bottom_gap ⟨0, 0, 6, 0⟩, 0⟩

/-- The input with only hard drop (space) just pressed. -/
def input_hard_drop : Input_State := ⟨0, 0, 0, 0, 1, 0, 0, 0, 0, 1⟩

/-- The state after the I-piece was hard-dropped into the gap of `world_gap_I`: row 21 is
full, recorded and pending, the phase is LINE_CLEAR, a new piece is spawned. -/
def world_gap_I_after : World Frac :=
  ⟨{ board := List.replicate 210 0 ++ [2, 2, 2, 2, 2, 2, 1, 1, 1, 1],
     lines := List.replicate 21 0 ++ [1], pending_line_count := 1, piece := ⟨0, 0, 5, 0⟩,
     phase := .GAME_PHASE_LINE, start_level := 0, level := 0, line_count := 0, points := 0,
     next_drop_time := ⟨48, 60⟩, time := ⟨0, 1⟩, highlight_end_time := ⟨1, 2⟩ }, 1⟩

/-- The input with left and right both just pressed. -/
def input_left_right : Input_State := ⟨1, 1, 0, 0, 0, 1, 1, 0, 0, 0⟩

/-- The state of `world_line_clear` at time 1/4, before the highlight ends at time 1/2. -/
def world_line_wait : World Frac :=
  ⟨{ world_line_clear.game with time := ⟨1, 4⟩ }, 3⟩

/-- The state `main_init` produces with `env_zero`: the empty board and the I-piece. -/
def world_init : World Frac :=
  ⟨{ game_with board_empty ⟨0, 0, 5, 0⟩ with next_drop_time := ⟨48, 60⟩ }, 1⟩

/-- The input with rotate and hard drop both just pressed. -/
def input_rotate_hard_drop : Input_State := ⟨0, 0, 1, 0, 1, 0, 0, 1, 0, 1⟩

/-- The input of the frame after `input_rotate_hard_drop` when both keys were let go: the
differences to the previous key states are -1. -/
def input_released : Input_State := ⟨0, 0, 0, 0, 0, 0, 0, -1, 0, -1⟩

/-- Frames at the times 0, 1/2, 1, ..., 4: rotate and hard drop are pressed at the whole
times and let go in between, as `main` computes the inputs from the key states. -/
def frames_stack : List (Frac × Input_State) :=
  [(⟨0, 1⟩, input_rotate_hard_drop), (⟨1, 2⟩, input_released),
   (⟨1, 1⟩, input_rotate_hard_drop), (⟨3, 2⟩, input_released),
   (⟨2, 1⟩, input_rotate_hard_drop), (⟨5, 2⟩, input_released),
   (⟨3, 1⟩, input_rotate_hard_drop), (⟨7, 2⟩, input_released),
   (⟨4, 1⟩, input_rotate_hard_drop)]

/-- Column 7 filled from row 2 down to the floor, by five upright I-pieces. -/
def board_stack : List Nat :=
  (List.range 220).map fun i => if i % 10 = 7 ∧ 20 ≤ i then 1 else 0

/-- The state after `frames_stack`: the stack reaches row 2, a new I-piece is spawned at row
0 (its bar in row 1), the next drop is due at time 4.8. -/
def world_stack : World Frac :=
  ⟨{ game_with board_stack ⟨0, 0, 5, 0⟩ with
      next_drop_time := ⟨288, 60⟩, time := ⟨4, 1⟩ }, 6⟩

/-- The board `board_stack` with the bar of an I-piece merged into row 1, columns 5..8. -/
def board_stack_bar : List Nat :=
  (List.range 220).map fun i => if (i % 10 = 7 ∧ 20 ≤ i) ∨ (15 ≤ i ∧ i ≤ 18) then 1 else 0

/-- Rows 18..21 full except for column 7, row 17 full except for columns 5..8. -/
def board_five_rows : List Nat :=
  (List.range 220).map fun i =>
    if (i / 10 = 17 ∧ (i % 10 < 5 ∨ i % 10 = 9)) ∨ (18 ≤ i / 10 ∧ i % 10 ≠ 7) then 2 else 0

/-- An upright I-piece standing on the floor in column 7 of `board_five_rows`. -/
def world_five_rows : World Frac := ⟨game_with board_five_rows ⟨0, 18, 5, 1⟩, 0⟩

/-- The input with soft drop and hard drop both just pressed. -/
def input_soft_hard : Input_State := ⟨0, 0, 0, 1, 1, 0, 0, 0, 1, 1⟩

/-- Nine frames at time 0 that guide four I-pieces so that they fill the bottom row: two
lying in columns 0..3 and 4..7, two upright in columns 8 and 9. -/
def frames_fill_row : List (Frac × Input_State) :=
  [(⟨0, 1⟩, ⟨1, 0, 0, 0, 0, 1, 0, 0, 0, 0⟩), (⟨0, 1⟩, ⟨1, 0, 0, 0, 0, 1, 0, 0, 0, 0⟩),
   (⟨0, 1⟩, ⟨1, 0, 0, 0, 0, 1, 0, 0, 0, 0⟩), (⟨0, 1⟩, ⟨1, 0, 0, 0, 0, 1, 0, 0, 0, 0⟩),
   (⟨0, 1⟩, ⟨1, 0, 0, 0, 1, 1, 0, 0, 0, 1⟩), (⟨0, 1⟩, ⟨1, 0, 0, 0, 1, 1, 0, 0, 0, 1⟩),
   (⟨0, 1⟩, ⟨0, 1, 1, 0, 1, 0, 1, 1, 0, 1⟩), (⟨0, 1⟩, ⟨0, 1, 1, 0, 0, 0, 1, 1, 0, 0⟩),
   (⟨0, 1⟩, ⟨0, 1, 0, 0, 1, 0, 1, 0, 0, 1⟩)]

/-- The state after `frames_fill_row`: the bottom row is full, recorded and pending, the
phase is LINE_CLEAR. -/
def world_row_filled : World Frac :=
  ⟨{ board := (List.range 220).map fun i => if 210 ≤ i ∨ (180 ≤ i ∧ 8 ≤ i % 10) then 1 else 0,
     lines := List.replicate 21 0 ++ [1], pending_line_count := 1, piece := ⟨0, 0, 5, 0⟩,
     phase := .GAME_PHASE_LINE, start_level := 0, level := 0, line_count := 0, points := 0,
     next_drop_time := ⟨48, 60⟩, time := ⟨0, 1⟩, highlight_end_time := ⟨1, 2⟩ }, 5⟩

/-- The state `world_stack` at the start of a frame at time 5, when the drop due at time 4.8
is overdue. -/
def world_stack_due : World Frac :=
  ⟨{ world_stack.game with time := ⟨5, 1⟩ }, 6⟩

/-- The state `world_stack_due` after a piece was locked in row 1, with `n` calls of `rand()`
made. -/
def world_stack_locked (n : Nat) : World Frac :=
  ⟨{ world_stack_due.game with board := board_stack_bar }, n⟩

/-! ## Vocabulary of the specifications -/

/-- What it means for the mask cell `(row, col)` of a piece, holding `value`, to sit well on
the board: it is empty, or it maps into the grid onto an empty board cell. -/
def cell_fits (piece : Piece_State) (board : List Nat) (row col value : Nat) : Prop :=
  value ≠ 0 →
    0 ≤ piece.offset_row + row ∧ piece.offset_row + row < HEIGHT ∧
    0 ≤ piece.offset_col + col ∧ piece.offset_col + col < WIDTH ∧
    matrix_get board WIDTH (piece.offset_row + row) (piece.offset_col + col) = .ok 0

/-- The rows of a board stored row by row, top row first. -/
def board_rows (values : List Nat) (width height : Nat) : List (List Nat) :=
  (List.range height).map (fun row => (values.drop (row * width)).take width)

/-- Compaction as the specification words it: remove every marked row, then prepend as many
all-zero rows as there are marked rows. -/
def clear_lines_spec (values : List Nat) (width height : Nat) (lines : List Nat) : List Nat :=
  let rows := board_rows values width height
  let kept := ((rows.zip lines).filter (fun p => p.2 == 0)).map Prod.fst
  let k := (lines.filter (fun flag => flag != 0)).length
  (List.replicate k (List.replicate width 0) ++ kept).flatten

/-- The unmarked rows among the rows `m, m+1, ...` of the board, in order. -/
def kept_from (values : List Nat) (width height : Nat) (lines : List Nat) (m : Nat) :
    List (List Nat) :=
  ((((board_rows values width height).zip lines).drop m).filter (fun p => p.2 == 0)).map
    Prod.fst

/-- The loop invariant of `clear_lines` before the destination rows `d - 1, ..., 0` are
written: rows above `d` are still the original ones, rows from `d` on are final, and the
source pointer stands at `n - 1`. -/
def clear_lines_inv (values : List Nat) (w h : Nat) (lines : List Nat) (d : Nat)
    (st : List Nat × Int) : Prop :=
  ∃ n : Nat, st.2 = (n : Int) - 1 ∧ n ≤ d ∧ st.1.length = h * w ∧
    st.1.take (d * w) = values.take (d * w) ∧
    (kept_from values w h lines n).length ≤ h - d ∧
    (0 < n → (kept_from values w h lines n).length = h - d) ∧
    st.1.drop (d * w)
      = List.replicate ((h - d - (kept_from values w h lines n).length) * w) 0
          ++ (kept_from values w h lines n).flatten

/-- Whether the piece has an occupied mask cell that maps to the board coordinate `(r, c)`. -/
def piece_covers (piece : Piece_State) (r c : Int) : Bool :=
  match tetrino_at piece.tetrino_index with
  | .error _ => false
  | .ok t =>
    (List.range t.side.toNat).any fun row =>
      (List.range t.side.toNat).any fun col =>
        match tetrino_get t row col piece.rotation with
        | .ok v => v != 0 && (piece.offset_row + row == r && piece.offset_col + col == c)
        | .error _ => false

/-- Whether every occupied mask cell of the piece maps to a coordinate inside the grid. -/
def piece_in_grid (piece : Piece_State) : Bool :=
  match tetrino_at piece.tetrino_index with
  | .error _ => false
  | .ok t =>
    (List.range t.side.toNat).all fun row =>
      (List.range t.side.toNat).all fun col =>
        match tetrino_get t row col piece.rotation with
        | .ok v => v == 0 ||
            (0 ≤ piece.offset_row + row && piece.offset_row + row < HEIGHT &&
             0 ≤ piece.offset_col + col && piece.offset_col + col < WIDTH)
        | .error _ => false

/-- The occupied mask cell `(row, col)` of the piece is stored at index `j` of the board
array. -/
def cell_target (t : Tetrino) (piece : Piece_State) (row col j : Nat) : Prop :=
  ∃ v, tetrino_get t row col piece.rotation = .ok v ∧ v ≠ 0 ∧
    (piece.offset_row + row) * WIDTH + (piece.offset_col + col) = (j : Int)

/-- Every occupied mask cell of the piece maps into the grid (the propositional form of
`piece_in_grid`). -/
def cells_in_grid (t : Tetrino) (piece : Piece_State) : Prop :=
  ∀ row col : Nat, (row : Int) < t.side → (col : Int) < t.side →
    ∀ v, tetrino_get t row col piece.rotation = .ok v → v ≠ 0 →
      0 ≤ piece.offset_row + row ∧ piece.offset_row + row < HEIGHT ∧
      0 ≤ piece.offset_col + col ∧ piece.offset_col + col < WIDTH

/-- The piece moved `j` rows down. -/
def piece_lowered (p : Piece_State) (j : Int) : Piece_State :=
  { p with offset_row := p.offset_row + j }

/-- The number of mask cells `(row, col)` of the shape that are occupied at a rotation. -/
def occupied_count (t : Tetrino) (rotation : Int) : Nat :=
  ((List.range t.side.toNat).map fun row =>
    ((List.range t.side.toNat).filter fun col =>
      match tetrino_get t row col rotation with
      | .ok v => v != 0
      | .error _ => false).length).sum

/-- Whether all `WIDTH` cells of a board row are non-zero. -/
def row_is_full (values : List Nat) (row : Nat) : Bool :=
  (List.range WIDTH.toNat).all fun col =>
    match matrix_get values WIDTH row col with
    | .ok v => v != 0
    | .error _ => false

/-- What the drop steps of a tick leave alone: the size of the board, the line record, the
phase, the clock, the highlight end time, the levels, the line count and the points. -/
def drop_frame {F : Type} (g g1 : Game_state F) : Prop :=
  g1.board.length = g.board.length ∧ g1.lines = g.lines ∧
  g1.pending_line_count = g.pending_line_count ∧ g1.phase = g.phase ∧
  g1.start_level = g.start_level ∧ g1.level = g.level ∧ g1.line_count = g.line_count ∧
  g1.points = g.points ∧ g1.time = g.time ∧ g1.highlight_end_time = g.highlight_end_time

/-- The number of non-zero entries of a mask. -/
def mask_cells (data : List Nat) : Nat := (data.filter (fun v => v != 0)).length

/-- A well-formed active piece: index in `[0,7)`, rotation in `{0,1,2,3}`, every occupied
cell inside the grid. -/
def piece_ok (p : Piece_State) : Prop :=
  p.tetrino_index < 7 ∧ 0 ≤ p.rotation ∧ p.rotation ≤ 3 ∧ piece_in_grid p = true

/-- The part of the state invariant the drop steps maintain: the sizes of the board and of
the line record, the range of the board cells, and a well-formed piece. -/
def core_inv {F : Type} (g : Game_state F) : Prop :=
  g.board.length = 220 ∧ g.lines.length = 22 ∧ (∀ v ∈ g.board, v ≤ 7) ∧ piece_ok g.piece

/-- The part of the state invariant that ties the phase to the board: no full row in the
PLAY phase; in the LINE_CLEAR phase the record marks exactly the full rows and the pending
count is their number, which is positive. -/
def phase_inv {F : Type} (g : Game_state F) : Prop :=
  (g.phase = .GAME_PHASE_PLAY → ∀ row : Nat, row < 22 → row_is_full g.board row = false) ∧
  (g.phase = .GAME_PHASE_LINE →
    g.lines = (List.range 22).map (fun row => if row_is_full g.board row then 1 else 0) ∧
    g.pending_line_count = (((List.range 22).filter (row_is_full g.board)).length : Int) ∧
    g.pending_line_count > 0)

/-- The board `b1` differs from `b` only in cells of four consecutive rows. -/
def one_lock_window (b b1 : List Nat) : Prop :=
  b1.length = 220 ∧ ∃ r0 : Int, ∀ r c : Int, 0 ≤ r → r < HEIGHT → 0 ≤ c → c < WIDTH →
    matrix_get b1 WIDTH r c ≠ matrix_get b WIDTH r c → r0 ≤ r ∧ r < r0 + 4

/-- What is known of a state `w` some drop steps after `w0`, by the number of pieces locked
in between (each lock calls `rand()` once): with no lock the board is that of `w0` and the
piece is inside the grid; with one lock the board differs in four consecutive rows at most. -/
def lock_count_inv {F : Type} (w0 w : World F) : Prop :=
  w.game.board.length = 220 ∧ w0.rand_calls ≤ w.rand_calls ∧
  (w.rand_calls = w0.rand_calls →
    w.game.board = w0.game.board ∧ w.game.piece.tetrino_index < 7 ∧
    piece_in_grid w.game.piece = true) ∧
  (w.rand_calls = w0.rand_calls + 1 → one_lock_window w0.game.board w.game.board)

/-! ## General facts about the loop combinators and array accesses -/

theorem loop_all_ok_iff (body : Nat → Exec Bool) (is : List Nat)
    (h : ∀ i ∈ is, ∃ b, body i = .ok b) :
    ∃ b, loop_all body is = .ok b ∧ (b = true ↔ ∀ i ∈ is, body i = .ok true) := by
  induction is with
  | nil => exact ⟨true, rfl, by simp⟩
  | cons i rest ih =>
    obtain ⟨b, hb⟩ := h i (List.mem_cons_self _ _)
    obtain ⟨r, hr, hiff⟩ := ih (fun j hj => h j (List.mem_cons_of_mem _ hj))
    cases b with
    | false =>
      refine ⟨false, by simp [loop_all, hb], ?_⟩
      simp [hb]
    | true =>
      refine ⟨r, by simp [loop_all, hb, hr], ?_⟩
      simp [hb, hiff]

theorem array_read_ok_iff (xs : List Nat) (index : Int) (v : Nat) :
    array_read xs index = .ok v ↔ 0 ≤ index ∧ xs[index.toNat]? = some v := by
  unfold array_read
  split
  · simp; omega
  · rename_i h
    cases hx : xs[index.toNat]? <;> simp [hx]; omega

theorem array_read_ok_of_lt (xs : List Nat) (index : Int) (h0 : 0 ≤ index)
    (h1 : index < xs.length) : ∃ v, array_read xs index = .ok v := by
  have hlt : index.toNat < xs.length := by omega
  refine ⟨xs[index.toNat], ?_⟩
  rw [array_read_ok_iff]
  exact ⟨h0, List.getElem?_eq_getElem hlt⟩

theorem tetrino_at_ok (index : Nat) (h : index < 7) :
    ∃ t, tetrino_at index = .ok t ∧ t ∈ TETRINOS := by
  have hlt : index < TETRINOS.length := by simpa [TETRINOS] using h
  refine ⟨TETRINOS[index], ?_, List.getElem_mem _⟩
  simp [tetrino_at, List.getElem?_eq_getElem hlt]

/-- Every catalog mask has `side * side` entries and a positive side. -/
theorem tetrinos_shape : ∀ t ∈ TETRINOS, 0 < t.side ∧ (t.data.length : Int) = t.side * t.side := by
  decide

theorem tetrino_get_ok (t : Tetrino) (ht : t ∈ TETRINOS) (row col : Nat) (rotation : Int)
    (hr : (row : Int) < t.side) (hc : (col : Int) < t.side) :
    ∃ v, tetrino_get t row col rotation = .ok v := by
  obtain ⟨hpos, hlen⟩ := tetrinos_shape t ht
  unfold tetrino_get
  simp only []
  split_ifs
  · apply array_read_ok_of_lt <;> nlinarith
  · apply array_read_ok_of_lt <;> nlinarith
  · apply array_read_ok_of_lt <;> nlinarith
  · apply array_read_ok_of_lt <;> nlinarith
  · exact ⟨0, rfl⟩


theorem matrix_get_ok (board : List Nat) (hb : board.length = 220) (row col : Int)
    (h0 : 0 ≤ row) (h1 : row < HEIGHT) (h2 : 0 ≤ col) (h3 : col < WIDTH) :
    ∃ v, matrix_get board WIDTH row col = .ok v := by
  unfold WIDTH at *
  unfold HEIGHT at *
  unfold matrix_get
  apply array_read_ok_of_lt <;> omega

theorem check_piece_valid_cell_spec (t : Tetrino) (ht : t ∈ TETRINOS) (piece : Piece_State)
    (board : List Nat) (hb : board.length = 220) (row col : Nat)
    (hr : (row : Int) < t.side) (hc : (col : Int) < t.side) :
    ∃ value b, tetrino_get t row col piece.rotation = .ok value ∧
      check_piece_valid_cell t piece board WIDTH HEIGHT row col = .ok b ∧
      (b = true ↔ cell_fits piece board row col value) := by
  obtain ⟨value, hv⟩ := tetrino_get_ok t ht row col piece.rotation hr hc
  suffices h : ∃ b, check_piece_valid_cell t piece board WIDTH HEIGHT row col = .ok b ∧
      (b = true ↔ cell_fits piece board row col value) by
    obtain ⟨b, h1, h2⟩ := h
    exact ⟨value, b, hv, h1, h2⟩
  unfold check_piece_valid_cell cell_fits
  simp only [hv]
  by_cases hz : value = 0
  · exact ⟨true, by simp [hz], by simp [hz]⟩
  · have hpos : value > 0 := Nat.pos_of_ne_zero hz
    simp only [hpos, if_true]
    by_cases h1 : piece.offset_row + row < 0
    · exact ⟨false, by simp [h1], by simp [hz]; intro; omega⟩
    by_cases h2 : piece.offset_row + row ≥ HEIGHT
    · exact ⟨false, by simp [h1, h2], by simp [hz]; intros; omega⟩
    by_cases h3 : piece.offset_col + col < 0
    · exact ⟨false, by simp [h1, h2, h3], by simp [hz]; intros; omega⟩
    by_cases h4 : piece.offset_col + col ≥ WIDTH
    · exact ⟨false, by simp [h1, h2, h3, h4], by simp [hz]; intros; omega⟩
    obtain ⟨v, hv2⟩ := matrix_get_ok board hb (piece.offset_row + row) (piece.offset_col + col)
      (by omega) (by omega) (by omega) (by omega)
    simp only [h1, h2, h3, h4, if_false, hv2]
    by_cases hv0 : v = 0
    · subst hv0
      exact ⟨true, by simp, by simp; intro; omega⟩
    · refine ⟨false, by simp [hv0], ?_⟩
      simp only [Bool.false_eq_true, false_iff, not_forall]
      refine ⟨hz, ?_⟩
      intro hall
      have := hall.2.2.2.2
      simp at this
      exact hv0 this

/-- The result of `check_piece_valid`, in terms of `cell_fits`. -/
theorem check_piece_valid_fits (piece : Piece_State) (board : List Nat)
    (hb : board.length = 220) (hi : piece.tetrino_index < 7) :
    ∃ tetrino valid,
      tetrino_at piece.tetrino_index = .ok tetrino ∧
      check_piece_valid piece board WIDTH HEIGHT = .ok valid ∧
      (valid = true ↔
        ∀ row col : Nat, (row : Int) < tetrino.side → (col : Int) < tetrino.side →
          ∃ value, tetrino_get tetrino row col piece.rotation = .ok value ∧
            cell_fits piece board row col value) := by
  obtain ⟨t, ht, hmem⟩ := tetrino_at_ok piece.tetrino_index hi
  have hside : ∀ i : Nat, i ∈ List.range t.side.toNat ↔ (i : Int) < t.side := by
    intro i
    have := (tetrinos_shape t hmem).1
    simp only [List.mem_range]
    omega
  have hinner : ∀ row ∈ List.range t.side.toNat, ∃ b,
      loop_all (fun col => check_piece_valid_cell t piece board WIDTH HEIGHT row col)
        (List.range t.side.toNat) = .ok b ∧
      (b = true ↔ ∀ col ∈ List.range t.side.toNat,
        check_piece_valid_cell t piece board WIDTH HEIGHT row col = .ok true) := by
    intro row hrow
    apply loop_all_ok_iff
    intro col hcol
    obtain ⟨_, b, _, h2, _⟩ := check_piece_valid_cell_spec t hmem piece board hb row col
      ((hside row).1 hrow) ((hside col).1 hcol)
    exact ⟨b, h2⟩
  obtain ⟨valid, hvalid, hiff⟩ := loop_all_ok_iff
    (fun row => loop_all (fun col => check_piece_valid_cell t piece board WIDTH HEIGHT row col)
        (List.range t.side.toNat)) (List.range t.side.toNat)
    (fun row hrow => (hinner row hrow).imp fun _ h => h.1)
  refine ⟨t, valid, ht, by simp only [check_piece_valid, ht, hvalid], ?_⟩
  rw [hiff]
  constructor
  · intro h row col hr hc
    obtain ⟨b, hb1, hb2⟩ := hinner row ((hside row).2 hr)
    have hrow := h row ((hside row).2 hr)
    rw [hb1] at hrow
    have hbt : b = true := by simpa using hrow
    have hcell := (hb2.1 hbt) col ((hside col).2 hc)
    obtain ⟨value, b2, hv, hc2, hfit⟩ := check_piece_valid_cell_spec t hmem piece board hb row col hr hc
    refine ⟨value, hv, ?_⟩
    rw [hc2] at hcell
    have : b2 = true := by simpa using hcell
    exact hfit.1 this
  · intro h row hrow
    obtain ⟨b, hb1, hb2⟩ := hinner row hrow
    rw [hb1]
    congr 1
    rw [hb2]
    intro col hcol
    obtain ⟨value, b2, hv, hc2, hfit⟩ := check_piece_valid_cell_spec t hmem piece board hb row col
      ((hside row).1 hrow) ((hside col).1 hcol)
    obtain ⟨value2, hv2, hfit2⟩ := h row col ((hside row).1 hrow) ((hside col).1 hcol)
    rw [hv] at hv2
    cases hv2
    rw [hc2]
    congr 1
    exact hfit.2 hfit2

/-- C1. For every board of `WIDTH * HEIGHT` cells and every piece with tetromino index in
`[0,7)` (at every rotation value and every integer offset), `check_piece_valid` returns a
boolean, and it returns `true` if and only if every mask cell `(row, col)` of the piece at that
rotation is either empty or maps to a board coordinate with `0 <= row < HEIGHT`,
`0 <= col < WIDTH` whose board cell is 0; so it returns `false` exactly when some occupied cell
is out of bounds on one of the four sides or lands on a non-zero cell. -/
theorem check_piece_valid_iff (piece : Piece_State) (board : List Nat)
    (hb : board.length = 220) (hi : piece.tetrino_index < 7) :
    ∃ tetrino valid,
      tetrino_at piece.tetrino_index = .ok tetrino ∧
      check_piece_valid piece board WIDTH HEIGHT = .ok valid ∧
      (valid = true ↔
        ∀ row col : Nat, (row : Int) < tetrino.side → (col : Int) < tetrino.side →
          ∃ value, tetrino_get tetrino row col piece.rotation = .ok value ∧
            (value ≠ 0 →
              0 ≤ piece.offset_row + row ∧ piece.offset_row + row < HEIGHT ∧
              0 ≤ piece.offset_col + col ∧ piece.offset_col + col < WIDTH ∧
              matrix_get board WIDTH (piece.offset_row + row) (piece.offset_col + col)
                = .ok 0)) := by
  obtain ⟨t, valid, ht, hv, hiff⟩ := check_piece_valid_fits piece board hb hi
  refine ⟨t, valid, ht, hv, ?_⟩
  rw [hiff]
  constructor
  · intro h row col hr hc
    obtain ⟨value, hget, hfit⟩ := h row col hr hc
    exact ⟨value, hget, hfit⟩
  · intro h row col hr hc
    obtain ⟨value, hget, hfit⟩ := h row col hr hc
    exact ⟨value, hget, hfit⟩

set_option maxRecDepth 100000 in
/-- C1, instance: the I-piece at its spawn offset on the empty board. -/
theorem check_piece_valid_iff_witness :
    ∃ tetrino valid,
      tetrino_at 0 = .ok tetrino ∧
      check_piece_valid ⟨0, 0, 5, 0⟩ (List.replicate 220 0) WIDTH HEIGHT = .ok valid ∧
      (valid = true ↔
        ∀ row col : Nat, (row : Int) < tetrino.side → (col : Int) < tetrino.side →
          ∃ value, tetrino_get tetrino row col 0 = .ok value ∧
            (value ≠ 0 →
              0 ≤ (0 : Int) + row ∧ (0 : Int) + row < HEIGHT ∧
              0 ≤ (5 : Int) + col ∧ (5 : Int) + col < WIDTH ∧
              matrix_get (List.replicate 220 0) WIDTH ((0 : Int) + row) ((5 : Int) + col)
                = .ok 0)) :=
  check_piece_valid_iff ⟨0, 0, 5, 0⟩ (List.replicate 220 0) (by decide) (by decide)

/-! ## Row compaction (`clear_lines`) -/

theorem array_write_nat (vs : List Nat) (i v : Nat) (h : i < vs.length) :
    array_write vs (i : Int) v = .ok (vs.set i v) := by
  simp [array_write, h]

theorem array_read_nat (vs : List Nat) (i : Nat) (h : i < vs.length) :
    array_read vs (i : Int) = .ok vs[i] := by
  simp [array_read, List.getElem?_eq_getElem h]

/-- Writing one more cell extends a rewritten window by one element. -/
theorem set_window (vs : List Nat) (k n v : Nat) (mid : List Nat) (hk : k + 1 + n ≤ vs.length) :
    (vs.set k v).take (k + 1) ++ mid ++ (vs.set k v).drop (k + 1 + n)
      = vs.take k ++ (v :: mid) ++ vs.drop (k + 1 + n) := by
  have hlt : k < vs.length := by omega
  rw [List.set_eq_take_append_cons_drop, if_pos hlt]
  have h1 : (List.take k vs).length = k := by simp; omega
  have e1 : List.take (k + 1) (List.take k vs ++ v :: List.drop (k + 1) vs)
      = List.take k vs ++ [v] := by
    rw [List.take_append_eq_append_take, h1]
    simp
  have e2 : List.drop (k + 1 + n) (List.take k vs ++ v :: List.drop (k + 1) vs)
      = List.drop (k + 1 + n) vs := by
    rw [List.drop_append_eq_append_drop, h1]
    have : k + 1 + n - k = n + 1 := by omega
    rw [this]
    have : List.drop (k + 1 + n) (List.take k vs) = [] := by
      apply List.drop_eq_nil_of_le
      simp; omega
    rw [this]
    simp [List.drop_drop]
  rw [e1, e2]
  simp

theorem memset_zero_loop (off : Nat) : ∀ (n s : Nat) (vs : List Nat),
    off + s + n ≤ vs.length →
    loop_fold (fun vs i => array_write vs ((off : Int) + (i : Int)) 0) vs (List.range' s n)
      = .ok (vs.take (off + s) ++ List.replicate n 0 ++ vs.drop (off + s + n)) := by
  intro n
  induction n with
  | zero => intro s vs _; simp [loop_fold]
  | succ n ih =>
    intro s vs h
    have hw : array_write vs ((off : Int) + (s : Int)) 0 = .ok (vs.set (off + s) 0) := by
      have := array_write_nat vs (off + s) 0 (by omega)
      simpa using this
    rw [List.range'_succ]
    simp only [loop_fold, hw]
    rw [ih (s + 1) (vs.set (off + s) 0) (by simp; omega)]
    congr 1
    have := set_window vs (off + s) n 0 (List.replicate n 0) (by omega)
    have a1 : off + (s + 1) = off + s + 1 := by omega
    have a2 : off + s + (n + 1) = off + s + 1 + n := by omega
    rw [List.replicate_succ, a1, a2, this]
    
theorem memcpy_loop (dst src : Nat) : ∀ (n s : Nat) (vs : List Nat),
    dst + s + n ≤ vs.length → src + s + n ≤ dst →
    loop_fold (fun vs i =>
        match array_read vs ((src : Int) + (i : Int)) with
        | .error e => .error e
        | .ok v => array_write vs ((dst : Int) + (i : Int)) v) vs (List.range' s n)
      = .ok (vs.take (dst + s) ++ (vs.drop (src + s)).take n ++ vs.drop (dst + s + n)) := by
  intro n
  induction n with
  | zero => intro s vs _ _; simp [loop_fold]
  | succ n ih =>
    intro s vs h h2
    have hlt : src + s < vs.length := by omega
    have hr : array_read vs ((src : Int) + (s : Int)) = .ok vs[src + s] := by
      have := array_read_nat vs (src + s) hlt
      simpa using this
    have hw : array_write vs ((dst : Int) + (s : Int)) vs[src + s]
        = .ok (vs.set (dst + s) vs[src + s]) := by
      have := array_write_nat vs (dst + s) vs[src + s] (by omega)
      simpa using this
    rw [List.range'_succ]
    simp only [loop_fold, hr, hw]
    rw [ih (s + 1) (vs.set (dst + s) vs[src + s]) (by simp; omega) (by omega)]
    congr 1
    have hd : List.take n (List.drop (src + (s + 1)) (vs.set (dst + s) vs[src + s]))
        = List.take n (List.drop (src + s + 1) vs) := by
      apply List.ext_getElem?
      intro i
      simp only [List.getElem?_take, List.getElem?_drop, List.getElem?_set]
      split_ifs <;> first | rfl | omega
    have := set_window vs (dst + s) n vs[src + s] (List.take n (List.drop (src + s + 1) vs))
      (by omega)
    rw [hd]
    have e : List.take (n + 1) (List.drop (src + s) vs)
        = vs[src + s] :: List.take n (List.drop (src + s + 1) vs) := by
      rw [List.drop_eq_getElem_cons hlt, List.take_succ_cons]
    have a1 : dst + (s + 1) = dst + s + 1 := by omega
    have a2 : dst + s + (n + 1) = dst + s + 1 + n := by omega
    rw [e, a1, a2, this]

theorem memset_zero_row (vs : List Nat) (off w : Nat) (h : off + w ≤ vs.length) :
    memset_zero vs (off : Int) (w : Int)
      = .ok (vs.take off ++ List.replicate w 0 ++ vs.drop (off + w)) := by
  have := memset_zero_loop off w 0 vs (by omega)
  simpa [memset_zero, List.range_eq_range'] using this

theorem memcpy_row (vs : List Nat) (dst src w : Nat) (h : dst + w ≤ vs.length)
    (h2 : src + w ≤ dst) :
    memcpy vs (dst : Int) (src : Int) (w : Int)
      = .ok (vs.take dst ++ (vs.drop src).take w ++ vs.drop (dst + w)) := by
  have := memcpy_loop dst src w 0 vs (by omega) (by omega)
  simpa [memcpy, List.range_eq_range'] using this

section kept
variable (values : List Nat) (w h : Nat) (lines : List Nat)

theorem board_rows_length : (board_rows values w h).length = h := by
  simp [board_rows]

theorem zip_rows_getElem (hl : lines.length = h) (m : Nat) (hm : m < h) :
    ((board_rows values w h).zip lines).drop m
      = ((values.drop (m * w)).take w, lines[m]) ::
          ((board_rows values w h).zip lines).drop (m + 1) := by
  have hlen : m < ((board_rows values w h).zip lines).length := by
    simp [board_rows_length, hl, hm]
  rw [List.drop_eq_getElem_cons hlen]
  congr 1
  simp [board_rows]

theorem kept_from_marked (hl : lines.length = h) (m : Nat) (hm : m < h)
    (hz : lines[m] ≠ 0) :
    kept_from values w h lines m = kept_from values w h lines (m + 1) := by
  unfold kept_from
  rw [zip_rows_getElem values w h lines hl m hm]
  simp [hz]

theorem kept_from_unmarked (hl : lines.length = h) (m : Nat) (hm : m < h)
    (hz : lines[m] = 0) :
    kept_from values w h lines m
      = (values.drop (m * w)).take w :: kept_from values w h lines (m + 1) := by
  unfold kept_from
  rw [zip_rows_getElem values w h lines hl m hm]
  simp [hz]

theorem kept_from_end (hl : lines.length = h) : kept_from values w h lines h = [] := by
  unfold kept_from
  rw [List.drop_eq_nil_of_le]
  · rfl
  · simp [board_rows_length, hl]

/-- Marked and unmarked rows from row `m` on add up to `h - m`. -/
theorem kept_from_count (hl : lines.length = h) : ∀ k m : Nat, m + k = h →
    (kept_from values w h lines m).length
      + ((lines.drop m).filter (fun flag => flag != 0)).length = k := by
  intro k
  induction k with
  | zero =>
    intro m hm
    have : m = h := by omega
    subst this
    rw [kept_from_end values w _ lines hl, List.drop_eq_nil_of_le (by omega)]
    rfl
  | succ k ih =>
    intro m hm
    have hlt : m < h := by omega
    have hlt2 : m < lines.length := by omega
    have := ih (m + 1) (by omega)
    by_cases hz : lines[m] = 0
    · have hf : (lines.drop m).filter (fun flag => flag != 0)
          = (lines.drop (m + 1)).filter (fun flag => flag != 0) := by
        rw [List.drop_eq_getElem_cons hlt2, List.filter_cons_of_neg (by simp [hz])]
      rw [kept_from_unmarked values w h lines hl m hlt hz, hf, List.length_cons]
      omega
    · have hf : (lines.drop m).filter (fun flag => flag != 0)
          = lines[m] :: (lines.drop (m + 1)).filter (fun flag => flag != 0) := by
        rw [List.drop_eq_getElem_cons hlt2, List.filter_cons_of_pos (by simp [hz])]
      rw [kept_from_marked values w h lines hl m hlt hz, hf, List.length_cons]
      omega

end kept

theorem clear_lines_skip_spec (values : List Nat) (w h : Nat) (lines : List Nat)
    (hl : lines.length = h) : ∀ n : Nat, n ≤ h →
    ∃ m : Nat, m ≤ n ∧ clear_lines_skip lines n = .ok ((m : Int) - 1) ∧
      kept_from values w h lines m = kept_from values w h lines n ∧
      (0 < m → lines[m - 1]? = some 0) := by
  intro n
  induction n with
  | zero => intro _; exact ⟨0, le_refl _, rfl, rfl, fun hm => absurd hm (lt_irrefl _)⟩
  | succ n ih =>
    intro hn
    have hlt : n < lines.length := by omega
    have hr := array_read_nat lines n hlt
    by_cases hz : lines[n] = 0
    · refine ⟨n + 1, le_refl _, ?_, rfl, fun _ => by
        simp [List.getElem?_eq_getElem hlt, hz]⟩
      simp [clear_lines_skip, hr, hz]
    · obtain ⟨m, hm1, hm2, hm3, hm4⟩ := ih (by omega)
      refine ⟨m, by omega, ?_, ?_, hm4⟩
      · simp [clear_lines_skip, hr, hz, hm2]
      · rw [hm3, kept_from_marked values w h lines hl n (by omega) hz]

/-- Replacing the `w` cells from `off` on by `row`. -/
theorem splice_facts (vs row : List Nat) (off w : Nat) (hrow : row.length = w)
    (h : off + w ≤ vs.length) :
    (vs.take off ++ row ++ vs.drop (off + w)).length = vs.length ∧
    (vs.take off ++ row ++ vs.drop (off + w)).take off = vs.take off ∧
    (vs.take off ++ row ++ vs.drop (off + w)).drop off = row ++ vs.drop (off + w) := by
  have h1 : (vs.take off).length = off := by simp; omega
  refine ⟨?_, ?_, ?_⟩
  · simp [hrow]; omega
  · rw [List.append_assoc, List.take_left' h1]
  · rw [List.append_assoc, List.drop_left' h1]

/-- A row inside a common prefix is the same row. -/
theorem row_of_common_start (vs values : List Nat) (a w N : Nat) (h : a + w ≤ N)
    (hp : vs.take N = values.take N) :
    (vs.drop a).take w = (values.drop a).take w := by
  have e : ∀ l : List Nat, (l.drop a).take w = ((l.take N).drop a).take w := by
    intro l
    rw [List.take_drop, List.take_drop, List.take_take, Nat.min_eq_left h]
  rw [e vs, e values, hp]

theorem row_length (values : List Nat) (a w : Nat) (h : a + w ≤ values.length) :
    ((values.drop a).take w).length = w := by
  simp; omega

theorem clear_lines_step_inv (values : List Nat) (w h : Nat) (lines : List Nat)
    (hv : values.length = h * w) (hl : lines.length = h) (d : Nat) (hd : d < h)
    (st : List Nat × Int) (hinv : clear_lines_inv values w h lines (d + 1) st) :
    ∃ st1, clear_lines_step (w : Int) lines st d = .ok st1 ∧
      clear_lines_inv values w h lines d st1 := by
  obtain ⟨vs, src⟩ := st
  obtain ⟨n, hsrc, hn, hlen, htake, hle, hfull, hdrop⟩ := hinv
  simp only at hsrc hlen htake hdrop
  have hmul : (d + 1) * w = d * w + w := Nat.succ_mul d w
  have hdw : d * w + w ≤ h * w := by
    rw [← hmul]; exact Nat.mul_le_mul_right w hd
  have hskip : ∃ m : Nat, m ≤ n ∧
      (if src < 0 then .ok src else clear_lines_skip lines (src + 1).toNat : Exec Int)
        = .ok ((m : Int) - 1) ∧
      kept_from values w h lines m = kept_from values w h lines n ∧
      (0 < m → lines[m - 1]? = some 0) := by
    by_cases hn0 : n = 0
    · subst hn0
      refine ⟨0, le_refl _, ?_, rfl, fun hm => absurd hm (lt_irrefl _)⟩
      simp [hsrc]
    · have h1 : ¬ src < 0 := by omega
      have h2 : (src + 1).toNat = n := by omega
      rw [if_neg h1, h2]
      exact clear_lines_skip_spec values w h lines hl n (by omega)
  obtain ⟨m, hmn, hm1, hm2, hm3⟩ := hskip
  unfold clear_lines_step
  simp only [hm1]
  by_cases hm0 : m = 0
  · -- the source rows are used up: the destination row is zero-filled
    subst hm0
    have hms := memset_zero_row vs (d * w) w (by omega)
    push_cast at hms
    simp only [Nat.cast_zero, zero_sub, Int.reduceNeg, Left.neg_neg_iff, zero_lt_one, if_true,
      hms]
    refine ⟨_, rfl, 0, by simp, Nat.zero_le _, ?_, ?_, ?_, ?_, ?_⟩
    · exact (splice_facts vs (List.replicate w 0) (d * w) w (by simp) (by omega)).1.trans hlen
    · rw [(splice_facts vs (List.replicate w 0) (d * w) w (by simp) (by omega)).2.1]
      have := congrArg (List.take (d * w)) htake
      simpa [List.take_take, hmul] using this
    · rw [hm2]; omega
    · intro hpos; exact absurd hpos (lt_irrefl _)
    · simp only []
      rw [(splice_facts vs (List.replicate w 0) (d * w) w (by simp) (by omega)).2.2]
      rw [← hmul, hdrop, ← hm2, ← List.append_assoc, ← List.replicate_add]
      rw [hm2]
      congr 2
      have : h - d - (kept_from values w h lines n).length
          = (h - (d + 1) - (kept_from values w h lines n).length) + 1 := by omega
      rw [this, Nat.succ_mul]
      omega
  · -- row `m - 1` is the next unmarked row: it becomes the destination row
    have hmpos : 0 < m := Nat.pos_of_ne_zero hm0
    have hL : (kept_from values w h lines n).length = h - (d + 1) := hfull (by omega)
    have hnotneg : ¬ ((m : Int) - 1 < 0) := by omega
    have hltl : m - 1 < lines.length := by omega
    have hz : lines[m - 1] = 0 := by
      have := hm3 hmpos
      rw [List.getElem?_eq_getElem hltl] at this
      exact Option.some.inj this
    have hkept : kept_from values w h lines (m - 1)
        = (values.drop ((m - 1) * w)).take w :: kept_from values w h lines n := by
      rw [kept_from_unmarked values w h lines hl (m - 1) (by omega) hz]
      have : m - 1 + 1 = m := by omega
      rw [this, hm2]
    have hsw : (m - 1) * w + w ≤ (d + 1) * w := by
      rw [← Nat.succ_mul]
      exact Nat.mul_le_mul_right w (by omega)
    have hrow : (vs.drop ((m - 1) * w)).take w = (values.drop ((m - 1) * w)).take w :=
      row_of_common_start vs values _ w _ hsw htake
    have hrl : ((values.drop ((m - 1) * w)).take w).length = w :=
      row_length values _ w (by omega)
    -- in both branches the new board is the old one with row `d` replaced
    have hboard : ∃ vs1, (if (m : Int) - 1 ≠ (d : Int) then
          match memcpy vs ((d : Int) * (w : Int)) (((m : Int) - 1) * (w : Int)) (w : Int) with
          | .error e => .error e
          | .ok vs1 => .ok (vs1, (m : Int) - 1 - 1)
        else .ok (vs, (m : Int) - 1 - 1) : Exec (List Nat × Int))
          = .ok (vs1, (m : Int) - 1 - 1) ∧
        vs1.length = vs.length ∧ vs1.take (d * w) = vs.take (d * w) ∧
        vs1.drop (d * w) = (values.drop ((m - 1) * w)).take w ++ vs.drop (d * w + w) := by
      by_cases hne : (m : Int) - 1 ≠ (d : Int)
      · have hlt : m - 1 < d := by omega
        have hs2 : (m - 1) * w + w ≤ d * w := by
          rw [← Nat.succ_mul]
          exact Nat.mul_le_mul_right w (by omega)
        have hcp := memcpy_row vs (d * w) ((m - 1) * w) w (by omega) hs2
        have hcast : (((m - 1 : Nat) : Int)) = (m : Int) - 1 := by omega
        push_cast at hcp
        rw [hcast] at hcp
        rw [if_pos hne, hcp, hrow]
        have hsp := splice_facts vs ((values.drop ((m - 1) * w)).take w) (d * w) w hrl
          (by omega)
        exact ⟨_, rfl, hsp.1, hsp.2.1, hsp.2.2⟩
      · have heq : m - 1 = d := by omega
        rw [if_neg hne]
        refine ⟨vs, rfl, rfl, rfl, ?_⟩
        rw [← hrow, heq, ← List.drop_drop, List.take_append_drop]
    obtain ⟨vs1, hstep, hlen1, htake1, hdrop1⟩ := hboard
    simp only [hnotneg, if_false]
    refine ⟨(vs1, (m : Int) - 1 - 1), hstep, m - 1, ?_, by omega, ?_, ?_, ?_, ?_, ?_⟩
    · simp only []; omega
    · exact hlen1.trans hlen
    · simp only []
      rw [htake1]
      have := congrArg (List.take (d * w)) htake
      simpa [List.take_take, hmul] using this
    · rw [hkept, List.length_cons, hL]; omega
    · intro _; rw [hkept, List.length_cons, hL]; omega
    · simp only []
      rw [hdrop1, ← hmul, hdrop, hkept, List.length_cons, hL]
      have e1 : h - (d + 1) - (h - (d + 1)) = 0 := by omega
      have e2 : h - d - (h - (d + 1) + 1) = 0 := by omega
      rw [e1, e2]
      simp

theorem clear_lines_loop_inv (values : List Nat) (w h : Nat) (lines : List Nat)
    (hv : values.length = h * w) (hl : lines.length = h) : ∀ d : Nat, d ≤ h →
    ∀ st, clear_lines_inv values w h lines d st →
    ∃ st1, loop_fold (clear_lines_step (w : Int) lines) st (List.range d).reverse = .ok st1 ∧
      clear_lines_inv values w h lines 0 st1 := by
  intro d
  induction d with
  | zero => intro _ st hinv; exact ⟨st, rfl, hinv⟩
  | succ d ih =>
    intro hd st hinv
    obtain ⟨st1, hstep, hinv1⟩ := clear_lines_step_inv values w h lines hv hl d (by omega) st hinv
    obtain ⟨st2, hloop, hinv2⟩ := ih (by omega) st1 hinv1
    refine ⟨st2, ?_, hinv2⟩
    have hrev : (List.range (d + 1)).reverse = d :: (List.range d).reverse := by
      rw [List.range_succ, List.reverse_append]
      rfl
    rw [hrev]
    simp only [loop_fold, hstep, hloop]

theorem flatten_replicate_zero (k w : Nat) :
    (List.replicate k (List.replicate w 0)).flatten = List.replicate (k * w) 0 := by
  induction k with
  | zero => simp
  | succ k ih =>
    rw [List.replicate_succ, List.flatten_cons, ih, ← List.replicate_add, Nat.succ_mul,
      Nat.add_comm]

/-- The loop of `clear_lines` computes the specified compaction, for every grid size. -/
theorem clear_lines_eq_spec (values : List Nat) (w h : Nat) (lines : List Nat)
    (hv : values.length = h * w) (hl : lines.length = h) :
    clear_lines values (w : Int) (h : Int) lines = .ok (clear_lines_spec values w h lines) := by
  have hinit : clear_lines_inv values w h lines h (values, (h : Int) - 1) := by
    refine ⟨h, rfl, le_refl _, hv, rfl, ?_, ?_, ?_⟩
    · rw [kept_from_end values w h lines hl]; simp
    · intro _; rw [kept_from_end values w h lines hl]; simp
    · rw [kept_from_end values w h lines hl]
      simp only []
      rw [List.drop_eq_nil_of_le (by omega)]
      simp
  obtain ⟨st, hloop, n, hsrc, hn, hlen, -, hle, -, hdrop⟩ :=
    clear_lines_loop_inv values w h lines hv hl h (le_refl _) _ hinit
  have hn0 : n = 0 := by omega
  subst hn0
  have hcount := kept_from_count values w h lines hl h 0 (by omega)
  simp only [List.drop_zero] at hcount
  unfold clear_lines
  simp only [Int.toNat_ofNat, hloop]
  congr 1
  simp only [Nat.zero_mul, List.drop_zero, Nat.sub_zero] at hdrop
  rw [hdrop]
  unfold clear_lines_spec
  simp only [List.flatten_append, flatten_replicate_zero]
  have hk : kept_from values w h lines 0
      = (((board_rows values w h).zip lines).filter (fun p => p.2 == 0)).map Prod.fst := by
    simp [kept_from]
  rw [← hk]
  congr 3
  omega

/-- Splitting a concatenation of rows of equal width gives the rows back. -/
theorem board_rows_flatten (w : Nat) : ∀ rows : List (List Nat),
    (∀ r ∈ rows, r.length = w) → board_rows rows.flatten w rows.length = rows := by
  intro rows
  induction rows with
  | nil => intro _; rfl
  | cons r rs ih =>
    intro hall
    have hr : r.length = w := hall r (List.mem_cons_self _ _)
    have ih1 := ih (fun x hx => hall x (List.mem_cons_of_mem _ hx))
    unfold board_rows at ih1 ⊢
    rw [List.length_cons, List.range_succ_eq_map, List.map_cons, List.map_map]
    congr 1
    · simp [hr]
    · conv_rhs => rw [← ih1]
      apply List.map_congr_left
      intro i _
      simp only [Function.comp, List.flatten_cons]
      have : (i + 1) * w = r.length + i * w := by rw [Nat.succ_mul, hr, Nat.add_comm]
      rw [this, ← List.drop_drop, List.drop_left]

theorem kept_from_row_length (values : List Nat) (w h : Nat) (lines : List Nat)
    (hv : values.length = h * w) (m : Nat) :
    ∀ r ∈ kept_from values w h lines m, r.length = w := by
  intro r hr
  unfold kept_from at hr
  rw [List.mem_map] at hr
  obtain ⟨p, hp, rfl⟩ := hr
  have hp1 := List.mem_of_mem_drop (List.mem_of_mem_filter hp)
  have hp2 := (List.of_mem_zip hp1).1
  unfold board_rows at hp2
  rw [List.mem_map] at hp2
  obtain ⟨i, hi, hi2⟩ := hp2
  rw [← hi2]
  have hi3 : i < h := List.mem_range.1 hi
  apply row_length
  have : (i + 1) * w ≤ h * w := Nat.mul_le_mul_right w hi3
  rw [Nat.succ_mul] at this
  omega

/-- C2. For every board of `WIDTH * HEIGHT` cells and every record of `HEIGHT` flags, of
which `k` are non-zero (marked), the in-place bottom-up `clear_lines` returns exactly the board
obtained by removing the marked rows and prepending `k` all-zero rows (`clear_lines_spec`);
read row by row, the result is `k` zero rows followed by the unmarked rows of the old board
with their contents, in their old top-to-bottom order. -/
theorem clear_lines_refines_spec (values lines : List Nat)
    (hv : values.length = 220) (hl : lines.length = 22) :
    clear_lines values WIDTH HEIGHT lines = .ok (clear_lines_spec values 10 22 lines) ∧
    board_rows (clear_lines_spec values 10 22 lines) 10 22
      = List.replicate (lines.filter (fun flag => flag != 0)).length (List.replicate 10 0)
        ++ (((board_rows values 10 22).zip lines).filter (fun p => p.2 == 0)).map Prod.fst := by
  refine ⟨clear_lines_eq_spec values 10 22 lines hv hl, ?_⟩
  have hcount := kept_from_count values 10 22 lines hl 22 0 (by omega)
  simp only [List.drop_zero] at hcount
  have hk : kept_from values 10 22 lines 0
      = (((board_rows values 10 22).zip lines).filter (fun p => p.2 == 0)).map Prod.fst := by
    simp [kept_from]
  have hrl := kept_from_row_length values 10 22 lines hv 0
  rw [hk] at hcount hrl
  have := board_rows_flatten 10
    (List.replicate (lines.filter (fun flag => flag != 0)).length (List.replicate 10 0)
      ++ (((board_rows values 10 22).zip lines).filter (fun p => p.2 == 0)).map Prod.fst)
    (by
      intro r hr
      rcases List.mem_append.1 hr with h1 | h1
      · rw [(List.mem_replicate.1 h1).2]; simp
      · exact hrl r h1)
  rw [List.length_append, List.length_replicate, Nat.add_comm, hcount] at this
  exact this

set_option maxRecDepth 100000 in
/-- C2, instance: a board whose cells are numbered 1, 2, ..., with rows 3, 20 and 21 marked. -/
theorem clear_lines_refines_spec_witness :
    clear_lines ((List.range 220).map (· + 1)) WIDTH HEIGHT
        ((List.range 22).map (fun r => if r = 3 ∨ 20 ≤ r then 1 else 0))
      = .ok (clear_lines_spec ((List.range 220).map (· + 1)) 10 22
          ((List.range 22).map (fun r => if r = 3 ∨ 20 ≤ r then 1 else 0))) ∧
    board_rows (clear_lines_spec ((List.range 220).map (· + 1)) 10 22
        ((List.range 22).map (fun r => if r = 3 ∨ 20 ≤ r then 1 else 0))) 10 22
      = List.replicate (((List.range 22).map (fun r => if r = 3 ∨ 20 ≤ r then 1 else 0)).filter
          (fun flag => flag != 0)).length (List.replicate 10 0)
        ++ (((board_rows ((List.range 220).map (· + 1)) 10 22).zip
            ((List.range 22).map (fun r => if r = 3 ∨ 20 ≤ r then 1 else 0))).filter
              (fun p => p.2 == 0)).map Prod.fst :=
  clear_lines_refines_spec _ _ (by decide) (by decide)

/-! ## Locking and the gravity-drop step (`merge_piece`, `soft_drop`) -/

/-- A loop whose every step paints the cells selected by `Q i` with `v` (and keeps the
others) paints the cells selected by some `Q i`. -/
theorem loop_fold_paint (L v : Nat) (body : List Nat → Nat → Exec (List Nat))
    (Q : Nat → Nat → Prop) : ∀ (is : List Nat),
    (∀ i ∈ is, ∀ b : List Nat, b.length = L → ∃ b1, body b i = .ok b1 ∧ b1.length = L ∧
      ∀ j, (Q i j → b1[j]? = some v) ∧ (¬ Q i j → b1[j]? = b[j]?)) →
    ∀ b : List Nat, b.length = L → ∃ b1, loop_fold body b is = .ok b1 ∧ b1.length = L ∧
      ∀ j, ((∃ i ∈ is, Q i j) → b1[j]? = some v) ∧ ((¬ ∃ i ∈ is, Q i j) → b1[j]? = b[j]?) := by
  intro is
  induction is with
  | nil =>
    intro _ b hb
    exact ⟨b, rfl, hb, fun j => ⟨fun ⟨i, hi, _⟩ => absurd hi (List.not_mem_nil i), fun _ => rfl⟩⟩
  | cons i rest ih =>
    intro hbody b hb
    obtain ⟨b1, h1, hl1, hq1⟩ := hbody i (List.mem_cons_self _ _) b hb
    obtain ⟨b2, h2, hl2, hq2⟩ := ih (fun k hk => hbody k (List.mem_cons_of_mem _ hk)) b1 hl1
    refine ⟨b2, by simp only [loop_fold, h1, h2], hl2, fun j => ⟨?_, ?_⟩⟩
    · rintro ⟨k, hk, hqk⟩
      by_cases hr : ∃ i ∈ rest, Q i j
      · exact (hq2 j).1 hr
      · rw [(hq2 j).2 hr]
        rcases List.mem_cons.1 hk with rfl | hk
        · exact (hq1 j).1 hqk
        · exact absurd ⟨k, hk, hqk⟩ hr
    · intro hn
      have hr : ¬ ∃ i ∈ rest, Q i j := fun ⟨k, hk, hqk⟩ => hn ⟨k, List.mem_cons_of_mem _ hk, hqk⟩
      have hi : ¬ Q i j := fun hq => hn ⟨i, List.mem_cons_self _ _, hq⟩
      rw [(hq2 j).2 hr, (hq1 j).2 hi]

/-- Every non-zero entry of the mask of catalog shape `i` is the piece id `i + 1`. -/
theorem tetrinos_values : ∀ i < 7, ∀ t, TETRINOS[i]? = some t → ∀ v ∈ t.data, v = 0 ∨ v = i + 1 := by
  decide

theorem tetrino_at_some (i : Nat) (t : Tetrino) (h : tetrino_at i = .ok t) :
    TETRINOS[i]? = some t ∧ i < 7 ∧ t ∈ TETRINOS := by
  unfold tetrino_at at h
  cases hx : TETRINOS[i]? with
  | none => rw [hx] at h; cases h
  | some t1 =>
    rw [hx] at h
    cases h
    refine ⟨rfl, ?_, List.getElem?_mem hx⟩
    have := (List.getElem?_eq_some.1 hx).1
    simpa [TETRINOS] using this

theorem tetrino_get_value (t : Tetrino) (row col rotation : Int) (v : Nat)
    (h : tetrino_get t row col rotation = .ok v) : v = 0 ∨ v ∈ t.data := by
  unfold tetrino_get at h
  simp only [] at h
  split_ifs at h
  · exact Or.inr (List.getElem?_mem ((array_read_ok_iff _ _ _).1 h).2)
  · exact Or.inr (List.getElem?_mem ((array_read_ok_iff _ _ _).1 h).2)
  · exact Or.inr (List.getElem?_mem ((array_read_ok_iff _ _ _).1 h).2)
  · exact Or.inr (List.getElem?_mem ((array_read_ok_iff _ _ _).1 h).2)
  · cases h; exact Or.inl rfl

theorem tetrino_get_id (i : Nat) (t : Tetrino) (ht : tetrino_at i = .ok t)
    (row col rotation : Int) (v : Nat) (h : tetrino_get t row col rotation = .ok v) :
    v = 0 ∨ v = i + 1 := by
  obtain ⟨h1, h2, _⟩ := tetrino_at_some i t ht
  rcases tetrino_get_value t row col rotation v h with h0 | hm
  · exact Or.inl h0
  · exact tetrinos_values i h2 t h1 v hm

theorem mem_range_side (t : Tetrino) (ht : t ∈ TETRINOS) (i : Nat) :
    i ∈ List.range t.side.toNat ↔ (i : Int) < t.side := by
  have := (tetrinos_shape t ht).1
  simp only [List.mem_range]
  omega

theorem merge_piece_cell_paint (piece : Piece_State) (t : Tetrino)
    (ht : tetrino_at piece.tetrino_index = .ok t) (hgrid : cells_in_grid t piece)
    (row col : Nat) (hr : (row : Int) < t.side) (hc : (col : Int) < t.side)
    (b : List Nat) (hb : b.length = 220) :
    ∃ b1, merge_piece_cell t piece row b col = .ok b1 ∧ b1.length = 220 ∧
      ∀ j, (cell_target t piece row col j → b1[j]? = some (piece.tetrino_index + 1)) ∧
        (¬ cell_target t piece row col j → b1[j]? = b[j]?) := by
  obtain ⟨_, _, hmem⟩ := tetrino_at_some _ t ht
  obtain ⟨v, hv⟩ := tetrino_get_ok t hmem row col piece.rotation hr hc
  unfold merge_piece_cell
  simp only [hv]
  by_cases hz : v = 0
  · subst hz
    refine ⟨b, by simp, hb, fun j => ⟨?_, fun _ => rfl⟩⟩
    rintro ⟨v1, h1, h2, _⟩
    rw [hv] at h1
    cases h1
    exact absurd rfl h2
  · have hid : v = piece.tetrino_index + 1 := by
      rcases tetrino_get_id _ t ht row col piece.rotation v hv with h | h
      · exact absurd h hz
      · exact h
    obtain ⟨g1, g2, g3, g4⟩ := hgrid row col hr hc v hv hz
    unfold WIDTH at g4
    unfold HEIGHT at g2
    have hnn : ¬ ((piece.offset_row + row) * WIDTH + (piece.offset_col + col) < 0) := by
      unfold WIDTH; omega
    have hlt : ((piece.offset_row + row) * WIDTH + (piece.offset_col + col)).toNat < b.length := by
      unfold WIDTH; omega
    refine ⟨b.set ((piece.offset_row + row) * WIDTH + (piece.offset_col + col)).toNat v, ?_,
      by simp [hb], fun j => ⟨?_, ?_⟩⟩
    · simp [hz, matrix_set, array_write, hnn, hlt]
    · rintro ⟨v1, _, _, h3⟩
      rw [h3, Int.toNat_ofNat, List.getElem?_set_self (by rw [h3, Int.toNat_ofNat] at hlt; exact hlt),
        hid]
    · intro hq
      have hne : ((piece.offset_row + row) * WIDTH + (piece.offset_col + col)).toNat ≠ j := by
        intro h
        apply hq
        refine ⟨v, hv, hz, ?_⟩
        rw [← h]
        unfold WIDTH at *
        omega
      rw [List.getElem?_set_ne hne]

/-- What `merge_piece` does to the board array when the piece lies inside the grid. -/
theorem merge_piece_paint {F : Type} (game : Game_state F) (t : Tetrino)
    (ht : tetrino_at game.piece.tetrino_index = .ok t) (hgrid : cells_in_grid t game.piece)
    (hb : game.board.length = 220) :
    ∃ b1, merge_piece game = .ok { game with board := b1 } ∧ b1.length = 220 ∧
      ∀ j, ((∃ row ∈ List.range t.side.toNat, ∃ col ∈ List.range t.side.toNat,
              cell_target t game.piece row col j) →
            b1[j]? = some (game.piece.tetrino_index + 1)) ∧
        ((¬ ∃ row ∈ List.range t.side.toNat, ∃ col ∈ List.range t.side.toNat,
              cell_target t game.piece row col j) →
            b1[j]? = game.board[j]?) := by
  obtain ⟨_, _, hmem⟩ := tetrino_at_some _ t ht
  have hrows := loop_fold_paint 220 (game.piece.tetrino_index + 1)
    (fun board row => loop_fold (merge_piece_cell t game.piece row) board
      (List.range t.side.toNat))
    (fun row j => ∃ col ∈ List.range t.side.toNat, cell_target t game.piece row col j)
    (List.range t.side.toNat)
    (fun row hrow b hb1 =>
      loop_fold_paint 220 (game.piece.tetrino_index + 1) (merge_piece_cell t game.piece row)
        (fun col j => cell_target t game.piece row col j) (List.range t.side.toNat)
        (fun col hcol b2 hb2 => merge_piece_cell_paint game.piece t ht hgrid row col
          ((mem_range_side t hmem row).1 hrow) ((mem_range_side t hmem col).1 hcol) b2 hb2)
        b hb1)
    game.board hb
  obtain ⟨b1, h1, h2, h3⟩ := hrows
  exact ⟨b1, by simp only [merge_piece, ht, h1], h2, h3⟩

theorem piece_covers_iff (piece : Piece_State) (t : Tetrino)
    (ht : tetrino_at piece.tetrino_index = .ok t) (r c : Int) :
    piece_covers piece r c = true ↔
      ∃ row ∈ List.range t.side.toNat, ∃ col ∈ List.range t.side.toNat,
        ∃ v, tetrino_get t row col piece.rotation = .ok v ∧ v ≠ 0 ∧
          piece.offset_row + row = r ∧ piece.offset_col + col = c := by
  unfold piece_covers
  simp only [ht, List.any_eq_true]
  constructor
  · rintro ⟨row, hrow, col, hcol, h⟩
    refine ⟨row, hrow, col, hcol, ?_⟩
    cases hv : tetrino_get t row col piece.rotation with
    | error e => rw [hv] at h; cases h
    | ok v =>
      rw [hv] at h
      simp only [Bool.and_eq_true, bne_iff_ne, ne_eq, beq_iff_eq] at h
      exact ⟨v, rfl, h.1, h.2.1, h.2.2⟩
  · rintro ⟨row, hrow, col, hcol, v, hv, h1, h2, h3⟩
    refine ⟨row, hrow, col, hcol, ?_⟩
    rw [hv]
    simp [h1, h2, h3]

theorem piece_in_grid_iff (piece : Piece_State) (t : Tetrino)
    (ht : tetrino_at piece.tetrino_index = .ok t) :
    piece_in_grid piece = true ↔ cells_in_grid t piece := by
  obtain ⟨_, _, hmem⟩ := tetrino_at_some _ t ht
  unfold piece_in_grid cells_in_grid
  simp only [ht, List.all_eq_true]
  constructor
  · intro h row col hr hc v hv hz
    have := h row ((mem_range_side t hmem row).2 hr) col ((mem_range_side t hmem col).2 hc)
    rw [hv] at this
    simp only [Bool.or_eq_true, beq_iff_eq, hz, false_or, Bool.and_eq_true,
      decide_eq_true_eq] at this
    exact ⟨this.1.1.1, this.1.1.2, this.1.2, this.2⟩
  · intro h row hrow col hcol
    have hr := (mem_range_side t hmem row).1 hrow
    have hc := (mem_range_side t hmem col).1 hcol
    obtain ⟨v, hv⟩ := tetrino_get_ok t hmem row col piece.rotation hr hc
    rw [hv]
    by_cases hz : v = 0
    · simp [hz]
    · obtain ⟨g1, g2, g3, g4⟩ := h row col hr hc v hv hz
      simp [hz, g1, g2, g3, g4]

/-- The board after `merge_piece`, read cell by cell: the piece id on the cells the piece
covers, the old value elsewhere. -/
theorem merge_piece_cells {F : Type} (game : Game_state F) (hi : game.piece.tetrino_index < 7)
    (hgrid : piece_in_grid game.piece = true) (hb : game.board.length = 220) :
    ∃ b1, merge_piece game = .ok { game with board := b1 } ∧ b1.length = 220 ∧
      ∀ r c : Int, 0 ≤ r → r < HEIGHT → 0 ≤ c → c < WIDTH →
        matrix_get b1 WIDTH r c
          = if piece_covers game.piece r c then .ok (game.piece.tetrino_index + 1)
            else matrix_get game.board WIDTH r c := by
  obtain ⟨t, ht, hmem⟩ := tetrino_at_ok _ hi
  have hg := (piece_in_grid_iff game.piece t ht).1 hgrid
  obtain ⟨b1, h1, h2, h3⟩ := merge_piece_paint game t ht hg hb
  refine ⟨b1, h1, h2, ?_⟩
  intro r c hr0 hr1 hc0 hc1
  unfold HEIGHT at hr1
  unfold WIDTH at hc1
  have hidx : r * WIDTH + c = ((r * WIDTH + c).toNat : Int) := by
    unfold WIDTH; omega
  have hcov : piece_covers game.piece r c = true ↔
      ∃ row ∈ List.range t.side.toNat, ∃ col ∈ List.range t.side.toNat,
        cell_target t game.piece row col (r * WIDTH + c).toNat := by
    rw [piece_covers_iff game.piece t ht]
    constructor
    · rintro ⟨row, hrow, col, hcol, v, hv, hz, e1, e2⟩
      refine ⟨row, hrow, col, hcol, v, hv, hz, ?_⟩
      rw [← hidx, e1, e2]
    · rintro ⟨row, hrow, col, hcol, v, hv, hz, e⟩
      refine ⟨row, hrow, col, hcol, v, hv, hz, ?_⟩
      obtain ⟨g1, g2, g3, g4⟩ := hg row col ((mem_range_side t hmem row).1 hrow)
        ((mem_range_side t hmem col).1 hcol) v hv hz
      rw [← hidx] at e
      unfold WIDTH at e g4
      unfold HEIGHT at g2
      omega
  have hnn : ¬ (r * WIDTH + c < 0) := by unfold WIDTH; omega
  by_cases hcv : piece_covers game.piece r c = true
  · rw [if_pos hcv]
    have := (h3 (r * WIDTH + c).toNat).1 (hcov.1 hcv)
    simp [matrix_get, array_read, hnn, this]
  · rw [if_neg hcv]
    have := (h3 (r * WIDTH + c).toNat).2 (fun h => hcv (hcov.2 h))
    simp [matrix_get, array_read, hnn, this]

theorem get_time_to_next_drop_ok {F : Type} (ops : Float_ops F) (level : Int)
    (h0 : 0 ≤ level) (h1 : level ≤ 28) : ∃ dt, get_time_to_next_drop ops level = .ok dt := by
  have hng : ¬ level > 29 := by omega
  obtain ⟨v, hv⟩ := array_read_ok_of_lt FRAMES_PER_DROP level h0 (by simp [FRAMES_PER_DROP]; omega)
  exact ⟨ops.mul (ops.of_nat v) (TARGET_SECONDS_PER_FRAME ops),
    by simp only [get_time_to_next_drop, drop_table_index, if_neg hng, hv]⟩

theorem get_time_to_next_drop_eq {F : Type} (ops : Float_ops F) (level : Int) :
    get_time_to_next_drop ops level
      = match array_read FRAMES_PER_DROP (drop_table_index level) with
        | .error e => .error e
        | .ok frames => .ok (ops.mul (ops.of_nat frames) (TARGET_SECONDS_PER_FRAME ops)) := by
  rfl

/-- From level 29 on the clamped index is 29 and the read of the table fails. -/
theorem get_time_to_next_drop_fault {F : Type} (ops : Float_ops F) (level : Int)
    (h : 29 ≤ level) :
    drop_table_index level = 29 ∧ get_time_to_next_drop ops level = .error .out_of_bounds := by
  have hidx : drop_table_index level = 29 := by
    unfold drop_table_index
    split_ifs <;> omega
  refine ⟨hidx, ?_⟩
  rw [get_time_to_next_drop_eq, hidx]
  rfl

theorem random_int_tetrinos (r : Nat) : random_int 0 TETRINOS.length r = r % 7 := by
  have h : TETRINOS.length = 7 := rfl
  simp only [random_int, h]
  have e : (7 + 256 - 0) % 256 = 7 := by decide
  rw [e]
  omega

theorem spawn_piece_eq {F : Type} (env : Env F) (w : World F) :
    spawn_piece env w
      = { game := { w.game with piece := ⟨env.rand w.rand_calls % 7, 0, 5, 0⟩ },
          rand_calls := w.rand_calls + 1 } := by
  simp only [spawn_piece, random_int_tetrinos]
  rfl

/-- A gravity-drop step whose target placement is valid, at a level inside the table. -/
theorem soft_drop_moves {F : Type} (env : Env F) (w : World F)
    (hvalid : check_piece_valid
      { w.game.piece with offset_row := w.game.piece.offset_row + 1 }
      w.game.board WIDTH HEIGHT = .ok true)
    (h0 : 0 ≤ w.game.level) (h1 : w.game.level ≤ 28) :
    ∃ dt, get_time_to_next_drop env.ops w.game.level = .ok dt ∧
      soft_drop env w = .ok (true, { w with game := { w.game with
        piece := { w.game.piece with offset_row := w.game.piece.offset_row + 1 },
        next_drop_time := env.ops.add w.game.time dt } }) := by
  obtain ⟨dt, hdt⟩ := get_time_to_next_drop_ok env.ops w.game.level h0 h1
  exact ⟨dt, hdt, by simp only [soft_drop, hvalid, hdt]⟩

/-- A gravity-drop step whose target placement is invalid, for a piece inside the grid. -/
theorem soft_drop_locks {F : Type} (env : Env F) (w : World F)
    (hb : w.game.board.length = 220) (hi : w.game.piece.tetrino_index < 7)
    (hvalid : check_piece_valid
      { w.game.piece with offset_row := w.game.piece.offset_row + 1 }
      w.game.board WIDTH HEIGHT = .ok false)
    (hgrid : piece_in_grid w.game.piece = true) :
    ∃ board, soft_drop env w = .ok (false,
        { game := { w.game with
            board := board,
            piece := ⟨env.rand w.rand_calls % 7, 0, 5, 0⟩ },
          rand_calls := w.rand_calls + 1 }) ∧
      board.length = 220 ∧
      ∀ r c : Int, 0 ≤ r → r < HEIGHT → 0 ≤ c → c < WIDTH →
        matrix_get board WIDTH r c
          = if piece_covers w.game.piece r c then .ok (w.game.piece.tetrino_index + 1)
            else matrix_get w.game.board WIDTH r c := by
  have hback : ({ w.game.piece with offset_row := w.game.piece.offset_row + 1 - 1 } : Piece_State)
      = w.game.piece := by
    cases hp : w.game.piece
    simp
  obtain ⟨b1, h1, h2, h3⟩ := merge_piece_cells w.game hi hgrid hb
  refine ⟨b1, ?_, h2, h3⟩
  have hgame : ({ w.game with piece := w.game.piece } : Game_state F) = w.game := rfl
  simp only [soft_drop, hvalid, hback, hgame, h1, spawn_piece_eq]

/-- The gravity-drop step at the levels inside the drop table, on a state whose piece has
index in `[0,7)` (at any rotation) and whose board has `WIDTH * HEIGHT` cells. If the
placement one row lower is valid and the level is in `[0, 28]`, `soft_drop` returns `true`,
`offset_row` grows by exactly 1, `next_drop_time` becomes
`time + get_time_to_next_drop(level)`, and the board and everything else are unchanged. If the
placement one row lower is invalid and every occupied cell of the piece at its current
placement lies inside the grid, `soft_drop` returns `false`, the board becomes the old board
with the piece id `index + 1` on exactly the cells the piece covers at its current offset and
rotation and every other cell unchanged, the active piece is a freshly spawned one (index
`rand() % 7`, row 0, column `WIDTH / 2`, rotation 0), and `next_drop_time` and everything
else are unchanged. -/
theorem soft_drop_spec {F : Type} (env : Env F) (w : World F)
    (hb : w.game.board.length = 220) (hi : w.game.piece.tetrino_index < 7) :
    (check_piece_valid { w.game.piece with offset_row := w.game.piece.offset_row + 1 }
          w.game.board WIDTH HEIGHT = .ok true →
        0 ≤ w.game.level → w.game.level ≤ 28 →
        ∃ dt, get_time_to_next_drop env.ops w.game.level = .ok dt ∧
          soft_drop env w = .ok (true, { w with game := { w.game with
            piece := { w.game.piece with offset_row := w.game.piece.offset_row + 1 },
            next_drop_time := env.ops.add w.game.time dt } })) ∧
    (check_piece_valid { w.game.piece with offset_row := w.game.piece.offset_row + 1 }
          w.game.board WIDTH HEIGHT = .ok false →
        piece_in_grid w.game.piece = true →
        ∃ board, soft_drop env w = .ok (false,
            { game := { w.game with
                board := board,
                piece := ⟨env.rand w.rand_calls % 7, 0, 5, 0⟩ },
              rand_calls := w.rand_calls + 1 }) ∧
          board.length = 220 ∧
          ∀ r c : Int, 0 ≤ r → r < HEIGHT → 0 ≤ c → c < WIDTH →
            matrix_get board WIDTH r c
              = if piece_covers w.game.piece r c then .ok (w.game.piece.tetrino_index + 1)
                else matrix_get w.game.board WIDTH r c) := by
  constructor
  · intro hvalid h0 h1
    exact soft_drop_moves env w hvalid h0 h1
  · intro hvalid hgrid
    exact soft_drop_locks env w hb hi hvalid hgrid

set_option maxRecDepth 100000 in
/-- Instances of `soft_drop_spec`: the I-piece on the empty board moves down from its spawn
row, and locks into row 21 from offset row 20. -/
theorem soft_drop_spec_witness :
    (∃ dt, get_time_to_next_drop env_zero.ops world_spawn_I.game.level = .ok dt ∧
      soft_drop env_zero world_spawn_I = .ok (true, { world_spawn_I with game :=
        { world_spawn_I.game with
          piece := { world_spawn_I.game.piece with
            offset_row := world_spawn_I.game.piece.offset_row + 1 },
          next_drop_time := env_zero.ops.add world_spawn_I.game.time dt } })) ∧
    (∃ board, soft_drop env_zero world_floor_I = .ok (false,
        { game := { world_floor_I.game with
            board := board,
            piece := ⟨env_zero.rand world_floor_I.rand_calls % 7, 0, 5, 0⟩ },
          rand_calls := world_floor_I.rand_calls + 1 }) ∧
      board.length = 220 ∧
      ∀ r c : Int, 0 ≤ r → r < HEIGHT → 0 ≤ c → c < WIDTH →
        matrix_get board WIDTH r c
          = if piece_covers world_floor_I.game.piece r c
            then .ok (world_floor_I.game.piece.tetrino_index + 1)
            else matrix_get world_floor_I.game.board WIDTH r c) :=
  ⟨(soft_drop_spec env_zero world_spawn_I (by decide) (by decide)).1
      (by decide) (by decide) (by decide),
   (soft_drop_spec env_zero world_floor_I (by decide) (by decide)).2
      (by decide) (by decide)⟩

/-- From level 29 on, a gravity-drop step whose target placement is valid faults at the read
of the drop table. -/
theorem soft_drop_level_fault {F : Type} (env : Env F) (w : World F)
    (hlevel : 29 ≤ w.game.level)
    (hvalid : check_piece_valid
      { w.game.piece with offset_row := w.game.piece.offset_row + 1 }
      w.game.board WIDTH HEIGHT = .ok true) :
    soft_drop env w = .error .out_of_bounds := by
  simp only [soft_drop, hvalid, (get_time_to_next_drop_fault env.ops _ hlevel).2]

set_option maxRecDepth 100000 in
/-- C3, evaluated: `world_level_29` has the I-piece (index 0, rotation 0) as spawned over the
empty board, at level 29; the placement one row lower is valid, so `soft_drop` is to move the
piece and set `next_drop_time = time + get_time_to_next_drop(29)`, but that call reads
`FRAMES_PER_DROP[29]`, one element past the end of the 29-entry table, and the step has no
result. The same holds for every state at a level `>= 29` whose piece can move down. At
level 28 the same step returns `true` with the piece one row lower and
`next_drop_time = time + 1/60`. -/
theorem soft_drop_level_29 :
    world_level_29.game.level = 29 ∧
    world_level_29.game.piece.tetrino_index < 7 ∧
    world_level_29.game.piece.rotation = 0 ∧
    check_piece_valid
      { world_level_29.game.piece with
        offset_row := world_level_29.game.piece.offset_row + 1 }
      world_level_29.game.board WIDTH HEIGHT = .ok true ∧
    drop_table_index world_level_29.game.level = 29 ∧
    FRAMES_PER_DROP.length = 29 ∧
    get_time_to_next_drop env_zero.ops world_level_29.game.level = .error .out_of_bounds ∧
    soft_drop env_zero world_level_29 = .error .out_of_bounds ∧
    (∀ (F : Type) (env : Env F) (w : World F), 29 ≤ w.game.level →
      check_piece_valid { w.game.piece with offset_row := w.game.piece.offset_row + 1 }
        w.game.board WIDTH HEIGHT = .ok true →
      soft_drop env w = .error .out_of_bounds) ∧
    soft_drop env_zero world_level_28
      = .ok (true, { world_level_28 with game := { world_level_28.game with
          piece := { world_level_28.game.piece with
            offset_row := world_level_28.game.piece.offset_row + 1 },
          next_drop_time := env_zero.ops.add world_level_28.game.time ⟨1, 60⟩ } }) :=
  ⟨by decide, by decide, by decide, by decide, by decide, by decide, by decide, by decide,
    fun _ env w hlevel hvalid => soft_drop_level_fault env w hlevel hvalid, by decide⟩

/-! ## Hard drop -/

theorem check_piece_valid_index (p : Piece_State) (b : List Nat) (v : Bool)
    (h : check_piece_valid p b WIDTH HEIGHT = .ok v) : p.tetrino_index < 7 := by
  unfold check_piece_valid at h
  cases ht : tetrino_at p.tetrino_index with
  | error e => rw [ht] at h; cases h
  | ok t => exact (tetrino_at_some _ t ht).2.1

theorem valid_in_grid (p : Piece_State) (b : List Nat) (hb : b.length = 220)
    (h : check_piece_valid p b WIDTH HEIGHT = .ok true) : piece_in_grid p = true := by
  have hi := check_piece_valid_index p b true h
  obtain ⟨t, valid, ht, hv, hiff⟩ := check_piece_valid_fits p b hb hi
  rw [h] at hv
  cases hv
  rw [piece_in_grid_iff p t ht]
  intro row col hr hc v hget hz
  obtain ⟨v1, hv1, hfit⟩ := hiff.1 rfl row col hr hc
  rw [hget] at hv1
  cases hv1
  obtain ⟨g1, g2, g3, g4, _⟩ := hfit hz
  exact ⟨g1, g2, g3, g4⟩

/-- At each of the four rotations every catalog mask has an occupied cell. -/
theorem tetrinos_occupied : ∀ t ∈ TETRINOS, ∀ rot ∈ [(0 : Int), 1, 2, 3],
    ∃ row ∈ List.range 4, ∃ col ∈ List.range 4, (row : Int) < t.side ∧ (col : Int) < t.side ∧
      ∃ v ∈ t.data, v ≠ 0 ∧ tetrino_get t row col rot = .ok v := by
  decide

/-- A piece at a rotation in `0..3` whose placement is valid does not reach below the
floor: some occupied mask row `r0` has `offset_row + r0` inside the grid. -/
theorem valid_row_bound (p : Piece_State) (hrot : 0 ≤ p.rotation ∧ p.rotation ≤ 3)
    (hi : p.tetrino_index < 7) :
    ∃ r0 : Nat, ∀ (b : List Nat) (row : Int), b.length = 220 →
      check_piece_valid { p with offset_row := row } b WIDTH HEIGHT = .ok true →
      0 ≤ row + r0 ∧ row + r0 < 22 := by
  obtain ⟨t, ht, hmem⟩ := tetrino_at_ok _ hi
  have hr : p.rotation ∈ [(0 : Int), 1, 2, 3] := by
    simp only [List.mem_cons, List.mem_singleton, List.not_mem_nil, or_false]
    omega
  obtain ⟨r0, _, c0, _, hr0, hc0, v, _, hv0, hget⟩ := tetrinos_occupied t hmem p.rotation hr
  refine ⟨r0, fun b row hb hvalid => ?_⟩
  obtain ⟨t1, valid, ht1, hv, hiff⟩ :=
    check_piece_valid_fits { p with offset_row := row } b hb hi
  rw [ht] at ht1
  cases ht1
  rw [hvalid] at hv
  cases hv
  obtain ⟨v1, hv1, hfit⟩ := hiff.1 rfl r0 c0 hr0 hc0
  rw [hget] at hv1
  cases hv1
  have := hfit hv0
  unfold HEIGHT at this
  exact ⟨this.1, this.2.1⟩

theorem check_piece_valid_total (p : Piece_State) (b : List Nat) (hb : b.length = 220)
    (hi : p.tetrino_index < 7) :
    check_piece_valid p b WIDTH HEIGHT = .ok true ∨
      check_piece_valid p b WIDTH HEIGHT = .ok false := by
  obtain ⟨_, valid, _, hv, _⟩ := check_piece_valid_fits p b hb hi
  cases valid
  · exact Or.inr hv
  · exact Or.inl hv

/-- More fuel does not change the result of a hard drop that completed. -/
theorem hard_drop_loop_mono {F : Type} (env : Env F) : ∀ (fuel : Nat) (w w1 : World F),
    hard_drop_loop env fuel w = .ok w1 → ∀ more, hard_drop_loop env (fuel + more) w = .ok w1 := by
  intro fuel
  induction fuel with
  | zero => intro w w1 h; cases h
  | succ fuel ih =>
    intro w w1 h more
    have e : fuel + 1 + more = (fuel + more) + 1 := by omega
    rw [e]
    unfold hard_drop_loop at h ⊢
    cases hs : soft_drop env w with
    | error e => rw [hs] at h; cases h
    | ok r =>
      obtain ⟨moved, w2⟩ := r
      rw [hs] at h
      cases moved
      · exact h
      · exact ih w2 w1 h more

theorem piece_lowered_zero (p : Piece_State) : piece_lowered p 0 = p := by
  cases p; simp [piece_lowered]

theorem piece_lowered_add (p : Piece_State) (a b : Int) :
    piece_lowered (piece_lowered p a) b = piece_lowered p (a + b) := by
  simp [piece_lowered, add_assoc]

/-- A hard drop whose first invalid placement is `k + 1` rows down takes exactly `k + 1`
steps and locks the piece `k` rows down. -/
theorem hard_drop_loop_run {F : Type} (env : Env F) : ∀ (k : Nat) (w : World F),
    w.game.board.length = 220 → w.game.piece.tetrino_index < 7 →
    0 ≤ w.game.level → w.game.level ≤ 28 →
    (∀ j : Nat, 1 ≤ j → j ≤ k →
      check_piece_valid (piece_lowered w.game.piece j) w.game.board WIDTH HEIGHT = .ok true) →
    check_piece_valid (piece_lowered w.game.piece ((k : Int) + 1)) w.game.board WIDTH HEIGHT
      = .ok false →
    piece_in_grid (piece_lowered w.game.piece k) = true →
    ∃ board dt, get_time_to_next_drop env.ops w.game.level = .ok dt ∧
      hard_drop_loop env (k + 1) w = .ok
        { game := { w.game with
            board := board,
            piece := ⟨env.rand w.rand_calls % 7, 0, 5, 0⟩,
            next_drop_time :=
              if k = 0 then w.game.next_drop_time else env.ops.add w.game.time dt },
          rand_calls := w.rand_calls + 1 } ∧
      hard_drop_loop env k w = .error .out_of_fuel ∧
      board.length = 220 ∧
      ∀ r c : Int, 0 ≤ r → r < HEIGHT → 0 ≤ c → c < WIDTH →
        matrix_get board WIDTH r c
          = if piece_covers (piece_lowered w.game.piece k) r c
            then .ok (w.game.piece.tetrino_index + 1)
            else matrix_get w.game.board WIDTH r c := by
  intro k
  induction k with
  | zero =>
    intro w hb hi h0 h1 _ hlock hgrid
    obtain ⟨dt, hdt⟩ := get_time_to_next_drop_ok env.ops w.game.level h0 h1
    simp only [Nat.cast_zero, zero_add, piece_lowered_zero] at hlock hgrid
    obtain ⟨board, hs, hlen, hcells⟩ := soft_drop_locks env w hb hi hlock hgrid
    refine ⟨board, dt, hdt, ?_, rfl, hlen, ?_⟩
    · simp only [hard_drop_loop, hs, if_true]
    · simpa only [Nat.cast_zero, piece_lowered_zero] using hcells
  | succ k ih =>
    intro w hb hi h0 h1 hvalid hlock hgrid
    have hfirst : check_piece_valid (piece_lowered w.game.piece 1) w.game.board WIDTH HEIGHT
        = .ok true := by
      have := hvalid 1 (le_refl _) (by omega)
      simpa using this
    obtain ⟨dt, hdt, hs⟩ := soft_drop_moves env w hfirst h0 h1
    obtain ⟨board, dt1, hdt1, hrun, hfuel, hlen, hcells⟩ := ih
      { w with game := { w.game with
          piece := piece_lowered w.game.piece 1,
          next_drop_time := env.ops.add w.game.time dt } }
      hb hi h0 h1
      (fun j hj1 hjk => by
        have := hvalid (j + 1) (by omega) (by omega)
        simp only [piece_lowered_add]
        have e : (1 : Int) + (j : Int) = ((j + 1 : Nat) : Int) := by push_cast; omega
        rw [e]
        exact this)
      (by
        simp only [piece_lowered_add]
        have e : (1 : Int) + ((k : Int) + 1) = ((k + 1 : Nat) : Int) + 1 := by push_cast; omega
        rw [e]
        exact hlock)
      (by
        simp only [piece_lowered_add]
        have e : (1 : Int) + (k : Int) = ((k + 1 : Nat) : Int) := by push_cast; omega
        rw [e]
        exact hgrid)
    simp only [hdt] at hdt1
    cases hdt1
    have hstep : ∀ fuel, hard_drop_loop env (fuel + 1) w
        = hard_drop_loop env fuel { w with game := { w.game with
            piece := piece_lowered w.game.piece 1,
            next_drop_time := env.ops.add w.game.time dt } } := by
      intro fuel
      simp only [hard_drop_loop, hs]
      rfl
    refine ⟨board, dt, hdt, ?_, ?_, hlen, ?_⟩
    · rw [hstep, hrun]
      congr 2
      simp only [Nat.succ_ne_zero, if_false]
      split_ifs <;> rfl
    · rw [hstep, hfuel]
    · intro r c hr0 hr1 hc0 hc1
      have := hcells r c hr0 hr1 hc0 hc1
      simp only [piece_lowered_add] at this
      have e : (1 : Int) + (k : Int) = ((k + 1 : Nat) : Int) := by push_cast; omega
      rw [e] at this
      exact this

/-- Hard drop at the levels inside the drop table. The loop `while (soft_drop(game));`
started from a state whose board has `WIDTH * HEIGHT` cells, whose level is in `[0, 28]` and
whose active piece has a rotation in `{0,1,2,3}` and is in a valid placement: there is a
`k >= 0`, the largest number such that the placements `1, ..., k` rows lower are all valid,
with `k + 1 <= HEIGHT`, such that the loop stops after exactly `k + 1` steps (it returns with
every fuel `>= k + 1`, and runs out of fuel `k`), leaving the old board with the piece id on
exactly the cells the piece covers `k` rows lower, and a new piece spawned at row 0, column
`WIDTH / 2`, rotation 0. -/
theorem hard_drop_spec {F : Type} (env : Env F) (w : World F)
    (hb : w.game.board.length = 220)
    (hrot : 0 ≤ w.game.piece.rotation ∧ w.game.piece.rotation ≤ 3)
    (h0 : 0 ≤ w.game.level) (h1 : w.game.level ≤ 28)
    (hvalid : check_piece_valid w.game.piece w.game.board WIDTH HEIGHT = .ok true) :
    ∃ k : Nat, (k : Int) + 1 ≤ HEIGHT ∧
      (∀ j : Nat, 1 ≤ j → j ≤ k →
        check_piece_valid (piece_lowered w.game.piece j) w.game.board WIDTH HEIGHT
          = .ok true) ∧
      check_piece_valid (piece_lowered w.game.piece ((k : Int) + 1)) w.game.board WIDTH HEIGHT
        = .ok false ∧
      ∃ board dt, get_time_to_next_drop env.ops w.game.level = .ok dt ∧
        (∀ fuel, k + 1 ≤ fuel → hard_drop_loop env fuel w = .ok
          { game := { w.game with
              board := board,
              piece := ⟨env.rand w.rand_calls % 7, 0, 5, 0⟩,
              next_drop_time :=
                if k = 0 then w.game.next_drop_time else env.ops.add w.game.time dt },
            rand_calls := w.rand_calls + 1 }) ∧
        hard_drop_loop env k w = .error .out_of_fuel ∧
        board.length = 220 ∧
        ∀ r c : Int, 0 ≤ r → r < HEIGHT → 0 ≤ c → c < WIDTH →
          matrix_get board WIDTH r c
            = if piece_covers (piece_lowered w.game.piece k) r c
              then .ok (w.game.piece.tetrino_index + 1)
              else matrix_get w.game.board WIDTH r c := by
  have hi := check_piece_valid_index _ _ _ hvalid
  obtain ⟨r0, hbound⟩ := valid_row_bound w.game.piece hrot hi
  have hstart := hbound w.game.board w.game.piece.offset_row hb hvalid
  have hlow : ∀ j : Int, ({ w.game.piece with offset_row := w.game.piece.offset_row + j }
      : Piece_State) = piece_lowered w.game.piece j := fun _ => rfl
  have hidx : ∀ j : Int, (piece_lowered w.game.piece j).tetrino_index < 7 := fun _ => hi
  -- some placement below is invalid: the piece cannot sink through the floor
  have hex : ∃ j : Nat, check_piece_valid (piece_lowered w.game.piece ((j : Int) + 1))
      w.game.board WIDTH HEIGHT = .ok false := by
    refine ⟨(21 - (w.game.piece.offset_row + r0)).toNat, ?_⟩
    rcases check_piece_valid_total _ w.game.board hb (hidx _) with h | h
    · have := hbound w.game.board (w.game.piece.offset_row
        + ((((21 - (w.game.piece.offset_row + r0)).toNat : Nat) : Int) + 1)) hb h
      omega
    · exact h
  classical
  have hk := Nat.find_spec hex
  have hmin : ∀ j : Nat, j < Nat.find hex →
      check_piece_valid (piece_lowered w.game.piece ((j : Int) + 1)) w.game.board WIDTH HEIGHT
        = .ok true := by
    intro j hj
    rcases check_piece_valid_total _ w.game.board hb (hidx ((j : Int) + 1)) with h | h
    · exact h
    · exact absurd h (Nat.find_min hex hj)
  have hle : Nat.find hex ≤ (21 - (w.game.piece.offset_row + r0)).toNat := by
    apply Nat.find_min'
    rcases check_piece_valid_total _ w.game.board hb (hidx _) with h | h
    · have := hbound w.game.board (w.game.piece.offset_row
        + ((((21 - (w.game.piece.offset_row + r0)).toNat : Nat) : Int) + 1)) hb h
      omega
    · exact h
  have hval : ∀ j : Nat, 1 ≤ j → j ≤ Nat.find hex →
      check_piece_valid (piece_lowered w.game.piece j) w.game.board WIDTH HEIGHT
        = .ok true := by
    intro j hj1 hjk
    have := hmin (j - 1) (by omega)
    have e : ((j - 1 : Nat) : Int) + 1 = (j : Int) := by omega
    rw [e] at this
    exact this
  have hgrid : piece_in_grid (piece_lowered w.game.piece (Nat.find hex)) = true := by
    by_cases hz : Nat.find hex = 0
    · rw [hz, Nat.cast_zero, piece_lowered_zero]
      exact valid_in_grid _ _ hb hvalid
    · exact valid_in_grid _ _ hb (hval _ (by omega) (le_refl _))
  obtain ⟨board, dt, hdt, hrun, hfuel, hlen, hcells⟩ :=
    hard_drop_loop_run env (Nat.find hex) w hb hi h0 h1 hval hk hgrid
  refine ⟨Nat.find hex, by unfold HEIGHT; omega, hval, hk, board, dt, hdt, ?_, hfuel, hlen,
    hcells⟩
  intro fuel hfl
  have := hard_drop_loop_mono env _ w _ hrun (fuel - (Nat.find hex + 1))
  have e : Nat.find hex + 1 + (fuel - (Nat.find hex + 1)) = fuel := by omega
  rw [e] at this
  exact this

set_option maxRecDepth 100000 in
/-- Instance of `hard_drop_spec`: the I-piece (index 0, id 1) spawned at row 0, column 5 on
the empty board ends merged as value 1 in board row 21, columns 5..8 (array indices 215..218), all other
cells 0, and the new active piece is at row 0, column 5, rotation 0. -/
theorem hard_drop_spec_witness :
    (∃ k : Nat, (k : Int) + 1 ≤ HEIGHT ∧
      (∀ j : Nat, 1 ≤ j → j ≤ k →
        check_piece_valid (piece_lowered world_spawn_I.game.piece j)
          world_spawn_I.game.board WIDTH HEIGHT = .ok true) ∧
      check_piece_valid (piece_lowered world_spawn_I.game.piece ((k : Int) + 1))
        world_spawn_I.game.board WIDTH HEIGHT = .ok false ∧
      ∃ board dt, get_time_to_next_drop env_zero.ops world_spawn_I.game.level = .ok dt ∧
        (∀ fuel, k + 1 ≤ fuel → hard_drop_loop env_zero fuel world_spawn_I = .ok
          { game := { world_spawn_I.game with
              board := board,
              piece := ⟨env_zero.rand world_spawn_I.rand_calls % 7, 0, 5, 0⟩,
              next_drop_time :=
                if k = 0 then world_spawn_I.game.next_drop_time
                else env_zero.ops.add world_spawn_I.game.time dt },
            rand_calls := world_spawn_I.rand_calls + 1 }) ∧
        hard_drop_loop env_zero k world_spawn_I = .error .out_of_fuel ∧
        board.length = 220 ∧
        ∀ r c : Int, 0 ≤ r → r < HEIGHT → 0 ≤ c → c < WIDTH →
          matrix_get board WIDTH r c
            = if piece_covers (piece_lowered world_spawn_I.game.piece k) r c
              then .ok (world_spawn_I.game.piece.tetrino_index + 1)
              else matrix_get world_spawn_I.game.board WIDTH r c) ∧
    (hard_drop_loop env_zero 22 world_spawn_I).map (fun w => (w.game.board, w.game.piece))
      = .ok (List.replicate 215 0 ++ [1, 1, 1, 1, 0], ⟨0, 0, 5, 0⟩) :=
  ⟨hard_drop_spec env_zero world_spawn_I (by decide) (by decide) (by decide) (by decide)
    (by decide), by decide⟩

/-- C5. In the move and rotate step of `update_game_play` (on a board of `WIDTH * HEIGHT`
cells, for a piece with index in `[0,7)`), the candidate is the active piece with
`offset_col` decreased by 1 if `dleft > 0` and increased by 1 if `dright > 0`, and with rotation
`(rotation + 1) % 4` (the remainder of C, which for `rotation >= 0` is `(rotation + 1) mod 4`)
if `dup > 0`; index and `offset_row` are those of the active piece. `check_piece_valid`
decides the candidate, and after the step the active piece is the candidate if it is valid
and is exactly the old piece otherwise; the board and every other field are unchanged in
both cases. -/
theorem update_game_play_move_spec {F : Type} (game : Game_state F) (input : Input_State)
    (hb : game.board.length = 220) (hi : game.piece.tetrino_index < 7) :
    update_game_play_candidate game.piece input
      = { tetrino_index := game.piece.tetrino_index,
          offset_row := game.piece.offset_row,
          offset_col := game.piece.offset_col
            - (if input.dleft > 0 then 1 else 0) + (if input.dright > 0 then 1 else 0),
          rotation := if input.dup > 0 then (game.piece.rotation + 1).tmod 4
            else game.piece.rotation } ∧
    (0 ≤ game.piece.rotation →
      (game.piece.rotation + 1).tmod 4 = (game.piece.rotation + 1) % 4) ∧
    ∃ valid, check_piece_valid (update_game_play_candidate game.piece input) game.board
        WIDTH HEIGHT = .ok valid ∧
      update_game_play_move game input
        = .ok (if valid then { game with piece := update_game_play_candidate game.piece input }
            else game) := by
  refine ⟨?_, fun h => Int.tmod_eq_emod (by omega) (by omega), ?_⟩
  · cases hp : game.piece
    unfold update_game_play_candidate
    by_cases h1 : input.dleft > 0 <;> by_cases h2 : input.dright > 0 <;>
      by_cases h3 : input.dup > 0 <;> simp [h1, h2, h3]
  · have hci : (update_game_play_candidate game.piece input).tetrino_index < 7 := by
      unfold update_game_play_candidate
      by_cases h1 : input.dleft > 0 <;> by_cases h2 : input.dright > 0 <;>
        by_cases h3 : input.dup > 0 <;> simp [h1, h2, h3] <;> exact hi
    rcases check_piece_valid_total _ game.board hb hci with h | h
    · exact ⟨true, h, by simp only [update_game_play_move, h, if_true]⟩
    · refine ⟨false, h, by simp only [update_game_play_move, h]; rfl⟩

set_option maxRecDepth 100000 in
/-- C5, instance: the I-piece as spawned on the empty board, with left and rotate pressed. -/
theorem update_game_play_move_spec_witness :
    update_game_play_candidate world_spawn_I.game.piece ⟨1, 0, 1, 0, 0, 1, 0, 1, 0, 0⟩
      = { tetrino_index := world_spawn_I.game.piece.tetrino_index,
          offset_row := world_spawn_I.game.piece.offset_row,
          offset_col := world_spawn_I.game.piece.offset_col
            - (if (⟨1, 0, 1, 0, 0, 1, 0, 1, 0, 0⟩ : Input_State).dleft > 0 then 1 else 0)
            + (if (⟨1, 0, 1, 0, 0, 1, 0, 1, 0, 0⟩ : Input_State).dright > 0 then 1 else 0),
          rotation := if (⟨1, 0, 1, 0, 0, 1, 0, 1, 0, 0⟩ : Input_State).dup > 0
            then (world_spawn_I.game.piece.rotation + 1).tmod 4
            else world_spawn_I.game.piece.rotation } ∧
    (0 ≤ world_spawn_I.game.piece.rotation →
      (world_spawn_I.game.piece.rotation + 1).tmod 4
        = (world_spawn_I.game.piece.rotation + 1) % 4) ∧
    ∃ valid, check_piece_valid
        (update_game_play_candidate world_spawn_I.game.piece ⟨1, 0, 1, 0, 0, 1, 0, 1, 0, 0⟩)
        world_spawn_I.game.board WIDTH HEIGHT = .ok valid ∧
      update_game_play_move world_spawn_I.game ⟨1, 0, 1, 0, 0, 1, 0, 1, 0, 0⟩
        = .ok (if valid then { world_spawn_I.game with
              piece := update_game_play_candidate world_spawn_I.game.piece
                ⟨1, 0, 1, 0, 0, 1, 0, 1, 0, 0⟩ }
            else world_spawn_I.game) :=
  update_game_play_move_spec world_spawn_I.game ⟨1, 0, 1, 0, 0, 1, 0, 1, 0, 0⟩
    (by decide) (by decide)

/-! ## The end of the LINE_CLEAR phase, scoring and levels -/

theorem get_lines_for_next_level_eq (start_level level : Int) :
    get_lines_for_next_level start_level level
      = min (10 * start_level + 10) (max 100 (10 * start_level - 50))
        + 10 * (level - start_level) := by
  unfold get_lines_for_next_level min_s32 max_s32
  simp only []
  by_cases h : level = start_level
  · subst h
    rw [if_pos rfl]
    split_ifs <;> omega
  · rw [if_neg h]
    split_ifs <;> omega

/-- C6. For every state in the LINE_CLEAR phase (board of `WIDTH * HEIGHT` cells, record of
`HEIGHT` flags) with `time >= highlight_end_time`, one `update_game` call returns the state
with: the board compacted by the stored record (`clear_lines_spec`); `line_count` increased
by the pending count; `points` increased by `compute_points(old level, pending count)`;
`level` increased by 1 exactly if the new `line_count` is at least
`get_lines_for_next_level(start_level, old level)`, which is
`min(10 s + 10, max(100, 10 s - 50)) + 10 (l - s)`; phase PLAY; the active piece and all other
fields unchanged. In particular a pending count of 1 adds `40 * (level + 1)` points. -/
theorem update_game_line_clear_spec {F : Type} (env : Env F) (fuel : Nat) (w : World F)
    (input : Input_State) (hb : w.game.board.length = 220) (hl : w.game.lines.length = 22)
    (hphase : w.game.phase = .GAME_PHASE_LINE)
    (htime : env.ops.ge w.game.time w.game.highlight_end_time = true) :
    update_game env fuel w input = .ok { w with game := { w.game with
        board := clear_lines_spec w.game.board 10 22 w.game.lines,
        line_count := w.game.line_count + w.game.pending_line_count,
        points := w.game.points + compute_points w.game.level w.game.pending_line_count,
        level :=
          if w.game.line_count + w.game.pending_line_count
              ≥ min (10 * w.game.start_level + 10) (max 100 (10 * w.game.start_level - 50))
                + 10 * (w.game.level - w.game.start_level)
          then w.game.level + 1 else w.game.level,
        phase := .GAME_PHASE_PLAY } } ∧
    compute_points w.game.level 1 = 40 * (w.game.level + 1) := by
  refine ⟨?_, rfl⟩
  have hc : clear_lines w.game.board WIDTH HEIGHT w.game.lines
      = .ok (clear_lines_spec w.game.board 10 22 w.game.lines) :=
    clear_lines_eq_spec w.game.board 10 22 w.game.lines hb hl
  simp only [update_game, hphase, update_game_line, htime, if_true, hc,
    get_lines_for_next_level_eq]

set_option maxRecDepth 100000 in
/-- C6, instance: one pending line at level 0 with 9 lines cleared before: the full bottom
row is removed, `line_count` becomes 10, `points` grow by 40 and the level becomes 1. -/
theorem update_game_line_clear_spec_witness :
    (update_game env_zero 0 world_line_clear ⟨0, 0, 0, 0, 0, 0, 0, 0, 0, 0⟩ = .ok
      { world_line_clear with game := { world_line_clear.game with
        board := clear_lines_spec world_line_clear.game.board 10 22 world_line_clear.game.lines,
        line_count := world_line_clear.game.line_count
          + world_line_clear.game.pending_line_count,
        points := world_line_clear.game.points
          + compute_points world_line_clear.game.level world_line_clear.game.pending_line_count,
        level :=
          if world_line_clear.game.line_count + world_line_clear.game.pending_line_count
              ≥ min (10 * world_line_clear.game.start_level + 10)
                  (max 100 (10 * world_line_clear.game.start_level - 50))
                + 10 * (world_line_clear.game.level - world_line_clear.game.start_level)
          then world_line_clear.game.level + 1 else world_line_clear.game.level,
        phase := .GAME_PHASE_PLAY } } ∧
      compute_points world_line_clear.game.level 1 = 40 * (world_line_clear.game.level + 1)) ∧
    (update_game env_zero 0 world_line_clear ⟨0, 0, 0, 0, 0, 0, 0, 0, 0, 0⟩).map
        (fun w => (w.game.board, w.game.line_count, w.game.points, w.game.level, w.game.phase))
      = .ok (board_empty, 10, 400, 1, .GAME_PHASE_PLAY) :=
  ⟨update_game_line_clear_spec env_zero 0 world_line_clear ⟨0, 0, 0, 0, 0, 0, 0, 0, 0, 0⟩
    (by decide) (by decide) (by decide) (by decide), by decide⟩

/-! ## Scoring -/

/-- C10. For every level and line count `n` (as integers, without overflow),
`compute_points(level, n)` is `40 * (level + 1)`, `100 * (level + 1)`, `300 * (level + 1)`,
`1200 * (level + 1)` for `n = 1, 2, 3, 4` and 0 for every other `n` (0, 5, negative `n`
included); at level 0 these are 40, 100, 300, 1200. -/
theorem compute_points_spec (level n : Int) :
    compute_points level 1 = 40 * (level + 1) ∧
    compute_points level 2 = 100 * (level + 1) ∧
    compute_points level 3 = 300 * (level + 1) ∧
    compute_points level 4 = 1200 * (level + 1) ∧
    ((n < 1 ∨ 4 < n) → compute_points level n = 0) ∧
    compute_points level 0 = 0 ∧ compute_points level 5 = 0 ∧
    compute_points 0 1 = 40 ∧ compute_points 0 2 = 100 ∧
    compute_points 0 3 = 300 ∧ compute_points 0 4 = 1200 := by
  refine ⟨rfl, rfl, rfl, rfl, ?_, rfl, rfl, rfl, rfl, rfl, rfl⟩
  intro h
  have h1 : ¬ n = 1 := by omega
  have h2 : ¬ n = 2 := by omega
  have h3 : ¬ n = 3 := by omega
  have h4 : ¬ n = 4 := by omega
  simp only [compute_points, h1, h2, h3, h4, if_false]

/-! ## Detection of filled rows (`check_row_filled`, `find_lines`) -/

theorem loop_all_eq_all (values : List Nat) (row : Nat) : ∀ cols : List Nat,
    (∀ col ∈ cols, ∃ v, matrix_get values WIDTH row col = .ok v) →
    loop_all (check_row_filled_cell values WIDTH row) cols
      = .ok (cols.all fun col =>
          match matrix_get values WIDTH row col with
          | .ok v => v != 0
          | .error _ => false) := by
  intro cols
  induction cols with
  | nil => intro _; rfl
  | cons col rest ih =>
    intro h
    obtain ⟨v, hv⟩ := h col (List.mem_cons_self _ _)
    have ih1 := ih (fun c hc => h c (List.mem_cons_of_mem _ hc))
    by_cases hz : v = 0
    · simp [loop_all, check_row_filled_cell, hv, hz]
    · have hnz : (v != 0) = true := by simp [hz]
      simp only [loop_all, check_row_filled_cell, hv, List.all_cons, hnz, Bool.true_and]
      exact ih1

theorem check_row_filled_eq (values : List Nat) (hv : values.length = 220) (row : Nat)
    (hr : row < 22) :
    check_row_filled values WIDTH row = .ok (if row_is_full values row then 1 else 0) := by
  have h : loop_all (check_row_filled_cell values WIDTH row) (List.range WIDTH.toNat)
      = .ok (row_is_full values row) :=
    loop_all_eq_all values row (List.range WIDTH.toNat) (by
      intro col hcol
      have hc : col < 10 := by simpa [WIDTH] using hcol
      exact matrix_get_ok values hv row col (by omega) (by unfold HEIGHT; omega) (by omega)
        (by unfold WIDTH; omega))
  unfold check_row_filled
  rw [h]
  cases row_is_full values row <;> rfl

theorem find_lines_loop (values : List Nat) (hv : values.length = 220) :
    ∀ (n s : Nat) (st : Int × List Nat), st.2.length = 22 → s + n ≤ 22 →
    loop_fold (fun (st : Int × List Nat) row =>
        match check_row_filled values WIDTH row with
        | .error e => .error e
        | .ok filled =>
          match array_write st.2 row filled with
          | .error e => .error e
          | .ok lines1 => .ok (st.1 + filled, lines1)) st (List.range' s n)
      = .ok (st.1 + (((List.range' s n).filter (row_is_full values)).length : Int),
          st.2.take s
            ++ (List.range' s n).map (fun row => if row_is_full values row then 1 else 0)
            ++ st.2.drop (s + n)) := by
  intro n
  induction n with
  | zero => intro s st _ _; simp [loop_fold]
  | succ n ih =>
    intro s st hl hs
    have hw := array_write_nat st.2 s (if row_is_full values s then 1 else 0) (by omega)
    rw [List.range'_succ]
    simp only [loop_fold, check_row_filled_eq values hv s (by omega), hw]
    rw [ih (s + 1) _ (by simp [hl]) (by omega)]
    congr 1
    refine Prod.ext ?_ ?_
    · simp only []
      by_cases hf : row_is_full values s = true
      · simp [List.filter_cons, hf]; omega
      · simp [List.filter_cons, hf]
    · simp only [List.map_cons]
      have := set_window st.2 s n (if row_is_full values s then 1 else 0)
        ((List.range' (s + 1) n).map (fun row => if row_is_full values row then 1 else 0))
        (by omega)
      have a : s + (n + 1) = s + 1 + n := by omega
      rw [a, this]

/-- The value `find_lines` returns: the number of full rows and their flags. -/
theorem find_lines_eq (values lines_out : List Nat) (hv : values.length = 220)
    (hl : lines_out.length = 22) :
    find_lines values WIDTH HEIGHT lines_out
      = .ok ((((List.range 22).filter (row_is_full values)).length : Int),
          (List.range 22).map (fun row => if row_is_full values row then 1 else 0)) := by
  have h := find_lines_loop values hv 22 0 (0, lines_out) hl (by omega)
  have hd : List.drop 22 lines_out = [] := List.drop_eq_nil_of_le (by omega)
  simp only [List.take_zero, List.nil_append, zero_add, hd, List.append_nil] at h
  unfold find_lines
  have e : HEIGHT.toNat = 22 := rfl
  rw [e, List.range_eq_range']
  exact h

set_option maxRecDepth 100000 in
/-- C8. For every board of `WIDTH * HEIGHT` cells (and an output array of `HEIGHT` bytes),
`find_lines` sets `lines_out[row]` to 1 exactly for the rows in which all `WIDTH` cells are
non-zero and to 0 for every other row, and returns the number of such rows; for the all-zero
board the count is 0. -/
theorem find_lines_spec (values lines_out : List Nat) (hv : values.length = 220)
    (hl : lines_out.length = 22) :
    find_lines values WIDTH HEIGHT lines_out
      = .ok ((((List.range 22).filter (row_is_full values)).length : Int),
          (List.range 22).map (fun row => if row_is_full values row then 1 else 0)) ∧
    (∀ row : Nat, row < 22 →
      (row_is_full values row = true ↔
        ∀ col : Nat, col < 10 → ∃ v, matrix_get values WIDTH row col = .ok v ∧ v ≠ 0)) ∧
    find_lines (List.replicate 220 0) WIDTH HEIGHT lines_out
      = .ok (0, List.replicate 22 0) := by
  refine ⟨find_lines_eq values lines_out hv hl, ?_, ?_⟩
  · intro row hr
    unfold row_is_full
    have e : WIDTH.toNat = 10 := rfl
    simp only [e, List.all_eq_true, List.mem_range]
    constructor
    · intro h col hc
      have := h col hc
      cases hm : matrix_get values WIDTH row col with
      | error e1 => rw [hm] at this; cases this
      | ok v => rw [hm] at this; exact ⟨v, rfl, by simpa using this⟩
    · intro h col hc
      obtain ⟨v, hm, hz⟩ := h col hc
      rw [hm]
      simpa using hz
  · rw [find_lines_eq _ lines_out (List.length_replicate _ _) hl]
    decide

set_option maxRecDepth 100000 in
/-- C8, instance: the board whose bottom row is full. -/
theorem find_lines_spec_witness :
    (find_lines board_bottom_full WIDTH HEIGHT (List.replicate 22 0)
      = .ok ((((List.range 22).filter (row_is_full board_bottom_full)).length : Int),
          (List.range 22).map (fun row => if row_is_full board_bottom_full row then 1 else 0)) ∧
    (∀ row : Nat, row < 22 →
      (row_is_full board_bottom_full row = true ↔
        ∀ col : Nat, col < 10 →
          ∃ v, matrix_get board_bottom_full WIDTH row col = .ok v ∧ v ≠ 0)) ∧
    find_lines (List.replicate 220 0) WIDTH HEIGHT (List.replicate 22 0)
      = .ok (0, List.replicate 22 0)) ∧
    find_lines board_bottom_full WIDTH HEIGHT (List.replicate 22 0)
      = .ok (1, List.replicate 21 0 ++ [1]) :=
  ⟨find_lines_spec board_bottom_full (List.replicate 22 0) (by decide) (by decide), by decide⟩

/-! ## The end of a PLAY tick -/

theorem loop_fold_preserves {σ : Type} (P : σ → Prop) (body : σ → Nat → Exec σ)
    (hbody : ∀ s i s1, P s → body s i = .ok s1 → P s1) : ∀ (is : List Nat) (s s1 : σ),
    P s → loop_fold body s is = .ok s1 → P s1 := by
  intro is
  induction is with
  | nil => intro s s1 hs h; cases h; exact hs
  | cons i rest ih =>
    intro s s1 hs h
    unfold loop_fold at h
    cases hb : body s i with
    | error e => rw [hb] at h; cases h
    | ok s2 =>
      rw [hb] at h
      exact ih s2 s1 (hbody s i s2 hs hb) h

theorem array_write_length (xs : List Nat) (index : Int) (v : Nat) (ys : List Nat)
    (h : array_write xs index v = .ok ys) : ys.length = xs.length := by
  unfold array_write at h
  split_ifs at h
  cases h
  simp

theorem merge_piece_frame {F : Type} (g g1 : Game_state F) (h : merge_piece g = .ok g1) :
    drop_frame g g1 := by
  unfold merge_piece at h
  cases ht : tetrino_at g.piece.tetrino_index with
  | error e => rw [ht] at h; cases h
  | ok t =>
    rw [ht] at h
    simp only at h
    cases hl : loop_fold (fun board row =>
        loop_fold (merge_piece_cell t g.piece row) board (List.range t.side.toNat))
      g.board (List.range t.side.toNat) with
    | error e => rw [hl] at h; cases h
    | ok b =>
      rw [hl] at h
      cases h
      refine ⟨?_, rfl, rfl, rfl, rfl, rfl, rfl, rfl, rfl, rfl⟩
      refine loop_fold_preserves (fun b1 : List Nat => b1.length = g.board.length) _ ?_ _ _ _
        rfl hl
      intro s row s1 hs hrow
      refine loop_fold_preserves (fun b1 : List Nat => b1.length = g.board.length) _ ?_ _ _ _
        hs hrow
      intro s2 col s3 hs2 hcell
      unfold merge_piece_cell at hcell
      cases hg : tetrino_get t row col g.piece.rotation with
      | error e => rw [hg] at hcell; cases hcell
      | ok v =>
        rw [hg] at hcell
        simp only at hcell
        split_ifs at hcell
        · rw [array_write_length _ _ _ _ hcell, hs2]
        · cases hcell; exact hs2

theorem drop_frame_refl {F : Type} (g : Game_state F) : drop_frame g g :=
  ⟨rfl, rfl, rfl, rfl, rfl, rfl, rfl, rfl, rfl, rfl⟩

theorem drop_frame_trans {F : Type} (g g1 g2 : Game_state F) (h1 : drop_frame g g1)
    (h2 : drop_frame g1 g2) : drop_frame g g2 := by
  obtain ⟨a1, a2, a3, a4, a5, a6, a7, a8, a9, a10⟩ := h1
  obtain ⟨b1, b2, b3, b4, b5, b6, b7, b8, b9, b10⟩ := h2
  exact ⟨b1.trans a1, b2.trans a2, b3.trans a3, b4.trans a4, b5.trans a5, b6.trans a6,
    b7.trans a7, b8.trans a8, b9.trans a9, b10.trans a10⟩

theorem soft_drop_frame {F : Type} (env : Env F) (w w1 : World F) (moved : Bool)
    (h : soft_drop env w = .ok (moved, w1)) : drop_frame w.game w1.game := by
  unfold soft_drop at h
  simp only at h
  cases hv : check_piece_valid
      { w.game.piece with offset_row := w.game.piece.offset_row + 1 } w.game.board WIDTH HEIGHT with
  | error e => rw [hv] at h; cases h
  | ok valid =>
    rw [hv] at h
    cases valid
    · simp only at h
      cases hm : merge_piece { w.game with piece :=
          { tetrino_index := w.game.piece.tetrino_index,
            offset_row := w.game.piece.offset_row + 1 - 1,
            offset_col := w.game.piece.offset_col, rotation := w.game.piece.rotation } } with
      | error e => rw [hm] at h; cases h
      | ok g1 =>
        rw [hm] at h
        cases h
        have := merge_piece_frame _ _ hm
        rw [spawn_piece_eq]
        exact this
    · simp only at h
      cases hd : get_time_to_next_drop env.ops w.game.level with
      | error e => rw [hd] at h; cases h
      | ok dt =>
        rw [hd] at h
        cases h
        exact drop_frame_refl _

theorem hard_drop_loop_frame {F : Type} (env : Env F) : ∀ (fuel : Nat) (w w1 : World F),
    hard_drop_loop env fuel w = .ok w1 → drop_frame w.game w1.game := by
  intro fuel
  induction fuel with
  | zero => intro w w1 h; cases h
  | succ fuel ih =>
    intro w w1 h
    unfold hard_drop_loop at h
    cases hs : soft_drop env w with
    | error e => rw [hs] at h; cases h
    | ok r =>
      obtain ⟨moved, w2⟩ := r
      rw [hs] at h
      have hf := soft_drop_frame env w w2 moved hs
      cases moved
      · cases h; exact hf
      · exact drop_frame_trans _ _ _ hf (ih w2 w1 h)

theorem gravity_loop_frame {F : Type} (env : Env F) : ∀ (fuel : Nat) (w w1 : World F),
    gravity_loop env fuel w = .ok w1 → drop_frame w.game w1.game := by
  intro fuel
  induction fuel with
  | zero =>
    intro w w1 h
    unfold gravity_loop at h
    split_ifs at h
    cases h
    exact drop_frame_refl _
  | succ fuel ih =>
    intro w w1 h
    unfold gravity_loop at h
    split_ifs at h
    · cases hs : soft_drop env w with
      | error e => rw [hs] at h; cases h
      | ok r =>
        obtain ⟨moved, w2⟩ := r
        rw [hs] at h
        exact drop_frame_trans _ _ _ (soft_drop_frame env w w2 moved hs) (ih w2 w1 h)
    · cases h
      exact drop_frame_refl _

theorem update_game_play_move_frame {F : Type} (g g1 : Game_state F) (input : Input_State)
    (h : update_game_play_move g input = .ok g1) : drop_frame g g1 ∧ g1.board = g.board := by
  unfold update_game_play_move at h
  simp only at h
  cases hv : check_piece_valid (update_game_play_candidate g.piece input) g.board WIDTH HEIGHT with
  | error e => rw [hv] at h; cases h
  | ok valid =>
    rw [hv] at h
    cases valid <;> cases h <;> exact ⟨drop_frame_refl _, rfl⟩

/-- A completed `update_game_play` ends with the scan for filled rows, run on a state that
differs from the initial one only in the board contents, the piece and `next_drop_time`. -/
theorem update_game_play_tail {F : Type} (env : Env F) (fuel : Nat) (w w1 : World F)
    (input : Input_State) (h : update_game_play env fuel w input = .ok w1) :
    ∃ w4 : World F, drop_frame w.game w4.game ∧
      update_game_play_lines env.ops w4.game = .ok w1.game := by
  unfold update_game_play at h
  cases hm : update_game_play_move w.game input with
  | error e => rw [hm] at h; cases h
  | ok g1 =>
    rw [hm] at h
    simp only at h
    have f1 := (update_game_play_move_frame _ _ _ hm).1
    cases h2 : update_game_play_soft env input { w with game := g1 } with
    | error e => rw [h2] at h; cases h
    | ok w2 =>
      rw [h2] at h
      simp only at h
      have f2 : drop_frame g1 w2.game := by
        unfold update_game_play_soft at h2
        split_ifs at h2
        · cases hs : soft_drop env { w with game := g1 } with
          | error e => rw [hs] at h2; cases h2
          | ok r =>
            obtain ⟨moved, w2a⟩ := r
            rw [hs] at h2
            cases h2
            exact soft_drop_frame env _ _ moved hs
        · cases h2
          exact drop_frame_refl _
      cases h3 : update_game_play_hard env fuel input w2 with
      | error e => rw [h3] at h; cases h
      | ok w3 =>
        rw [h3] at h
        simp only at h
        have f3 : drop_frame w2.game w3.game := by
          unfold update_game_play_hard at h3
          split_ifs at h3
          · exact hard_drop_loop_frame env fuel _ _ h3
          · cases h3
            exact drop_frame_refl _
        cases h4 : gravity_loop env fuel w3 with
        | error e => rw [h4] at h; cases h
        | ok w4 =>
          rw [h4] at h
          simp only at h
          have f4 := gravity_loop_frame env fuel _ _ h4
          cases h5 : update_game_play_lines env.ops w4.game with
          | error e => rw [h5] at h; cases h
          | ok g5 =>
            rw [h5] at h
            cases h
            exact ⟨w4, drop_frame_trans _ _ _ (drop_frame_trans _ _ _
              (drop_frame_trans _ _ _ f1 f2) f3) f4, h5⟩

/-- C7. Whenever `update_game_play` returns (from a state in the PLAY phase with a board of
`WIDTH * HEIGHT` cells and a record of `HEIGHT` flags), the stored record marks exactly the
fully filled rows of the resulting board and `pending_line_count` is their number; the phase
is LINE_CLEAR if and only if that count is `> 0`, in which case `highlight_end_time` is
`time + HIGHLIGHT_TIME` (0.5); otherwise the phase is still PLAY and `highlight_end_time` is
unchanged. -/
theorem update_game_play_end_spec {F : Type} (env : Env F) (fuel : Nat) (w w1 : World F)
    (input : Input_State) (hb : w.game.board.length = 220) (hl : w.game.lines.length = 22)
    (hphase : w.game.phase = .GAME_PHASE_PLAY)
    (hrun : update_game_play env fuel w input = .ok w1) :
    w1.game.lines
      = (List.range 22).map (fun row => if row_is_full w1.game.board row then 1 else 0) ∧
    w1.game.pending_line_count
      = (((List.range 22).filter (row_is_full w1.game.board)).length : Int) ∧
    (w1.game.phase = .GAME_PHASE_LINE ↔ w1.game.pending_line_count > 0) ∧
    (w1.game.pending_line_count > 0 →
      w1.game.highlight_end_time = env.ops.add w.game.time (HIGHLIGHT_TIME env.ops)) ∧
    (¬ w1.game.pending_line_count > 0 →
      w1.game.phase = .GAME_PHASE_PLAY ∧
      w1.game.highlight_end_time = w.game.highlight_end_time) := by
  obtain ⟨w4, hf, hlines⟩ := update_game_play_tail env fuel w w1 input hrun
  obtain ⟨f1, f2, -, f4, -, -, -, -, f9, f10⟩ := hf
  obtain ⟨g1, n1⟩ := w1
  simp only at hlines ⊢
  have hfind := find_lines_eq w4.game.board w4.game.lines (f1.trans hb)
    (by rw [f2]; exact hl)
  unfold update_game_play_lines at hlines
  rw [hfind] at hlines
  simp only at hlines
  by_cases hc : (((List.range 22).filter (row_is_full w4.game.board)).length : Int) > 0
  · rw [if_pos hc] at hlines
    cases hlines
    refine ⟨rfl, rfl, ?_, ?_, ?_⟩
    · exact ⟨fun _ => hc, fun _ => rfl⟩
    · intro _
      simp only [f9]
    · intro hn
      exact absurd hc hn
  · rw [if_neg hc] at hlines
    cases hlines
    refine ⟨rfl, rfl, ?_, ?_, ?_⟩
    · constructor
      · intro hp
        rw [show w4.game.phase = Game_Phase.GAME_PHASE_LINE from hp] at f4
        rw [hphase] at f4
        cases f4
      · intro hp
        exact absurd hp hc
    · intro hp
      exact absurd hp hc
    · intro _
      exact ⟨f4.trans hphase, f10⟩

set_option maxRecDepth 100000 in
/-- C7, instance: the I-piece is hard-dropped into the four-cell gap of the bottom row: the
tick ends in the LINE_CLEAR phase with row 21 marked, count 1 and the highlight ending at
time 0 + 1/2. -/
theorem update_game_play_end_spec_witness :
    update_game_play env_zero 22 world_gap_I input_hard_drop = .ok world_gap_I_after ∧
    (world_gap_I_after.game.lines
        = (List.range 22).map
            (fun row => if row_is_full world_gap_I_after.game.board row then 1 else 0) ∧
      world_gap_I_after.game.pending_line_count
        = (((List.range 22).filter (row_is_full world_gap_I_after.game.board)).length : Int) ∧
      (world_gap_I_after.game.phase = .GAME_PHASE_LINE
        ↔ world_gap_I_after.game.pending_line_count > 0) ∧
      (world_gap_I_after.game.pending_line_count > 0 →
        world_gap_I_after.game.highlight_end_time
          = env_zero.ops.add world_gap_I.game.time (HIGHLIGHT_TIME env_zero.ops)) ∧
      (¬ world_gap_I_after.game.pending_line_count > 0 →
        world_gap_I_after.game.phase = .GAME_PHASE_PLAY ∧
        world_gap_I_after.game.highlight_end_time = world_gap_I.game.highlight_end_time)) :=
  ⟨by decide, update_game_play_end_spec env_zero 22 world_gap_I world_gap_I_after
    input_hard_drop (by decide) (by decide) (by decide) (by decide)⟩

/-! ## Rotation -/

/-- One rotation increment reads the mask through a quarter turn of the coordinates, for
every mask and all coordinates. -/
theorem tetrino_get_turn (t : Tetrino) (row col k : Int) (hk : 0 ≤ k ∧ k ≤ 3) :
    tetrino_get t row col ((k + 1) % 4) = tetrino_get t (t.side - 1 - col) row k := by
  have hcases : k = 0 ∨ k = 1 ∨ k = 2 ∨ k = 3 := by omega
  rcases hcases with h | h | h | h <;> subst h <;> simp [tetrino_get] <;> congr 1 <;> ring

theorem tetrinos_same_count : ∀ t ∈ TETRINOS, ∀ k ∈ [(0 : Int), 1, 2, 3],
    occupied_count t k = occupied_count t 0 := by
  decide

/-- C9. For every catalog shape of side `s`, every rotation `k` in `{0,1,2,3}` and every
`(row, col)` in `[0,s) x [0,s)`: `tetrino_get(shape, row, col, (k+1) mod 4)` and
`tetrino_get(shape, s-1-col, row, k)` return the same mask value (each rotation increment is
a quarter turn of the mask within its own square); incrementing the rotation four times
gives back the value at rotation `k`, so from rotation 0 it returns every cell to its
rotation-0 value; and rotation `k` has as many occupied cells as rotation 0. -/
theorem tetrino_get_rotation_spec (t : Tetrino) (ht : t ∈ TETRINOS) (k row col : Int)
    (hk : 0 ≤ k ∧ k ≤ 3) (hrow : 0 ≤ row ∧ row < t.side) (hcol : 0 ≤ col ∧ col < t.side) :
    (∃ v, tetrino_get t row col ((k + 1) % 4) = .ok v ∧
      tetrino_get t (t.side - 1 - col) row k = .ok v) ∧
    tetrino_get t row col (((((k + 1) % 4 + 1) % 4 + 1) % 4 + 1) % 4) = tetrino_get t row col k ∧
    tetrino_get t row col (((((0 + 1) % 4 + 1) % 4 + 1) % 4 + 1) % 4) = tetrino_get t row col 0 ∧
    occupied_count t k = occupied_count t 0 := by
  refine ⟨?_, ?_, rfl, ?_⟩
  · have hr : ((row.toNat : Nat) : Int) = row := by omega
    have hc : ((col.toNat : Nat) : Int) = col := by omega
    obtain ⟨v, hv⟩ := tetrino_get_ok t ht row.toNat col.toNat ((k + 1) % 4)
      (by omega) (by omega)
    rw [hr, hc] at hv
    exact ⟨v, hv, by rw [← tetrino_get_turn t row col k hk]; exact hv⟩
  · have e : ((((k + 1) % 4 + 1) % 4 + 1) % 4 + 1) % 4 = k := by omega
    rw [e]
  · apply tetrinos_same_count t ht
    simp only [List.mem_cons, List.mem_singleton, List.not_mem_nil, or_false]
    omega

/-- C9, instance: the T-shaped piece (index 2) at rotation 1, cell (0, 1). -/
theorem tetrino_get_rotation_spec_witness :
    (∃ v, tetrino_get ⟨TETRINO_3, 3⟩ 0 1 ((1 + 1) % 4) = .ok v ∧
      tetrino_get ⟨TETRINO_3, 3⟩ ((⟨TETRINO_3, 3⟩ : Tetrino).side - 1 - 1) 0 1 = .ok v) ∧
    tetrino_get ⟨TETRINO_3, 3⟩ 0 1 (((((1 + 1) % 4 + 1) % 4 + 1) % 4 + 1) % 4)
      = tetrino_get ⟨TETRINO_3, 3⟩ 0 1 1 ∧
    tetrino_get ⟨TETRINO_3, 3⟩ 0 1 (((((0 + 1) % 4 + 1) % 4 + 1) % 4 + 1) % 4)
      = tetrino_get ⟨TETRINO_3, 3⟩ 0 1 0 ∧
    occupied_count ⟨TETRINO_3, 3⟩ 1 = occupied_count ⟨TETRINO_3, 3⟩ 0 :=
  tetrino_get_rotation_spec ⟨TETRINO_3, 3⟩ (by decide) 1 0 1 (by decide) (by decide) (by decide)

/-! ## Left and right pressed together -/

/-- C11 (amended). When `dleft > 0` and `dright > 0` in the same PLAY tick, both shifts are
applied and cancel: the candidate piece has the old `offset_col` (and the old index and
`offset_row`, and rotation `(rotation + 1) % 4` if `dup > 0`); so if that placement is valid
the active piece ends the move step in its old column. -/
theorem update_game_play_move_left_right {F : Type} (game : Game_state F)
    (input : Input_State) (hleft : input.dleft > 0) (hright : input.dright > 0) :
    update_game_play_candidate game.piece input
      = { tetrino_index := game.piece.tetrino_index,
          offset_row := game.piece.offset_row,
          offset_col := game.piece.offset_col,
          rotation := if input.dup > 0 then (game.piece.rotation + 1).tmod 4
            else game.piece.rotation } ∧
    (check_piece_valid (update_game_play_candidate game.piece input) game.board WIDTH HEIGHT
        = .ok true →
      ∃ game1, update_game_play_move game input = .ok game1 ∧
        game1.piece = update_game_play_candidate game.piece input ∧
        game1.piece.offset_col = game.piece.offset_col) := by
  have hc : update_game_play_candidate game.piece input
      = { tetrino_index := game.piece.tetrino_index,
          offset_row := game.piece.offset_row,
          offset_col := game.piece.offset_col,
          rotation := if input.dup > 0 then (game.piece.rotation + 1).tmod 4
            else game.piece.rotation } := by
    cases hp : game.piece
    unfold update_game_play_candidate
    by_cases h3 : input.dup > 0 <;> simp [hleft, hright, h3]
  refine ⟨hc, fun hvalid => ?_⟩
  refine ⟨{ game with piece := update_game_play_candidate game.piece input }, ?_, rfl, ?_⟩
  · simp only [update_game_play_move, hvalid]
  · rw [hc]

set_option maxRecDepth 100000 in
/-- C11, instance: the I-piece as spawned on the empty board, left and right both pressed. -/
theorem update_game_play_move_left_right_witness :
    update_game_play_candidate world_spawn_I.game.piece input_left_right
      = { tetrino_index := world_spawn_I.game.piece.tetrino_index,
          offset_row := world_spawn_I.game.piece.offset_row,
          offset_col := world_spawn_I.game.piece.offset_col,
          rotation := if input_left_right.dup > 0
            then (world_spawn_I.game.piece.rotation + 1).tmod 4
            else world_spawn_I.game.piece.rotation } ∧
    ∃ game1, update_game_play_move world_spawn_I.game input_left_right = .ok game1 ∧
      game1.piece = update_game_play_candidate world_spawn_I.game.piece input_left_right ∧
      game1.piece.offset_col = world_spawn_I.game.piece.offset_col :=
  ⟨(update_game_play_move_left_right world_spawn_I.game input_left_right
      (by decide) (by decide)).1,
   (update_game_play_move_left_right world_spawn_I.game input_left_right
      (by decide) (by decide)).2 (by decide)⟩

set_option maxRecDepth 100000 in
/-- C11, counterexample: with left and right both just pressed, the candidate of the I-piece
spawned at column 5 is at column 5, not 4, and although the placement at column 4 is valid
the piece ends the move step at column 5. -/
theorem update_game_play_move_left_priority_counterexample :
    input_left_right.dleft > 0 ∧ input_left_right.dright > 0 ∧
    check_piece_valid
      { world_spawn_I.game.piece with offset_col := world_spawn_I.game.piece.offset_col - 1 }
      world_spawn_I.game.board WIDTH HEIGHT = .ok true ∧
    ¬ ((update_game_play_candidate world_spawn_I.game.piece input_left_right).offset_col
        = world_spawn_I.game.piece.offset_col - 1) ∧
    (update_game_play_move world_spawn_I.game input_left_right).map
        (fun g => g.piece.offset_col) = .ok 5 := by
  decide

/-! ## The drop interval table -/

/-- C12, evaluated: `FRAMES_PER_DROP` has 29 entries (indices 0..28), and the clamp
`if (level > 29) level = 29;` lets the index 29 through: at level 29 (and at every higher
level, clamped to 29) `get_time_to_next_drop` reads one element past the end of the table.
Level 28 is the last level whose read is inside the table (1 frame). -/
theorem get_time_to_next_drop_level_29 :
    FRAMES_PER_DROP.length = 29 ∧
    drop_table_index 29 = 29 ∧ drop_table_index 30 = 29 ∧
    ¬ (drop_table_index 29 < (FRAMES_PER_DROP.length : Int)) ∧
    array_read FRAMES_PER_DROP (drop_table_index 29) = .error .out_of_bounds ∧
    get_time_to_next_drop exact_ops 29 = .error .out_of_bounds ∧
    get_time_to_next_drop exact_ops 30 = .error .out_of_bounds ∧
    get_time_to_next_drop exact_ops 28 = .ok ⟨1, 60⟩ := by
  decide

theorem frames_per_drop_sorted : ∀ a ∈ List.range 29, ∀ b ∈ List.range 29, a ≤ b →
    FRAMES_PER_DROP[a]? = some (FRAMES_PER_DROP.getD a 0) ∧
    FRAMES_PER_DROP[b]? = some (FRAMES_PER_DROP.getD b 0) ∧
    FRAMES_PER_DROP.getD b 0 ≤ FRAMES_PER_DROP.getD a 0 := by
  decide

/-- The drop interval, taken as the exact value `FRAMES_PER_DROP[index] / 60` with the index
`drop_table_index level` the code reads, is non-increasing from level 0 to level 28: for
`0 <= a <= b <= 28` both reads succeed, `get_time_to_next_drop` returns
`frames * TARGET_SECONDS_PER_FRAME` for them, and `frames(b) / 60 <= frames(a) / 60`; it is
48 frames at level 0 and 1 frame at level 28; and for every level `>= 29` the index, and with
it the result of `get_time_to_next_drop`, is that of level 29. -/
theorem drop_interval_monotone {F : Type} (ops : Float_ops F) (a b level : Int) :
    (0 ≤ a → a ≤ b → b ≤ 28 →
      ∃ fa fb : Nat,
        array_read FRAMES_PER_DROP (drop_table_index a) = .ok fa ∧
        array_read FRAMES_PER_DROP (drop_table_index b) = .ok fb ∧
        get_time_to_next_drop ops a
          = .ok (ops.mul (ops.of_nat fa) (TARGET_SECONDS_PER_FRAME ops)) ∧
        get_time_to_next_drop ops b
          = .ok (ops.mul (ops.of_nat fb) (TARGET_SECONDS_PER_FRAME ops)) ∧
        (fb : ℚ) / 60 ≤ (fa : ℚ) / 60) ∧
    array_read FRAMES_PER_DROP (drop_table_index 0) = .ok 48 ∧
    array_read FRAMES_PER_DROP (drop_table_index 28) = .ok 1 ∧
    (29 ≤ level →
      drop_table_index level = drop_table_index 29 ∧
      get_time_to_next_drop ops level = get_time_to_next_drop ops 29) := by
  refine ⟨?_, by decide, by decide, ?_⟩
  · intro h0 hab hb
    obtain ⟨hfa, hfb, hle⟩ := frames_per_drop_sorted a.toNat
      (List.mem_range.2 (by omega)) b.toNat (List.mem_range.2 (by omega)) (by omega)
    have hia : drop_table_index a = a := by
      unfold drop_table_index; split_ifs <;> omega
    have hib : drop_table_index b = b := by
      unfold drop_table_index; split_ifs <;> omega
    generalize FRAMES_PER_DROP.getD a.toNat 0 = fa at hfa hle
    generalize FRAMES_PER_DROP.getD b.toNat 0 = fb at hfb hle
    have hra : array_read FRAMES_PER_DROP a = .ok fa :=
      (array_read_ok_iff _ _ _).2 ⟨h0, hfa⟩
    have hrb : array_read FRAMES_PER_DROP b = .ok fb :=
      (array_read_ok_iff _ _ _).2 ⟨by omega, hfb⟩
    refine ⟨fa, fb, by rw [hia]; exact hra, by rw [hib]; exact hrb, ?_, ?_, ?_⟩
    · rw [get_time_to_next_drop_eq, hia, hra]
    · rw [get_time_to_next_drop_eq, hib, hrb]
    · exact div_le_div_of_nonneg_right (by exact_mod_cast hle) (by norm_num)
  · intro h
    have h1 := get_time_to_next_drop_fault ops level h
    have h2 := get_time_to_next_drop_fault ops 29 (le_refl _)
    exact ⟨h1.1.trans h2.1.symm, h1.2.trans h2.2.symm⟩

/-- Instance of `drop_interval_monotone`: levels 3 and 7 (33 and 14 frames), and level 30. -/
theorem drop_interval_monotone_witness :
    (∃ fa fb : Nat,
      array_read FRAMES_PER_DROP (drop_table_index 3) = .ok fa ∧
      array_read FRAMES_PER_DROP (drop_table_index 7) = .ok fb ∧
      get_time_to_next_drop exact_ops 3
        = .ok (exact_ops.mul (exact_ops.of_nat fa) (TARGET_SECONDS_PER_FRAME exact_ops)) ∧
      get_time_to_next_drop exact_ops 7
        = .ok (exact_ops.mul (exact_ops.of_nat fb) (TARGET_SECONDS_PER_FRAME exact_ops)) ∧
      (fb : ℚ) / 60 ≤ (fa : ℚ) / 60) ∧
    (drop_table_index 30 = drop_table_index 29 ∧
      get_time_to_next_drop exact_ops 30 = get_time_to_next_drop exact_ops 29) :=
  ⟨(drop_interval_monotone exact_ops 3 7 30).1 (by decide) (by decide) (by decide),
   (drop_interval_monotone exact_ops 3 7 30).2.2.2 (by decide)⟩

/-- C13, evaluated: from level 0 to level 28 the drop interval, taken as the exact value
`FRAMES_PER_DROP[index] / 60` at the index the code reads, is non-increasing (for
`0 <= a <= b <= 28` both reads succeed, `get_time_to_next_drop` returns
`frames * TARGET_SECONDS_PER_FRAME` for them, and `frames(b) / 60 <= frames(a) / 60`), with
48 frames at level 0 and 1 frame at level 28. For every level `>= 29` the clamp
`if (level > 29) level = 29;` gives the index 29, that of level 29, but the table has 29
entries, so index 29 is past its end: the read has no value, `drop_interval(29)` does not
exist, and `get_time_to_next_drop` has no result at level 29 and above. -/
theorem drop_interval_level_29 :
    (∀ (F : Type) (ops : Float_ops F) (a b : Int), 0 ≤ a → a ≤ b → b ≤ 28 →
      ∃ fa fb : Nat,
        array_read FRAMES_PER_DROP (drop_table_index a) = .ok fa ∧
        array_read FRAMES_PER_DROP (drop_table_index b) = .ok fb ∧
        get_time_to_next_drop ops a
          = .ok (ops.mul (ops.of_nat fa) (TARGET_SECONDS_PER_FRAME ops)) ∧
        get_time_to_next_drop ops b
          = .ok (ops.mul (ops.of_nat fb) (TARGET_SECONDS_PER_FRAME ops)) ∧
        (fb : ℚ) / 60 ≤ (fa : ℚ) / 60) ∧
    array_read FRAMES_PER_DROP (drop_table_index 0) = .ok 48 ∧
    array_read FRAMES_PER_DROP (drop_table_index 28) = .ok 1 ∧
    get_time_to_next_drop exact_ops 28 = .ok ⟨1, 60⟩ ∧
    FRAMES_PER_DROP.length = 29 ∧
    (∀ (F : Type) (ops : Float_ops F) (level : Int), 29 ≤ level →
      drop_table_index level = 29 ∧
      ¬ (drop_table_index level < (FRAMES_PER_DROP.length : Int)) ∧
      array_read FRAMES_PER_DROP (drop_table_index level) = .error .out_of_bounds ∧
      get_time_to_next_drop ops level = .error .out_of_bounds) := by
  refine ⟨?_, by decide, by decide, by decide, by decide, ?_⟩
  · intro F ops a b h0 hab hb
    exact (drop_interval_monotone ops a b 29).1 h0 hab hb
  · intro F ops level hlevel
    obtain ⟨hidx, hfault⟩ := get_time_to_next_drop_fault ops level hlevel
    rw [hidx]
    exact ⟨rfl, by decide, by decide, hfault⟩

/-! ## Waiting in the LINE_CLEAR phase -/

/-- C14. For every state in the LINE_CLEAR phase in which the test
`time >= highlight_end_time` fails (as it does when `time < highlight_end_time`),
`update_game` returns the state unchanged, for every input: board, active piece, line record,
phase, level, line count, points, `next_drop_time` and the count of `rand()` calls are all as
before. -/
theorem update_game_line_wait {F : Type} (env : Env F) (fuel : Nat) (w : World F)
    (input : Input_State) (hphase : w.game.phase = .GAME_PHASE_LINE)
    (htime : env.ops.ge w.game.time w.game.highlight_end_time = false) :
    update_game env fuel w input = .ok w := by
  simp only [update_game, hphase, update_game_line, htime]
  rfl

/-- C14, instance: a pending line at time 1/4, the highlight ending at time 1/2, with hard
drop pressed. -/
theorem update_game_line_wait_witness :
    update_game env_zero 22 world_line_wait input_hard_drop = .ok world_line_wait :=
  update_game_line_wait env_zero 22 world_line_wait input_hard_drop (by decide) (by decide)

/-! ## The shape catalog -/

/-- C18, evaluated: every catalog mask has a side in 2..4, `side * side`
entries and only the entries 0 and `i + 1`, but `TETRINO_5` (index 4) has three non-zero
entries, not four: its rows are `5,5,0 / 0,5,0 / 0,0,0`. The other six masks have four. -/
theorem tetrinos_cell_counts :
    (∀ i < 7, ∃ t, TETRINOS[i]? = some t ∧ 2 ≤ t.side ∧ t.side ≤ 4 ∧
      (t.data.length : Int) = t.side * t.side ∧ ∀ v ∈ t.data, v = 0 ∨ v = i + 1) ∧
    TETRINOS.map (fun t => mask_cells t.data) = [4, 4, 4, 4, 3, 4, 4] ∧
    mask_cells TETRINO_5 = 3 := by
  decide

/-! ## Steps of a tick, case by case -/

/-- The two outcomes of a gravity-drop step that returns. -/
theorem soft_drop_cases {F : Type} (env : Env F) (w w1 : World F) (moved : Bool)
    (h : soft_drop env w = .ok (moved, w1)) :
    (moved = true ∧ w1.rand_calls = w.rand_calls ∧ w1.game.board = w.game.board ∧
      w1.game.piece = { w.game.piece with offset_row := w.game.piece.offset_row + 1 } ∧
      check_piece_valid w1.game.piece w.game.board WIDTH HEIGHT = .ok true) ∨
    (moved = false ∧ w1.rand_calls = w.rand_calls + 1 ∧
      w1.game.piece = ⟨env.rand w.rand_calls % 7, 0, 5, 0⟩ ∧
      check_piece_valid { w.game.piece with offset_row := w.game.piece.offset_row + 1 }
        w.game.board WIDTH HEIGHT = .ok false ∧
      ∃ g, merge_piece w.game = .ok g ∧ w1.game.board = g.board) := by
  unfold soft_drop at h
  simp only at h
  cases hv : check_piece_valid
      { w.game.piece with offset_row := w.game.piece.offset_row + 1 } w.game.board WIDTH HEIGHT with
  | error e => rw [hv] at h; cases h
  | ok valid =>
    rw [hv] at h
    cases valid
    · simp only at h
      have hback : ({ w.game.piece with offset_row := w.game.piece.offset_row + 1 - 1 }
          : Piece_State) = w.game.piece := by
        cases hp : w.game.piece
        simp
      have hgame : ({ w.game with piece := w.game.piece } : Game_state F) = w.game := rfl
      simp only [hback, hgame] at h
      cases hm : merge_piece w.game with
      | error e => rw [hm] at h; cases h
      | ok g1 =>
        rw [hm] at h
        cases h
        right
        rw [spawn_piece_eq]
        exact ⟨rfl, rfl, rfl, rfl, g1, rfl, rfl⟩
    · simp only at h
      cases hd : get_time_to_next_drop env.ops w.game.level with
      | error e => rw [hd] at h; cases h
      | ok dt =>
        rw [hd] at h
        cases h
        left
        exact ⟨rfl, rfl, rfl, rfl, hv⟩

/-- A property of the world that every gravity-drop step maintains is maintained by the soft
drop step, the hard drop step and the gravity loop of a tick. -/
theorem drop_steps_preserve {F : Type} (env : Env F) (P : World F → Prop)
    (hstep : ∀ w w1 moved, P w → soft_drop env w = .ok (moved, w1) → P w1) :
    (∀ input w w1, P w → update_game_play_soft env input w = .ok w1 → P w1) ∧
    (∀ fuel input w w1, P w → update_game_play_hard env fuel input w = .ok w1 → P w1) ∧
    (∀ fuel w w1, P w → gravity_loop env fuel w = .ok w1 → P w1) := by
  have hhard : ∀ fuel w w1, P w → hard_drop_loop env fuel w = .ok w1 → P w1 := by
    intro fuel
    induction fuel with
    | zero => intro w w1 _ h; cases h
    | succ fuel ih =>
      intro w w1 hp h
      unfold hard_drop_loop at h
      cases hs : soft_drop env w with
      | error e => rw [hs] at h; cases h
      | ok r =>
        obtain ⟨moved, w2⟩ := r
        rw [hs] at h
        have hp2 := hstep w w2 moved hp hs
        cases moved
        · cases h; exact hp2
        · exact ih w2 w1 hp2 h
  refine ⟨?_, ?_, ?_⟩
  · intro input w w1 hp h
    unfold update_game_play_soft at h
    split_ifs at h
    · cases hs : soft_drop env w with
      | error e => rw [hs] at h; cases h
      | ok r =>
        obtain ⟨moved, w2⟩ := r
        rw [hs] at h
        cases h
        exact hstep w _ moved hp hs
    · cases h; exact hp
  · intro fuel input w w1 hp h
    unfold update_game_play_hard at h
    split_ifs at h
    · exact hhard fuel w w1 hp h
    · cases h; exact hp
  · intro fuel
    induction fuel with
    | zero =>
      intro w w1 hp h
      unfold gravity_loop at h
      split_ifs at h
      cases h
      exact hp
    | succ fuel ih =>
      intro w w1 hp h
      unfold gravity_loop at h
      split_ifs at h
      · cases hs : soft_drop env w with
        | error e => rw [hs] at h; cases h
        | ok r =>
          obtain ⟨moved, w2⟩ := r
          rw [hs] at h
          exact ih w2 w1 (hstep w w2 moved hp hs) h
      · cases h
        exact hp

/-- The steps of a completed `update_game_play`, one after the other. -/
theorem update_game_play_steps {F : Type} (env : Env F) (fuel : Nat) (w w1 : World F)
    (input : Input_State) (h : update_game_play env fuel w input = .ok w1) :
    ∃ (g1 : Game_state F) (w2 w3 w4 : World F),
      update_game_play_move w.game input = .ok g1 ∧
      update_game_play_soft env input { w with game := g1 } = .ok w2 ∧
      update_game_play_hard env fuel input w2 = .ok w3 ∧
      gravity_loop env fuel w3 = .ok w4 ∧
      update_game_play_lines env.ops w4.game = .ok w1.game ∧
      w1.rand_calls = w4.rand_calls := by
  unfold update_game_play at h
  cases hm : update_game_play_move w.game input with
  | error e => rw [hm] at h; cases h
  | ok g1 =>
    rw [hm] at h
    simp only at h
    cases h2 : update_game_play_soft env input { w with game := g1 } with
    | error e => rw [h2] at h; cases h
    | ok w2 =>
      rw [h2] at h
      simp only at h
      cases h3 : update_game_play_hard env fuel input w2 with
      | error e => rw [h3] at h; cases h
      | ok w3 =>
        rw [h3] at h
        simp only at h
        cases h4 : gravity_loop env fuel w3 with
        | error e => rw [h4] at h; cases h
        | ok w4 =>
          rw [h4] at h
          simp only at h
          cases h5 : update_game_play_lines env.ops w4.game with
          | error e => rw [h5] at h; cases h
          | ok g5 =>
            rw [h5] at h
            cases h
            exact ⟨g1, w2, w3, w4, rfl, h2, h3, h4, h5, rfl⟩

/-- The value of the final scan of a tick. -/
theorem update_game_play_lines_eq {F : Type} (ops : Float_ops F) (g : Game_state F)
    (hb : g.board.length = 220) (hl : g.lines.length = 22) :
    update_game_play_lines ops g
      = .ok (if (((List.range 22).filter (row_is_full g.board)).length : Int) > 0 then
          { g with
            pending_line_count := (((List.range 22).filter (row_is_full g.board)).length : Int),
            lines := (List.range 22).map (fun row => if row_is_full g.board row then 1 else 0),
            phase := .GAME_PHASE_LINE,
            highlight_end_time := ops.add g.time (HIGHLIGHT_TIME ops) }
        else
          { g with
            pending_line_count := (((List.range 22).filter (row_is_full g.board)).length : Int),
            lines := (List.range 22).map
              (fun row => if row_is_full g.board row then 1 else 0) }) := by
  unfold update_game_play_lines
  rw [find_lines_eq g.board g.lines hb hl]
  simp only
  split_ifs <;> rfl

/-! ## The invariant of the drop steps -/

theorem array_write_mem (xs : List Nat) (index : Int) (v : Nat) (ys : List Nat)
    (h : array_write xs index v = .ok ys) : ∀ y ∈ ys, y ∈ xs ∨ y = v := by
  unfold array_write at h
  split_ifs at h
  cases h
  intro y hy
  exact List.mem_or_eq_of_mem_set hy

/-- Every cell of the board after `merge_piece` is a cell of the old board or the id
`index + 1` of the merged piece. -/
theorem merge_piece_values {F : Type} (g g1 : Game_state F) (h : merge_piece g = .ok g1) :
    ∀ v ∈ g1.board, v ∈ g.board ∨ v = g.piece.tetrino_index + 1 := by
  unfold merge_piece at h
  cases ht : tetrino_at g.piece.tetrino_index with
  | error e => rw [ht] at h; cases h
  | ok t =>
    rw [ht] at h
    simp only at h
    cases hl : loop_fold (fun board row =>
        loop_fold (merge_piece_cell t g.piece row) board (List.range t.side.toNat))
      g.board (List.range t.side.toNat) with
    | error e => rw [hl] at h; cases h
    | ok b =>
      rw [hl] at h
      cases h
      refine loop_fold_preserves
        (fun b1 : List Nat => ∀ v ∈ b1, v ∈ g.board ∨ v = g.piece.tetrino_index + 1) _ ?_ _ _ _
        (fun v hv => Or.inl hv) hl
      intro s row s1 hs hrow
      refine loop_fold_preserves
        (fun b1 : List Nat => ∀ v ∈ b1, v ∈ g.board ∨ v = g.piece.tetrino_index + 1) _ ?_ _ _ _
        hs hrow
      intro s2 col s3 hs2 hcell
      unfold merge_piece_cell at hcell
      cases hg : tetrino_get t row col g.piece.rotation with
      | error e => rw [hg] at hcell; cases hcell
      | ok v =>
        rw [hg] at hcell
        simp only at hcell
        split_ifs at hcell with hz
        · intro y hy
          rcases array_write_mem _ _ _ _ hcell y hy with h1 | h1
          · exact hs2 y h1
          · right
            rw [h1]
            rcases tetrino_get_id _ t ht row col g.piece.rotation v hg with h0 | h0
            · simp [h0] at hz
            · exact h0
        · cases hcell; exact hs2

/-- Every spawn position is inside the grid. -/
theorem spawn_in_grid : ∀ i < 7, piece_in_grid ⟨i, 0, 5, 0⟩ = true := by
  decide

theorem spawn_piece_ok (r : Nat) : piece_ok ⟨r % 7, 0, 5, 0⟩ :=
  ⟨Nat.mod_lt _ (by omega), le_refl _, show (0 : Int) ≤ 3 by decide,
    spawn_in_grid _ (Nat.mod_lt _ (by omega))⟩

theorem soft_drop_core_inv {F : Type} (env : Env F) (w w1 : World F) (moved : Bool)
    (hinv : core_inv w.game) (h : soft_drop env w = .ok (moved, w1)) : core_inv w1.game := by
  obtain ⟨hb, hl, hv, hi, hr0, hr3, hgrid⟩ := hinv
  obtain ⟨f1, f2, -⟩ := soft_drop_frame env w w1 moved h
  rcases soft_drop_cases env w w1 moved h with ⟨-, -, hboard, hpiece, hvalid⟩ |
      ⟨-, -, hpiece, -, g, hm, hboard⟩
  · refine ⟨f1.trans hb, f2 ▸ hl, hboard ▸ hv, ?_⟩
    have hg := valid_in_grid _ _ hb hvalid
    rw [hpiece] at hg ⊢
    exact ⟨hi, hr0, hr3, hg⟩
  · refine ⟨f1.trans hb, f2 ▸ hl, ?_, ?_⟩
    · intro v hv1
      rw [hboard] at hv1
      rcases merge_piece_values _ _ hm v hv1 with h1 | h1
      · exact hv v h1
      · omega
    · rw [hpiece]
      exact spawn_piece_ok _

theorem candidate_rotation_range (p : Piece_State) (input : Input_State)
    (h0 : 0 ≤ p.rotation) (h3 : p.rotation ≤ 3) :
    0 ≤ (update_game_play_candidate p input).rotation ∧
      (update_game_play_candidate p input).rotation ≤ 3 := by
  have e : (p.rotation + 1).tmod 4 = (p.rotation + 1) % 4 :=
    Int.tmod_eq_emod (by omega) (by omega)
  unfold update_game_play_candidate
  simp only
  split_ifs
  all_goals first
    | (simp only [e]; omega)
    | omega

theorem update_game_play_move_core_inv {F : Type} (g g1 : Game_state F) (input : Input_State)
    (hinv : core_inv g) (h : update_game_play_move g input = .ok g1) :
    core_inv g1 ∧ g1.board = g.board ∧
      (check_piece_valid g.piece g.board WIDTH HEIGHT = .ok true →
        check_piece_valid g1.piece g1.board WIDTH HEIGHT = .ok true) := by
  obtain ⟨hb, hl, hv, hi, hr0, hr3, hgrid⟩ := hinv
  unfold update_game_play_move at h
  simp only at h
  cases hc : check_piece_valid (update_game_play_candidate g.piece input) g.board WIDTH HEIGHT with
  | error e => rw [hc] at h; cases h
  | ok valid =>
    rw [hc] at h
    cases valid
    · cases h
      exact ⟨⟨hb, hl, hv, hi, hr0, hr3, hgrid⟩, rfl, fun hx => hx⟩
    · cases h
      have hrot := candidate_rotation_range g.piece input hr0 hr3
      exact ⟨⟨hb, hl, hv, check_piece_valid_index _ _ _ hc, hrot.1, hrot.2,
        valid_in_grid _ _ hb hc⟩, rfl, fun _ => hc⟩

/-! ## Compaction removes the full rows -/

theorem flatten_length_rows (w : Nat) : ∀ rows : List (List Nat),
    (∀ r ∈ rows, r.length = w) → rows.flatten.length = rows.length * w := by
  intro rows
  induction rows with
  | nil => intro _; simp
  | cons r rs ih =>
    intro h
    rw [List.flatten_cons, List.length_append, ih (fun x hx => h x (List.mem_cons_of_mem _ hx)),
      h r (List.mem_cons_self _ _), List.length_cons, Nat.succ_mul, Nat.add_comm]

/-- The rows of the compacted board: zero rows, then the unmarked rows. -/
theorem clear_lines_spec_rows (values lines : List Nat) (hv : values.length = 220)
    (hl : lines.length = 22) :
    clear_lines_spec values 10 22 lines
      = (List.replicate (lines.filter (fun flag => flag != 0)).length (List.replicate 10 0)
          ++ kept_from values 10 22 lines 0).flatten ∧
    (List.replicate (lines.filter (fun flag => flag != 0)).length (List.replicate 10 0)
      ++ kept_from values 10 22 lines 0).length = 22 ∧
    (∀ r ∈ List.replicate (lines.filter (fun flag => flag != 0)).length (List.replicate 10 0)
      ++ kept_from values 10 22 lines 0, r.length = 10) ∧
    board_rows (clear_lines_spec values 10 22 lines) 10 22
      = List.replicate (lines.filter (fun flag => flag != 0)).length (List.replicate 10 0)
        ++ kept_from values 10 22 lines 0 := by
  have hcount := kept_from_count values 10 22 lines hl 22 0 (by omega)
  simp only [List.drop_zero] at hcount
  have hk : kept_from values 10 22 lines 0
      = (((board_rows values 10 22).zip lines).filter (fun p => p.2 == 0)).map Prod.fst := by
    simp [kept_from]
  have hspec : clear_lines_spec values 10 22 lines
      = (List.replicate (lines.filter (fun flag => flag != 0)).length (List.replicate 10 0)
          ++ kept_from values 10 22 lines 0).flatten := by
    rw [hk]; rfl
  have hlen : (List.replicate (lines.filter (fun flag => flag != 0)).length
      (List.replicate 10 0) ++ kept_from values 10 22 lines 0).length = 22 := by
    rw [List.length_append, List.length_replicate]; omega
  have hrows : ∀ r ∈ List.replicate (lines.filter (fun flag => flag != 0)).length
      (List.replicate 10 0) ++ kept_from values 10 22 lines 0, r.length = 10 := by
    intro r hr
    rcases List.mem_append.1 hr with h1 | h1
    · rw [(List.mem_replicate.1 h1).2]; simp
    · exact kept_from_row_length values 10 22 lines hv 0 r h1
  refine ⟨hspec, hlen, hrows, ?_⟩
  have := board_rows_flatten 10 _ hrows
  rw [hlen] at this
  rw [hspec]
  exact this

theorem clear_lines_spec_length (values lines : List Nat) (hv : values.length = 220)
    (hl : lines.length = 22) : (clear_lines_spec values 10 22 lines).length = 220 := by
  obtain ⟨h1, h2, h3, -⟩ := clear_lines_spec_rows values lines hv hl
  rw [h1, flatten_length_rows 10 _ h3, h2]

theorem kept_from_mem (values lines : List Nat) (r : List Nat)
    (hr : r ∈ kept_from values 10 22 lines 0) :
    ∃ i : Nat, i < 22 ∧ r = (values.drop (i * 10)).take 10 ∧ lines[i]? = some 0 := by
  unfold kept_from at hr
  rw [List.drop_zero, List.mem_map] at hr
  obtain ⟨p, hp, rfl⟩ := hr
  rw [List.mem_filter] at hp
  obtain ⟨hp1, hp2⟩ := hp
  obtain ⟨i, hi, hpi⟩ := List.mem_iff_getElem.1 hp1
  rw [List.getElem_zip] at hpi
  have hi1 : i < (board_rows values 10 22).length := by
    rw [List.length_zip] at hi; omega
  have hi2 : i < lines.length := by
    rw [List.length_zip] at hi; omega
  have hi3 : i < 22 := by rw [board_rows_length] at hi1; exact hi1
  refine ⟨i, hi3, ?_, ?_⟩
  · rw [← hpi]
    simp [board_rows]
  · rw [List.getElem?_eq_getElem hi2]
    rw [← hpi] at hp2
    simpa using hp2

/-- Every cell of the compacted board is 0 or a cell of the old board. -/
theorem clear_lines_spec_values (values lines : List Nat) (hv : values.length = 220)
    (hl : lines.length = 22) :
    ∀ v ∈ clear_lines_spec values 10 22 lines, v = 0 ∨ v ∈ values := by
  obtain ⟨h1, -⟩ := clear_lines_spec_rows values lines hv hl
  intro v hmem
  rw [h1, List.mem_flatten] at hmem
  obtain ⟨r, hr, hvr⟩ := hmem
  rcases List.mem_append.1 hr with h2 | h2
  · rw [(List.mem_replicate.1 h2).2] at hvr
    exact Or.inl (List.mem_replicate.1 hvr).2
  · obtain ⟨i, -, hri, -⟩ := kept_from_mem values lines r h2
    rw [hri] at hvr
    exact Or.inr (List.mem_of_mem_drop (List.mem_of_mem_take hvr))

/-- A row is full exactly if its ten stored cells are all non-zero. -/
theorem row_is_full_eq (values : List Nat) (hv : values.length = 220) (row : Nat)
    (hr : row < 22) :
    row_is_full values row = ((values.drop (row * 10)).take 10).all (fun v => v != 0) := by
  have hrow : (values.drop (row * 10)).take 10
      = (List.range 10).map (fun col => values.getD (row * 10 + col) 0) := by
    apply List.ext_getElem?
    intro i
    simp only [List.getElem?_take, List.getElem?_drop, List.getElem?_map, List.getElem?_range]
    by_cases hi : i < 10
    · have hlt : row * 10 + i < values.length := by omega
      simp [hi, List.getElem?_eq_getElem hlt, List.getD_eq_getElem?_getD]
    · have hnone : (List.range 10)[i]? = none :=
        List.getElem?_eq_none (by simp only [List.length_range]; omega)
      simp [hi, hnone]
  rw [hrow, List.all_map]
  unfold row_is_full
  have e : WIDTH.toNat = 10 := rfl
  rw [e]
  have hread : ∀ col ∈ List.range 10,
      matrix_get values WIDTH row col = .ok (values.getD (row * 10 + col) 0) := by
    intro col hcol
    have hc : col < 10 := List.mem_range.1 hcol
    have hlt : row * 10 + col < values.length := by omega
    have := array_read_nat values (row * 10 + col) hlt
    unfold matrix_get WIDTH
    push_cast at this
    rw [this]
    simp [List.getD_eq_getElem?_getD, List.getElem?_eq_getElem hlt]
  rw [Bool.eq_iff_iff]
  simp only [List.all_eq_true, Function.comp]
  constructor
  · intro h col hcol
    have := h col hcol
    rw [hread col hcol] at this
    exact this
  · intro h col hcol
    rw [hread col hcol]
    exact h col hcol

/-- When the record marks exactly the full rows, the compacted board has no full row. -/
theorem clear_lines_spec_no_full (values : List Nat) (hv : values.length = 220) (row : Nat)
    (hr : row < 22) :
    row_is_full
      (clear_lines_spec values 10 22
        ((List.range 22).map (fun r => if row_is_full values r then 1 else 0))) row = false := by
  have hl : ((List.range 22).map (fun r => if row_is_full values r then 1 else 0)).length = 22 := by
    simp
  obtain ⟨-, h2, -, h4⟩ := clear_lines_spec_rows values _ hv hl
  rw [row_is_full_eq _ (clear_lines_spec_length values _ hv hl) row hr]
  have hget : (board_rows (clear_lines_spec values 10 22
      ((List.range 22).map (fun r => if row_is_full values r then 1 else 0))) 10 22)[row]?
      = some (((clear_lines_spec values 10 22
          ((List.range 22).map (fun r => if row_is_full values r then 1 else 0))).drop
            (row * 10)).take 10) := by
    simp [board_rows, hr]
  rw [h4] at hget
  have hmem := List.getElem?_mem hget
  rcases List.mem_append.1 hmem with h5 | h5
  · rw [(List.mem_replicate.1 h5).2]
    decide
  · obtain ⟨i, hi, hri, hflag⟩ := kept_from_mem values _ _ h5
    rw [hri, ← row_is_full_eq values hv i hi]
    simp only [List.getElem?_map, List.getElem?_range hi, Option.map_some'] at hflag
    by_cases hf : row_is_full values i = true
    · simp [hf] at hflag
    · simpa using hf

/-! ## The invariant of the reachable states -/

theorem update_game_line_inv {F : Type} (ops : Float_ops F) (g g1 : Game_state F)
    (hcore : core_inv g) (hphase : phase_inv g) (hline : g.phase = .GAME_PHASE_LINE)
    (h : update_game_line ops g = .ok g1) : core_inv g1 ∧ phase_inv g1 := by
  obtain ⟨hb, hl, hv, hp⟩ := hcore
  unfold update_game_line at h
  split_ifs at h
  · have hc : clear_lines g.board WIDTH HEIGHT g.lines
        = .ok (clear_lines_spec g.board 10 22 g.lines) :=
      clear_lines_eq_spec g.board 10 22 g.lines hb hl
    rw [hc] at h
    cases h
    refine ⟨⟨clear_lines_spec_length _ _ hb hl, hl, ?_, hp⟩, ?_, ?_⟩
    · intro v hmem
      rcases clear_lines_spec_values _ _ hb hl v hmem with h0 | h0
      · omega
      · exact hv v h0
    · intro _ row hrow
      have hflags := (hphase.2 hline).1
      simp only
      rw [hflags]
      exact clear_lines_spec_no_full g.board hb row hrow
    · intro hx
      cases hx
  · cases h
    exact ⟨⟨hb, hl, hv, hp⟩, hphase⟩

theorem update_game_play_inv {F : Type} (env : Env F) (fuel : Nat) (w w1 : World F)
    (input : Input_State) (hcore : core_inv w.game) (hplay : w.game.phase = .GAME_PHASE_PLAY)
    (h : update_game_play env fuel w input = .ok w1) :
    core_inv w1.game ∧ phase_inv w1.game := by
  obtain ⟨g1, w2, w3, w4, hm, h2, h3, h4, h5, -⟩ := update_game_play_steps env fuel w w1 input h
  have hc1 := (update_game_play_move_core_inv _ _ _ hcore hm).1
  have hf1 := (update_game_play_move_frame _ _ _ hm).1
  obtain ⟨ps, ph, pg⟩ := drop_steps_preserve env
    (fun x : World F => core_inv x.game ∧ drop_frame w.game x.game)
    (fun x x1 moved hx hs => ⟨soft_drop_core_inv env x x1 moved hx.1 hs,
      drop_frame_trans _ _ _ hx.2 (soft_drop_frame env x x1 moved hs)⟩)
  have hw2 := ps input _ w2 ⟨hc1, hf1⟩ h2
  have hw3 := ph fuel input w2 w3 hw2 h3
  obtain ⟨⟨hb, hl, hv, hp⟩, hf⟩ := pg fuel w3 w4 hw3 h4
  have hphase4 : w4.game.phase = .GAME_PHASE_PLAY := hf.2.2.2.1.trans hplay
  rw [update_game_play_lines_eq env.ops w4.game hb hl] at h5
  have h6 := Except.ok.inj h5
  by_cases hc : (((List.range 22).filter (row_is_full w4.game.board)).length : Int) > 0
  · rw [if_pos hc] at h6
    rw [← h6]
    refine ⟨⟨hb, by simp, hv, hp⟩, ?_, ?_⟩
    · intro hx
      cases hx
    · intro _
      exact ⟨rfl, rfl, hc⟩
  · rw [if_neg hc] at h6
    rw [← h6]
    refine ⟨⟨hb, by simp, hv, hp⟩, ?_, ?_⟩
    · intro _ row hrow
      have hnil : (List.range 22).filter (row_is_full w4.game.board) = [] := by
        apply List.eq_nil_of_length_eq_zero
        omega
      have := List.filter_eq_nil_iff.1 hnil row (List.mem_range.2 hrow)
      simpa using this
    · intro hx
      rw [show w4.game.phase = Game_Phase.GAME_PHASE_LINE from hx] at hphase4
      cases hphase4

set_option maxRecDepth 100000 in
theorem empty_board_no_full : ∀ row < 22, row_is_full (List.replicate 220 0) row = false := by
  decide

theorem main_init_inv {F : Type} (env : Env F) (w : World F) (h : main_init env = .ok w) :
    core_inv w.game ∧ phase_inv w.game := by
  unfold main_init at h
  obtain ⟨dt, hdt⟩ := get_time_to_next_drop_ok env.ops 0 (le_refl _) (by omega)
  simp only [hdt, spawn_piece_eq] at h
  cases h
  have e1 : (WIDTH * HEIGHT).toNat = 220 := rfl
  have e2 : HEIGHT.toNat = 22 := rfl
  refine ⟨⟨(List.length_replicate _ _).trans e1, (List.length_replicate _ _).trans e2, ?_,
    spawn_piece_ok _⟩, ?_, ?_⟩
  · intro v hv
    have := (List.mem_replicate.1 hv).2
    omega
  · intro _ row hrow
    exact empty_board_no_full row hrow
  · intro hx
    cases hx

theorem update_game_inv {F : Type} (env : Env F) (fuel : Nat) (w w1 : World F)
    (input : Input_State) (hcore : core_inv w.game) (hphase : phase_inv w.game)
    (h : update_game env fuel w input = .ok w1) : core_inv w1.game ∧ phase_inv w1.game := by
  unfold update_game at h
  cases hp : w.game.phase with
  | GAME_PHASE_PLAY =>
    rw [hp] at h
    simp only at h
    exact update_game_play_inv env fuel w w1 input hcore hp h
  | GAME_PHASE_LINE =>
    rw [hp] at h
    simp only at h
    cases hu : update_game_line env.ops w.game with
    | error e => rw [hu] at h; cases h
    | ok g1 =>
      rw [hu] at h
      cases h
      exact update_game_line_inv env.ops _ g1 hcore hphase hp hu

/-- Every reachable state satisfies the state invariant. -/
theorem reachable_inv {F : Type} (env : Env F) (w : World F) (h : Reachable env w) :
    core_inv w.game ∧ phase_inv w.game := by
  induction h with
  | init w h => exact main_init_inv env w h
  | frame w w1 fuel now input _ h ih =>
    exact update_game_inv env fuel { w with game := { w.game with time := now } } w1 input
      ih.1 ih.2 h

theorem reachable_frames {F : Type} (env : Env F) (fuel : Nat) :
    ∀ (frames : List (F × Input_State)) (w w1 : World F), Reachable env w →
      main_frames env fuel w frames = .ok w1 → Reachable env w1 := by
  intro frames
  induction frames with
  | nil => intro w w1 hw h; cases h; exact hw
  | cons f rest ih =>
    intro w w1 hw h
    obtain ⟨now, input⟩ := f
    unfold main_frames at h
    cases hf : main_frame env fuel w now input with
    | error e => rw [hf] at h; cases h
    | ok w2 =>
      rw [hf] at h
      exact ih w2 w1 (Reachable.frame w w2 fuel now input hw hf) h

set_option maxRecDepth 100000 in
theorem reachable_world_init : Reachable env_zero world_init :=
  Reachable.init _ (by decide)

set_option maxRecDepth 100000 in
theorem reachable_world_stack : Reachable env_zero world_stack :=
  reachable_frames env_zero 22 frames_stack world_init world_stack reachable_world_init
    (by decide)


/-! ## Array accesses during a frame -/

theorem update_game_play_candidate_index (p : Piece_State) (input : Input_State) :
    (update_game_play_candidate p input).tetrino_index = p.tetrino_index := by
  unfold update_game_play_candidate
  split_ifs <;> rfl

/-- On a state satisfying the invariant the move step returns. -/
theorem update_game_play_move_total {F : Type} (g : Game_state F) (input : Input_State)
    (hcore : core_inv g) : ∃ g1, update_game_play_move g input = .ok g1 := by
  obtain ⟨hb, -, -, hi, -⟩ := hcore
  have hci : (update_game_play_candidate g.piece input).tetrino_index < 7 := by
    rw [update_game_play_candidate_index]
    exact hi
  unfold update_game_play_move
  rcases check_piece_valid_total _ g.board hb hci with hc | hc
  · simp only [hc]
    exact ⟨_, rfl⟩
  · simp only [hc]
    exact ⟨_, rfl⟩

/-- On a state satisfying the invariant the only fault of a gravity-drop step is that of the
read of the drop table: the board reads of `check_piece_valid` and the board writes of
`merge_piece` are inside the array. -/
theorem soft_drop_fault {F : Type} (env : Env F) (w : World F) (hcore : core_inv w.game)
    (e : Fault) (h : soft_drop env w = .error e) :
    get_time_to_next_drop env.ops w.game.level = .error e := by
  obtain ⟨hb, -, -, hi, -, -, hgrid⟩ := hcore
  rcases check_piece_valid_total { w.game.piece with offset_row := w.game.piece.offset_row + 1 }
      w.game.board hb hi with hc | hc
  · unfold soft_drop at h
    simp only [hc] at h
    cases hdt : get_time_to_next_drop env.ops w.game.level with
    | error e1 =>
      rw [hdt] at h
      cases h
      rfl
    | ok dt =>
      rw [hdt] at h
      cases h
  · obtain ⟨board, hs, -⟩ := soft_drop_locks env w hb hi hc hgrid
    rw [hs] at h
    cases h

/-- The faults of the hard-drop loop on a state satisfying the invariant. -/
theorem hard_drop_loop_fault {F : Type} (env : Env F) : ∀ (fuel : Nat) (w : World F),
    core_inv w.game → ∀ e, hard_drop_loop env fuel w = .error e →
      e = .out_of_fuel ∨ get_time_to_next_drop env.ops w.game.level = .error e := by
  intro fuel
  induction fuel with
  | zero =>
    intro w _ e h
    cases h
    exact Or.inl rfl
  | succ fuel ih =>
    intro w hcore e h
    unfold hard_drop_loop at h
    cases hs : soft_drop env w with
    | error e1 =>
      rw [hs] at h
      cases h
      exact Or.inr (soft_drop_fault env w hcore _ hs)
    | ok r =>
      obtain ⟨moved, w1⟩ := r
      rw [hs] at h
      cases moved
      · cases h
      · have hl := (soft_drop_frame env w w1 true hs).2.2.2.2.2.1
        rw [← hl]
        exact ih w1 (soft_drop_core_inv env w w1 true hcore hs) e h

/-- The faults of the gravity catch-up loop on a state satisfying the invariant. -/
theorem gravity_loop_fault {F : Type} (env : Env F) : ∀ (fuel : Nat) (w : World F),
    core_inv w.game → ∀ e, gravity_loop env fuel w = .error e →
      e = .out_of_fuel ∨ get_time_to_next_drop env.ops w.game.level = .error e := by
  intro fuel
  induction fuel with
  | zero =>
    intro w _ e h
    unfold gravity_loop at h
    split_ifs at h
    cases h
    exact Or.inl rfl
  | succ fuel ih =>
    intro w hcore e h
    unfold gravity_loop at h
    split_ifs at h
    cases hs : soft_drop env w with
    | error e1 =>
      rw [hs] at h
      cases h
      exact Or.inr (soft_drop_fault env w hcore _ hs)
    | ok r =>
      obtain ⟨moved, w1⟩ := r
      rw [hs] at h
      have hl := (soft_drop_frame env w w1 moved hs).2.2.2.2.2.1
      rw [← hl]
      exact ih w1 (soft_drop_core_inv env w w1 moved hcore hs) e h

/-- The faults of a PLAY tick on a state satisfying the invariant: running out of fuel in
one of the two loops, or the read of the drop table at the level of the state. -/
theorem update_game_play_fault {F : Type} (env : Env F) (fuel : Nat) (w : World F)
    (input : Input_State) (hcore : core_inv w.game) (e : Fault)
    (h : update_game_play env fuel w input = .error e) :
    e = .out_of_fuel ∨ get_time_to_next_drop env.ops w.game.level = .error e := by
  obtain ⟨ps, ph, pg⟩ := drop_steps_preserve env
    (fun x : World F => core_inv x.game ∧ x.game.level = w.game.level)
    (fun x x1 moved hx hs => ⟨soft_drop_core_inv env x x1 moved hx.1 hs,
      ((soft_drop_frame env x x1 moved hs).2.2.2.2.2.1).trans hx.2⟩)
  unfold update_game_play at h
  obtain ⟨g1, hm⟩ := update_game_play_move_total w.game input hcore
  rw [hm] at h
  simp only at h
  have hc1 := (update_game_play_move_core_inv _ _ _ hcore hm).1
  have hl1 : g1.level = w.game.level := (update_game_play_move_frame _ _ _ hm).1.2.2.2.2.2.1
  cases h2 : update_game_play_soft env input { w with game := g1 } with
  | error e2 =>
    rw [h2] at h
    cases h
    unfold update_game_play_soft at h2
    split_ifs at h2
    cases hs : soft_drop env { w with game := g1 } with
    | error e3 =>
      rw [hs] at h2
      cases h2
      have := soft_drop_fault env { w with game := g1 } hc1 _ hs
      rw [show ({ w with game := g1 } : World F).game.level = w.game.level from hl1] at this
      exact Or.inr this
    | ok r =>
      rw [hs] at h2
      cases h2
  | ok w2 =>
    rw [h2] at h
    simp only at h
    have hw2 := ps input { w with game := g1 } w2 ⟨hc1, hl1⟩ h2
    cases h3 : update_game_play_hard env fuel input w2 with
    | error e3 =>
      rw [h3] at h
      cases h
      unfold update_game_play_hard at h3
      split_ifs at h3
      rw [← hw2.2]
      exact hard_drop_loop_fault env fuel w2 hw2.1 _ h3
    | ok w3 =>
      rw [h3] at h
      simp only at h
      have hw3 := ph fuel input w2 w3 hw2 h3
      cases h4 : gravity_loop env fuel w3 with
      | error e4 =>
        rw [h4] at h
        cases h
        rw [← hw3.2]
        exact gravity_loop_fault env fuel w3 hw3.1 _ h4
      | ok w4 =>
        rw [h4] at h
        simp only at h
        obtain ⟨⟨hb4, hl4, -, -⟩, -⟩ := pg fuel w3 w4 hw3 h4
        rw [update_game_play_lines_eq env.ops w4.game hb4 hl4] at h
        cases h

/-- On a state satisfying the invariant the LINE_CLEAR tick returns. -/
theorem update_game_line_total {F : Type} (ops : Float_ops F) (g : Game_state F)
    (hcore : core_inv g) : ∃ g1, update_game_line ops g = .ok g1 := by
  obtain ⟨hb, hl, -, -⟩ := hcore
  unfold update_game_line
  split_ifs
  · have hc : clear_lines g.board WIDTH HEIGHT g.lines
        = .ok (clear_lines_spec g.board 10 22 g.lines) :=
      clear_lines_eq_spec g.board 10 22 g.lines hb hl
    rw [hc]
    exact ⟨_, rfl⟩
  · exact ⟨_, rfl⟩

/-- The faults of a tick on a state satisfying the invariant. -/
theorem update_game_fault {F : Type} (env : Env F) (fuel : Nat) (w : World F)
    (input : Input_State) (hcore : core_inv w.game) (e : Fault)
    (h : update_game env fuel w input = .error e) :
    e = .out_of_fuel ∨ get_time_to_next_drop env.ops w.game.level = .error e := by
  unfold update_game at h
  cases hp : w.game.phase with
  | GAME_PHASE_PLAY =>
    rw [hp] at h
    exact update_game_play_fault env fuel w input hcore e h
  | GAME_PHASE_LINE =>
    rw [hp] at h
    simp only at h
    obtain ⟨g1, hg⟩ := update_game_line_total env.ops w.game hcore
    rw [hg] at h
    cases h

/-- The level never goes down in a tick that returns. -/
theorem update_game_level {F : Type} (env : Env F) (fuel : Nat) (w w1 : World F)
    (input : Input_State) (h : update_game env fuel w input = .ok w1) :
    w.game.level ≤ w1.game.level := by
  unfold update_game at h
  cases hp : w.game.phase with
  | GAME_PHASE_PLAY =>
    rw [hp] at h
    simp only at h
    obtain ⟨w4, hf, h5⟩ := update_game_play_tail env fuel w w1 input h
    have hl4 : w4.game.level = w.game.level := hf.2.2.2.2.2.1
    unfold update_game_play_lines at h5
    cases hfl : find_lines w4.game.board WIDTH HEIGHT w4.game.lines with
    | error e => rw [hfl] at h5; cases h5
    | ok r =>
      obtain ⟨count, lines⟩ := r
      rw [hfl] at h5
      simp only at h5
      split_ifs at h5 <;>
      · have e := (Except.ok.inj h5).symm
        rw [e]
        exact le_of_eq hl4.symm
  | GAME_PHASE_LINE =>
    rw [hp] at h
    simp only at h
    cases hu : update_game_line env.ops w.game with
    | error e => rw [hu] at h; cases h
    | ok g1 =>
      rw [hu] at h
      cases h
      unfold update_game_line at hu
      split_ifs at hu
      · cases hc : clear_lines w.game.board WIDTH HEIGHT w.game.lines with
        | error e => rw [hc] at hu; cases hu
        | ok board =>
          rw [hc] at hu
          simp only at hu
          have e := (Except.ok.inj hu).symm
          rw [e]
          simp only
          split_ifs <;> omega
      · cases hu
        exact le_refl _

/-- The level of a reachable state is not negative. -/
theorem reachable_level {F : Type} (env : Env F) (w : World F) (h : Reachable env w) :
    0 ≤ w.game.level := by
  induction h with
  | init w h =>
    unfold main_init at h
    obtain ⟨dt, hdt⟩ := get_time_to_next_drop_ok env.ops 0 (le_refl _) (by omega)
    simp only [hdt, spawn_piece_eq] at h
    cases h
    exact le_refl _
  | frame w w1 fuel now input _ h ih =>
    exact le_trans ih
      (update_game_level env fuel { w with game := { w.game with time := now } } w1 input h)

/-- A fault of the drop-table read at a level that is not negative: the level is 29 or
more. -/
theorem get_time_to_next_drop_fault_level {F : Type} (ops : Float_ops F) (level : Int)
    (e : Fault) (h0 : 0 ≤ level) (h : get_time_to_next_drop ops level = .error e) :
    29 ≤ level := by
  by_contra hlt
  obtain ⟨dt, hdt⟩ := get_time_to_next_drop_ok ops level h0 (by omega)
  rw [hdt] at h
  cases h

/-- The faults of a frame from a reachable state. -/
theorem reachable_frame_fault {F : Type} (env : Env F) (w : World F) (h : Reachable env w)
    (fuel : Nat) (now : F) (input : Input_State) (e : Fault)
    (hf : main_frame env fuel w now input = .error e) :
    e = .out_of_fuel ∨
      (29 ≤ w.game.level ∧ get_time_to_next_drop env.ops w.game.level = .error e) := by
  have hcore := (reachable_inv env w h).1
  have hc : core_inv ({ w with game := { w.game with time := now } } : World F).game := hcore
  rcases update_game_fault env fuel { w with game := { w.game with time := now } } input hc e hf
    with h1 | h1
  · exact Or.inl h1
  · exact Or.inr ⟨get_time_to_next_drop_fault_level env.ops _ e (reachable_level env w h) h1, h1⟩


set_option maxRecDepth 100000 in
theorem reachable_world_row_filled : Reachable env_zero world_row_filled :=
  reachable_frames env_zero 22 frames_fill_row world_init world_row_filled reachable_world_init
    (by decide)

/-! ## Board cells of the reachable states -/

/-- C15. In every state reachable from the initial state (empty board, PLAY phase, a spawned
piece) by frames of `update_game` with any inputs, clock values and `rand()` results, the
board has `WIDTH * HEIGHT` cells and every cell holds 0 or a piece id in 1..7. The two board
mutations keep this: every cell after `merge_piece` is an old cell or the id `index + 1` of
the merged piece, and every cell after `clear_lines` is 0 or an old cell. -/
theorem reachable_board_cells {F : Type} (env : Env F) (w : World F)
    (h : Reachable env w) :
    w.game.board.length = 220 ∧
    (∀ v ∈ w.game.board, v = 0 ∨ (1 ≤ v ∧ v ≤ 7)) ∧
    (∀ g g1 : Game_state F, merge_piece g = .ok g1 →
      ∀ v ∈ g1.board, v ∈ g.board ∨ v = g.piece.tetrino_index + 1) ∧
    (∀ values lines : List Nat, values.length = 220 → lines.length = 22 →
      ∃ cleared, clear_lines values WIDTH HEIGHT lines = .ok cleared ∧
        ∀ v ∈ cleared, v = 0 ∨ v ∈ values) := by
  obtain ⟨⟨hb, -, hv, -⟩, -⟩ := reachable_inv env w h
  refine ⟨hb, ?_, fun g g1 hm => merge_piece_values g g1 hm, ?_⟩
  · intro v hmem
    have := hv v hmem
    omega
  · intro values lines hlen hl
    exact ⟨clear_lines_spec values 10 22 lines, clear_lines_eq_spec values 10 22 lines hlen hl,
      clear_lines_spec_values values lines hlen hl⟩

/-- C15, instance: the state after five upright I-pieces were stacked in column 7. -/
theorem reachable_board_cells_witness :
    world_stack.game.board.length = 220 ∧
    (∀ v ∈ world_stack.game.board, v = 0 ∨ (1 ≤ v ∧ v ≤ 7)) ∧
    (∀ g g1 : Game_state Frac, merge_piece g = .ok g1 →
      ∀ v ∈ g1.board, v ∈ g.board ∨ v = g.piece.tetrino_index + 1) ∧
    (∀ values lines : List Nat, values.length = 220 → lines.length = 22 →
      ∃ cleared, clear_lines values WIDTH HEIGHT lines = .ok cleared ∧
        ∀ v ∈ cleared, v = 0 ∨ v ∈ values) :=
  reachable_board_cells env_zero world_stack reachable_world_stack

/-! ## The active piece of the reachable states -/

/-- C19. In every state reachable from the initial state by frames of `update_game`, the
active piece has index in `[0,7)` and rotation in `{0,1,2,3}`, and every occupied cell of it
lies inside the grid (`0 <= row < HEIGHT`, `0 <= col < WIDTH`), whether or not it overlaps
locked cells; the board has `WIDTH * HEIGHT` cells; `merge_piece` on the state returns, and
`check_piece_valid` returns for every piece with index in `[0,7)`. Moreover the next frame
from the state, with any input and clock value, makes no array access out of bounds in any
of its calls of `check_piece_valid` and `merge_piece` (in the move step, the soft drop, the
hard drop and the gravity loop): if the frame faults on an access out of bounds at all, the
level is 29 or more and the faulting access is the read of `FRAMES_PER_DROP` in
`get_time_to_next_drop`; at a level up to 28 the frame never faults on an access out of
bounds. -/
theorem reachable_piece_in_grid {F : Type} (env : Env F) (w : World F)
    (h : Reachable env w) :
    w.game.piece.tetrino_index < 7 ∧
    0 ≤ w.game.piece.rotation ∧ w.game.piece.rotation ≤ 3 ∧
    (∃ t, tetrino_at w.game.piece.tetrino_index = .ok t ∧
      ∀ row col : Nat, (row : Int) < t.side → (col : Int) < t.side →
        ∀ v, tetrino_get t row col w.game.piece.rotation = .ok v → v ≠ 0 →
          0 ≤ w.game.piece.offset_row + row ∧ w.game.piece.offset_row + row < HEIGHT ∧
          0 ≤ w.game.piece.offset_col + col ∧ w.game.piece.offset_col + col < WIDTH) ∧
    w.game.board.length = 220 ∧
    (∃ g, merge_piece w.game = .ok g) ∧
    (∀ p : Piece_State, p.tetrino_index < 7 →
      ∃ valid, check_piece_valid p w.game.board WIDTH HEIGHT = .ok valid) ∧
    (∀ (fuel : Nat) (now : F) (input : Input_State),
      main_frame env fuel w now input = .error .out_of_bounds →
        29 ≤ w.game.level ∧
        get_time_to_next_drop env.ops w.game.level = .error .out_of_bounds) ∧
    (w.game.level ≤ 28 → ∀ (fuel : Nat) (now : F) (input : Input_State),
      main_frame env fuel w now input ≠ .error .out_of_bounds) := by
  obtain ⟨⟨hb, -, -, hi, hr0, hr3, hgrid⟩, -⟩ := reachable_inv env w h
  obtain ⟨t, ht, -⟩ := tetrino_at_ok _ hi
  have hfault : ∀ (fuel : Nat) (now : F) (input : Input_State),
      main_frame env fuel w now input = .error .out_of_bounds →
        29 ≤ w.game.level ∧
        get_time_to_next_drop env.ops w.game.level = .error .out_of_bounds := by
    intro fuel now input hf
    rcases reachable_frame_fault env w h fuel now input _ hf with h1 | h1
    · cases h1
    · exact h1
  refine ⟨hi, hr0, hr3, ⟨t, ht, (piece_in_grid_iff _ t ht).1 hgrid⟩, hb, ?_, ?_, hfault, ?_⟩
  · obtain ⟨b1, hm, -⟩ := merge_piece_cells w.game hi hgrid hb
    exact ⟨_, hm⟩
  · intro p hp
    rcases check_piece_valid_total p w.game.board hb hp with hc | hc
    · exact ⟨true, hc⟩
    · exact ⟨false, hc⟩
  · intro hle fuel now input hf
    have := (hfault fuel now input hf).1
    omega

/-- C19, instance: the state after five upright I-pieces were stacked in column 7, at
level 0. -/
theorem reachable_piece_in_grid_witness :
    world_stack.game.piece.tetrino_index < 7 ∧
    0 ≤ world_stack.game.piece.rotation ∧ world_stack.game.piece.rotation ≤ 3 ∧
    (∃ t, tetrino_at world_stack.game.piece.tetrino_index = .ok t ∧
      ∀ row col : Nat, (row : Int) < t.side → (col : Int) < t.side →
        ∀ v, tetrino_get t row col world_stack.game.piece.rotation = .ok v → v ≠ 0 →
          0 ≤ world_stack.game.piece.offset_row + row ∧
          world_stack.game.piece.offset_row + row < HEIGHT ∧
          0 ≤ world_stack.game.piece.offset_col + col ∧
          world_stack.game.piece.offset_col + col < WIDTH) ∧
    world_stack.game.board.length = 220 ∧
    (∃ g, merge_piece world_stack.game = .ok g) ∧
    (∀ p : Piece_State, p.tetrino_index < 7 →
      ∃ valid, check_piece_valid p world_stack.game.board WIDTH HEIGHT = .ok valid) ∧
    (∀ (fuel : Nat) (now : Frac) (input : Input_State),
      main_frame env_zero fuel world_stack now input = .error .out_of_bounds →
        29 ≤ world_stack.game.level ∧
        get_time_to_next_drop env_zero.ops world_stack.game.level = .error .out_of_bounds) ∧
    (∀ (fuel : Nat) (now : Frac) (input : Input_State),
      main_frame env_zero fuel world_stack now input ≠ .error .out_of_bounds) :=
  ⟨(reachable_piece_in_grid env_zero world_stack reachable_world_stack).1,
   (reachable_piece_in_grid env_zero world_stack reachable_world_stack).2.1,
   (reachable_piece_in_grid env_zero world_stack reachable_world_stack).2.2.1,
   (reachable_piece_in_grid env_zero world_stack reachable_world_stack).2.2.2.1,
   (reachable_piece_in_grid env_zero world_stack reachable_world_stack).2.2.2.2.1,
   (reachable_piece_in_grid env_zero world_stack reachable_world_stack).2.2.2.2.2.1,
   (reachable_piece_in_grid env_zero world_stack reachable_world_stack).2.2.2.2.2.2.1,
   (reachable_piece_in_grid env_zero world_stack reachable_world_stack).2.2.2.2.2.2.2.1,
   (reachable_piece_in_grid env_zero world_stack reachable_world_stack).2.2.2.2.2.2.2.2
     (by decide)⟩

/-! ## Phase and full rows of the reachable states -/

/-- C20. In every state reachable from the initial state by frames of `update_game`: in the
PLAY phase no row of the board is full; in the LINE_CLEAR phase the stored record has flag 1
exactly for the full rows of the current board (0 for the others), `pending_line_count` is
the number of full rows and is `> 0`, and the compaction `clear_lines` by the record returns
the board of the specification's compaction (marked rows removed, as many zero rows put on
top), which has no full row. -/
theorem reachable_phase_rows {F : Type} (env : Env F) (w : World F)
    (h : Reachable env w) :
    (w.game.phase = .GAME_PHASE_PLAY →
      ∀ row : Nat, row < 22 → row_is_full w.game.board row = false) ∧
    (w.game.phase = .GAME_PHASE_LINE →
      w.game.lines
        = (List.range 22).map (fun row => if row_is_full w.game.board row then 1 else 0) ∧
      w.game.pending_line_count
        = (((List.range 22).filter (row_is_full w.game.board)).length : Int) ∧
      w.game.pending_line_count > 0 ∧
      ∃ cleared, clear_lines w.game.board WIDTH HEIGHT w.game.lines = .ok cleared ∧
        cleared = clear_lines_spec w.game.board 10 22 w.game.lines ∧
        ∀ row : Nat, row < 22 → row_is_full cleared row = false) := by
  obtain ⟨⟨hb, hl, -, -⟩, hplay, hline⟩ := reachable_inv env w h
  refine ⟨hplay, fun hp => ?_⟩
  obtain ⟨h1, h2, h3⟩ := hline hp
  refine ⟨h1, h2, h3, clear_lines_spec w.game.board 10 22 w.game.lines,
    clear_lines_eq_spec w.game.board 10 22 w.game.lines hb hl, rfl, ?_⟩
  intro row hrow
  rw [h1]
  exact clear_lines_spec_no_full w.game.board hb row hrow

set_option maxRecDepth 100000 in
/-- C20, instance: the LINE_CLEAR state reached when four I-pieces filled the bottom row. -/
theorem reachable_phase_rows_witness :
    world_row_filled.game.phase = .GAME_PHASE_LINE ∧
    (world_row_filled.game.lines
        = (List.range 22).map
            (fun row => if row_is_full world_row_filled.game.board row then 1 else 0) ∧
      world_row_filled.game.pending_line_count
        = (((List.range 22).filter (row_is_full world_row_filled.game.board)).length : Int) ∧
      world_row_filled.game.pending_line_count > 0 ∧
      ∃ cleared, clear_lines world_row_filled.game.board WIDTH HEIGHT
          world_row_filled.game.lines = .ok cleared ∧
        cleared = clear_lines_spec world_row_filled.game.board 10 22
          world_row_filled.game.lines ∧
        ∀ row : Nat, row < 22 → row_is_full cleared row = false) :=
  ⟨by decide,
   (reachable_phase_rows env_zero world_row_filled reachable_world_row_filled).2 (by decide)⟩


/-! ## The gravity catch-up loop on a blocked spawn area -/

/-- A gravity-drop step that locks, given what `merge_piece` returns. -/
theorem soft_drop_lock_eq {F : Type} (env : Env F) (w : World F) (g : Game_state F)
    (hvalid : check_piece_valid
      { w.game.piece with offset_row := w.game.piece.offset_row + 1 }
      w.game.board WIDTH HEIGHT = .ok false)
    (hm : merge_piece w.game = .ok g) :
    soft_drop env w = .ok (false,
      { game := { g with piece := ⟨env.rand w.rand_calls % 7, 0, 5, 0⟩ },
        rand_calls := w.rand_calls + 1 }) := by
  have hback : ({ w.game.piece with offset_row := w.game.piece.offset_row + 1 - 1 } : Piece_State)
      = w.game.piece := by
    cases hp : w.game.piece
    simp
  have hgame : ({ w.game with piece := w.game.piece } : Game_state F) = w.game := rfl
  simp only [soft_drop, hvalid, hback, hgame, hm, spawn_piece_eq]

set_option maxRecDepth 100000 in
/-- The steps of a frame on `world_stack_due`: the move step changes nothing, the piece
cannot go down and is merged into row 1, and the same holds for the piece spawned next. -/
theorem world_stack_due_steps :
    update_game_play_move world_stack_due.game input_released = .ok world_stack_due.game ∧
    exact_ops.ge world_stack_due.game.time world_stack_due.game.next_drop_time = true ∧
    check_piece_valid ⟨0, 1, 5, 0⟩ board_stack WIDTH HEIGHT = .ok false ∧
    merge_piece world_stack_due.game = .ok (world_stack_locked 0).game ∧
    check_piece_valid ⟨0, 1, 5, 0⟩ board_stack_bar WIDTH HEIGHT = .ok false ∧
    merge_piece (world_stack_locked 0).game = .ok (world_stack_locked 0).game := by
  decide

theorem soft_drop_stack_due :
    soft_drop env_zero world_stack_due = .ok (false, world_stack_locked 7) :=
  soft_drop_lock_eq env_zero world_stack_due (world_stack_locked 0).game
    world_stack_due_steps.2.2.1 world_stack_due_steps.2.2.2.1

theorem soft_drop_stack_locked (n : Nat) :
    soft_drop env_zero (world_stack_locked n) = .ok (false, world_stack_locked (n + 1)) :=
  soft_drop_lock_eq env_zero (world_stack_locked n) (world_stack_locked 0).game
    world_stack_due_steps.2.2.2.2.1 world_stack_due_steps.2.2.2.2.2

theorem gravity_loop_stack_locked : ∀ (fuel n : Nat),
    gravity_loop env_zero fuel (world_stack_locked n) = .error .out_of_fuel
  | 0, n => by
    have hge : env_zero.ops.ge (world_stack_locked n).game.time
        (world_stack_locked n).game.next_drop_time = true := world_stack_due_steps.2.1
    simp only [gravity_loop, hge, if_true]
  | fuel + 1, n => by
    have hge : env_zero.ops.ge (world_stack_locked n).game.time
        (world_stack_locked n).game.next_drop_time = true := world_stack_due_steps.2.1
    simp only [gravity_loop, hge, if_true, soft_drop_stack_locked]
    exact gravity_loop_stack_locked fuel (n + 1)

theorem gravity_loop_stack_due (fuel : Nat) :
    gravity_loop env_zero fuel world_stack_due = .error .out_of_fuel := by
  have hge : env_zero.ops.ge world_stack_due.game.time
      world_stack_due.game.next_drop_time = true := world_stack_due_steps.2.1
  cases fuel with
  | zero => simp only [gravity_loop, hge, if_true]
  | succ fuel =>
    simp only [gravity_loop, hge, if_true, soft_drop_stack_due]
    exact gravity_loop_stack_locked fuel 7

theorem main_frame_stack_due (fuel : Nat) :
    main_frame env_zero fuel world_stack ⟨5, 1⟩ input_released = .error .out_of_fuel := by
  have h0 : main_frame env_zero fuel world_stack ⟨5, 1⟩ input_released
      = update_game_play env_zero fuel world_stack_due input_released := rfl
  have h1 : update_game_play_soft env_zero input_released world_stack_due = .ok world_stack_due := rfl
  have h2 : update_game_play_hard env_zero fuel input_released world_stack_due
      = .ok world_stack_due := rfl
  have h3 : ({ world_stack_due with game := world_stack_due.game } : World Frac)
      = world_stack_due := rfl
  rw [h0]
  simp only [update_game_play, world_stack_due_steps.1, h3, h1, h2, gravity_loop_stack_due]

set_option maxRecDepth 100000 in
/-- C16, evaluated: `world_stack` is reachable from the initial state (five upright I-pieces
stacked in column 7 by frames at times 0..4 in which rotate and hard drop are pressed and let
go in turn), is in the PLAY phase, its piece has index 0, rotation 0, lies inside the grid
and is in a valid placement, and a frame at time 4 with the keys let go returns. A frame at
time 5, when the drop due at time 4.8 is overdue, does not return, whatever the bound on the
loop iterations: the piece cannot go down, so every gravity-drop step locks it and spawns the
next one in the same place without moving `next_drop_time`, and the loop condition
`time >= next_drop_time` stays true. -/
theorem gravity_loop_never_ends :
    Reachable env_zero world_stack ∧
    world_stack.game.phase = .GAME_PHASE_PLAY ∧
    world_stack.game.piece.tetrino_index < 7 ∧
    world_stack.game.piece.rotation = 0 ∧
    piece_in_grid world_stack.game.piece = true ∧
    check_piece_valid world_stack.game.piece world_stack.game.board WIDTH HEIGHT = .ok true ∧
    main_frame env_zero 0 world_stack ⟨4, 1⟩ input_released = .ok world_stack ∧
    ∀ fuel : Nat, main_frame env_zero fuel world_stack ⟨5, 1⟩ input_released
      = .error .out_of_fuel :=
  ⟨reachable_world_stack, by decide, by decide, by decide, by decide, by decide, by decide,
    main_frame_stack_due⟩


/-! ## The number of rows filled in one tick -/

theorem tetrinos_side_le : ∀ t ∈ TETRINOS, t.side ≤ 4 := by
  decide

/-- One gravity-drop step keeps `lock_count_inv`. -/
theorem soft_drop_lock_count {F : Type} (env : Env F) (w0 w w1 : World F) (moved : Bool)
    (hinv : lock_count_inv w0 w) (h : soft_drop env w = .ok (moved, w1)) :
    lock_count_inv w0 w1 := by
  obtain ⟨hb, hle, h0, h1⟩ := hinv
  obtain ⟨f1, -⟩ := soft_drop_frame env w w1 moved h
  rcases soft_drop_cases env w w1 moved h with ⟨-, hr, hboard, hpiece, hvalid⟩ |
      ⟨-, hr, hpiece, hv, g, hm, hboard⟩
  · refine ⟨f1.trans hb, by omega, ?_, ?_⟩
    · intro e
      obtain ⟨e1, -, -⟩ := h0 (by omega)
      exact ⟨hboard.trans e1, check_piece_valid_index _ _ _ hvalid, valid_in_grid _ _ hb hvalid⟩
    · intro e
      rw [hboard]
      exact h1 (by omega)
  · refine ⟨f1.trans hb, by omega, fun e => absurd e (by omega), ?_⟩
    intro e
    obtain ⟨e1, hi, hgrid⟩ := h0 (by omega)
    obtain ⟨b1, hm1, hlen, hcells⟩ := merge_piece_cells w.game hi hgrid hb
    rw [hm] at hm1
    cases hm1
    rw [hboard]
    refine ⟨hlen, w.game.piece.offset_row, ?_⟩
    intro r c hr0 hr1 hc0 hc1 hne
    rw [hcells r c hr0 hr1 hc0 hc1, e1] at hne
    obtain ⟨t, ht, hmem⟩ := tetrino_at_ok _ hi
    by_cases hc : piece_covers w.game.piece r c = true
    · obtain ⟨row, hrow, col, -, v, -, -, hrr, -⟩ := (piece_covers_iff _ t ht r c).1 hc
      have h4 := tetrinos_side_le t hmem
      have hlt := (mem_range_side t hmem row).1 hrow
      omega
    · rw [if_neg hc] at hne
      exact absurd rfl hne

/-- The move step starts `lock_count_inv`. -/
theorem update_game_play_move_lock_count {F : Type} (w : World F) (g1 : Game_state F)
    (input : Input_State) (hb : w.game.board.length = 220)
    (hvalid : check_piece_valid w.game.piece w.game.board WIDTH HEIGHT = .ok true)
    (h : update_game_play_move w.game input = .ok g1) :
    lock_count_inv w { w with game := g1 } := by
  unfold update_game_play_move at h
  simp only at h
  cases hc : check_piece_valid (update_game_play_candidate w.game.piece input) w.game.board
      WIDTH HEIGHT with
  | error e => rw [hc] at h; cases h
  | ok valid =>
    rw [hc] at h
    cases valid
    · cases h
      exact ⟨hb, le_refl _, fun _ => ⟨rfl, check_piece_valid_index _ _ _ hvalid,
        valid_in_grid _ _ hb hvalid⟩, fun e => absurd e (by simp)⟩
    · cases h
      exact ⟨hb, le_refl _, fun _ => ⟨rfl, check_piece_valid_index _ _ _ hc,
        valid_in_grid _ _ hb hc⟩, fun e => absurd e (by simp)⟩

/-- At most four rows of the grid lie in a window of four consecutive rows. -/
theorem window_rows_count (r0 : Int) (p : Nat → Bool)
    (hp : ∀ row : Nat, row < 22 → p row = true → r0 ≤ row ∧ (row : Int) < r0 + 4) :
    ((List.range 22).filter p).length ≤ 4 := by
  have hnd : (((List.range 22).filter p).map (fun n : Nat => (n : Int))).Nodup :=
    ((List.nodup_range 22).filter _).map Nat.cast_injective
  have hsub : ((List.range 22).filter p).map (fun n : Nat => (n : Int))
      ⊆ [r0, r0 + 1, r0 + 2, r0 + 3] := by
    intro x hx
    rw [List.mem_map] at hx
    obtain ⟨n, hn, rfl⟩ := hx
    rw [List.mem_filter, List.mem_range] at hn
    have := hp n hn.1 hn.2
    simp only [List.mem_cons, List.mem_singleton, List.not_mem_nil, or_false]
    omega
  have := (hnd.subperm hsub).length_le
  simpa using this

/-- The rows filled by one lock on a board without a full row are at most four. -/
theorem one_lock_full_rows (b b1 : List Nat)
    (hfull : ∀ row : Nat, row < 22 → row_is_full b row = false)
    (hw : one_lock_window b b1) :
    ((List.range 22).filter (row_is_full b1)).length ≤ 4 := by
  obtain ⟨-, r0, hwin⟩ := hw
  apply window_rows_count r0
  intro row hrow h1
  have h0 := hfull row hrow
  unfold row_is_full at h0 h1
  rw [List.all_eq_false] at h0
  obtain ⟨col, hcol, hc0⟩ := h0
  rw [List.all_eq_true] at h1
  have hc1 := h1 col hcol
  have hcol1 : col < 10 := List.mem_range.1 hcol
  apply hwin row col (by omega) (by unfold HEIGHT; omega) (by omega) (by unfold WIDTH; omega)
  intro e
  rw [e] at hc1
  exact hc0 hc1

theorem compute_points_pos (level count : Int) (h0 : 0 ≤ level) (h1 : 0 < count)
    (h4 : count ≤ 4) : compute_points level count > 0 := by
  unfold compute_points
  split_ifs <;> omega

/-- The pending count at the end of a PLAY tick in which at most one piece locked. -/
theorem update_game_play_one_lock {F : Type} (env : Env F) (fuel : Nat) (w w1 : World F)
    (input : Input_State) (hb : w.game.board.length = 220) (hl : w.game.lines.length = 22)
    (hfull : ∀ row : Nat, row < 22 → row_is_full w.game.board row = false)
    (hvalid : check_piece_valid w.game.piece w.game.board WIDTH HEIGHT = .ok true)
    (h : update_game_play env fuel w input = .ok w1)
    (hone : w1.rand_calls ≤ w.rand_calls + 1) :
    0 ≤ w1.game.pending_line_count ∧ w1.game.pending_line_count ≤ 4 ∧
    w1.game.level = w.game.level := by
  obtain ⟨g1, w2, w3, w4, hm, h2, h3, h4, h5, hr⟩ := update_game_play_steps env fuel w w1 input h
  obtain ⟨p2, p3, p4⟩ := drop_steps_preserve env (lock_count_inv w)
    (fun a b moved => soft_drop_lock_count env w a b moved)
  have i1 := update_game_play_move_lock_count w g1 input hb hvalid hm
  have i4 := p4 fuel w3 w4 (p3 fuel input w2 w3 (p2 input _ w2 i1 h2) h3) h4
  obtain ⟨q2, q3, q4⟩ := drop_steps_preserve env
    (fun x : World F => x.game.lines.length = 22 ∧ x.game.level = w.game.level)
    (fun a b moved ha hs => by
      obtain ⟨-, f2, -, -, -, f6, -⟩ := soft_drop_frame env a b moved hs
      exact ⟨f2 ▸ ha.1, f6.trans ha.2⟩)
  have hg1 : g1.lines.length = 22 ∧ g1.level = w.game.level := by
    unfold update_game_play_move at hm
    simp only at hm
    cases hc : check_piece_valid (update_game_play_candidate w.game.piece input) w.game.board
        WIDTH HEIGHT with
    | error e => rw [hc] at hm; cases hm
    | ok valid =>
      rw [hc] at hm
      cases valid <;> cases hm <;> exact ⟨hl, rfl⟩
  have j4 := q4 fuel w3 w4 (q3 fuel input w2 w3
    (q2 input { w with game := g1 } w2 hg1 h2) h3) h4
  obtain ⟨hb4, hle, k0, k1⟩ := i4
  rw [update_game_play_lines_eq env.ops w4.game hb4 j4.1] at h5
  have hcount : ((List.range 22).filter (row_is_full w4.game.board)).length ≤ 4 := by
    rcases Nat.lt_or_ge w.rand_calls w4.rand_calls with hlt | hge
    · exact one_lock_full_rows _ _ hfull (k1 (by omega))
    · obtain ⟨e, -, -⟩ := k0 (by omega)
      rw [e]
      have : (List.range 22).filter (row_is_full w.game.board) = [] := by
        rw [List.filter_eq_nil_iff]
        intro row hrow
        rw [hfull row (List.mem_range.1 hrow)]
        simp
      rw [this]
      simp
  have hw1 : w1.game.pending_line_count
      = (((List.range 22).filter (row_is_full w4.game.board)).length : Int) ∧
      w1.game.level = w4.game.level := by
    split_ifs at h5 <;>
    · have e := (Except.ok.inj h5).symm
      rw [e]
      exact ⟨rfl, rfl⟩
  rw [hw1.1, hw1.2]
  exact ⟨by omega, by omega, j4.2⟩

/-- C17 (amended). A tick of `update_game` on a PLAY-phase state whose board (of
`WIDTH * HEIGHT` cells) has no full row and whose active piece is in a valid placement, for
any input (any combination of soft drop, hard drop and gravity): if the tick returns and at
most one piece was locked in it (`rand()`, called once per spawned piece, was called at most
once), the pending line count at the end of the tick is in `0..4`, and if it is positive and
the level is not negative, `compute_points` for it is positive. -/
theorem update_game_pending_bound {F : Type} (env : Env F) (fuel : Nat) (w w1 : World F)
    (input : Input_State) (hphase : w.game.phase = .GAME_PHASE_PLAY)
    (hb : w.game.board.length = 220) (hl : w.game.lines.length = 22)
    (hfull : ∀ row : Nat, row < 22 → row_is_full w.game.board row = false)
    (hvalid : check_piece_valid w.game.piece w.game.board WIDTH HEIGHT = .ok true)
    (h : update_game env fuel w input = .ok w1)
    (hone : w1.rand_calls ≤ w.rand_calls + 1) :
    0 ≤ w1.game.pending_line_count ∧ w1.game.pending_line_count ≤ 4 ∧
    (0 < w1.game.pending_line_count → 0 ≤ w.game.level →
      compute_points w1.game.level w1.game.pending_line_count > 0) := by
  have hp : update_game_play env fuel w input = .ok w1 := by
    simpa only [update_game, hphase] using h
  obtain ⟨h0, h4, hlevel⟩ := update_game_play_one_lock env fuel w w1 input hb hl hfull hvalid
    hp hone
  exact ⟨h0, h4, fun hpos hlev => compute_points_pos _ _ (hlevel ▸ hlev) hpos h4⟩

set_option maxRecDepth 100000 in
/-- C17 (amended), instance: the hard drop of the I-piece into the gap of the bottom row locks
one piece and fills one row, worth 40 points at level 0. -/
theorem update_game_pending_bound_witness :
    update_game env_zero 22 world_gap_I input_hard_drop = .ok world_gap_I_after ∧
    world_gap_I_after.rand_calls = world_gap_I.rand_calls + 1 ∧
    world_gap_I_after.game.pending_line_count = 1 ∧
    compute_points world_gap_I_after.game.level world_gap_I_after.game.pending_line_count = 40 ∧
    (0 ≤ world_gap_I_after.game.pending_line_count ∧
      world_gap_I_after.game.pending_line_count ≤ 4 ∧
      (0 < world_gap_I_after.game.pending_line_count → 0 ≤ world_gap_I.game.level →
        compute_points world_gap_I_after.game.level
          world_gap_I_after.game.pending_line_count > 0)) :=
  ⟨by decide, by decide, by decide, by decide,
    update_game_pending_bound env_zero 22 world_gap_I world_gap_I_after input_hard_drop
      (by decide) (by decide) (by decide) (by decide) (by decide) (by decide) (by decide)⟩

set_option maxRecDepth 100000 in
/-- C17, counterexample: `world_five_rows` is in the PLAY phase, its board has no full row
(rows 18..21 lack column 7, row 17 lacks columns 5..8) and its upright I-piece is in a valid
placement in column 7, rows 18..21. With soft drop and hard drop both just pressed, the soft
drop locks that piece (rows 18..21 are full), the next I-piece is spawned and the hard drop
locks it in row 17, columns 5..8: the tick ends with two pieces locked, `pending_line_count`
5 and the LINE_CLEAR phase, and `compute_points` for 5 lines is 0. -/
theorem update_game_five_lines_counterexample :
    world_five_rows.game.phase = .GAME_PHASE_PLAY ∧
    world_five_rows.game.board.length = 220 ∧
    (∀ row : Nat, row < 22 → row_is_full world_five_rows.game.board row = false) ∧
    check_piece_valid world_five_rows.game.piece world_five_rows.game.board WIDTH HEIGHT
      = .ok true ∧
    (update_game env_zero 22 world_five_rows input_soft_hard).map
        (fun w1 => (w1.game.phase, w1.game.pending_line_count, w1.rand_calls,
          compute_points w1.game.level w1.game.pending_line_count))
      = .ok (.GAME_PHASE_LINE, 5, 2, 0) ∧
    ¬ ((update_game env_zero 22 world_five_rows input_soft_hard).map
        (fun w1 => decide (w1.game.pending_line_count ≤ 4))
      = .ok true) := by
  decide

end Tetris
